import Mathlib

/-!
Partfolio: scroll / animation orchestration.

A shallow embedding of the animation glue of the portfolio site:

* `src/hooks/useLenis.js`            : smooth-scroll hook (`useLenisMount`, `runCleanup`)
* `src/components/Hero.jsx`          : mouse-parallax frame loop (`heroTick`)
* `src/components/Menu/MenuOverlay.jsx`, `Header/MenuOverlay.jsx`, `Technology.jsx`,
  `Services.jsx`, `Team.jsx`, `Footer.jsx`, `App.jsx`: timelines, triggers, contexts

The browser and the two libraries the code calls into (gsap, Lenis) are not part
of the repository.  The fragments of them that the code exercises are modelled
as explicit state: the animation-frame queue follows the HTML "run the animation
frame callbacks" algorithm, `Ticker` follows `gsap.ticker`, `Lenis` follows the
emitter / `raf` of the Lenis class.  Numbers are rationals (the easing, which
takes a real power of two, is over the reals); milliseconds and seconds are kept
apart by name.
-/

namespace Partfolio

/-! ## Browser animation-frame queue -/

/-- Callbacks that can sit in the animation-frame queue.  The two loops of the
repository are named; everything else is `foreign`, re-requesting itself when
`again` is set (the way any other frame loop on the page would). -/
inductive FrameCb where
  | syncScrollTrigger
  | heroTick
  | foreign (tag : Nat) (again : Bool)
deriving DecidableEq, Repr

/-- The window's map of animation frame callbacks together with its
"animation frame callback identifier" counter. -/
structure RafQueue where
  counter : Nat
  pending : List (Nat × FrameCb)
deriving DecidableEq, Repr

/-- `requestAnimationFrame(cb)`: increment the identifier, store the callback
under it, return it.  Handles are therefore always positive. -/
def requestAnimationFrame (q : RafQueue) (cb : FrameCb) : Nat × RafQueue :=
  (q.counter + 1,
   { counter := q.counter + 1, pending := q.pending ++ [(q.counter + 1, cb)] })

/-- `cancelAnimationFrame(id)`: drop the entry stored under `id`, if any. -/
def cancelAnimationFrame (q : RafQueue) (id : Nat) : RafQueue :=
  { q with pending := q.pending.filter (fun e => e.1 ≠ id) }

/-! ## Library objects the hook talks to -/

/-- Listeners of a Lenis instance's `'scroll'` event. -/
inductive Listener where
  | scrollTriggerUpdate
  | foreign (tag : Nat)
deriving DecidableEq, Repr

/-- Callbacks registered on `gsap.ticker`.  `lenisRaf id` is the closure
`(time) => lenis.raf(time * 1000)` of `useLenis.js:50`, closed over instance `id`. -/
inductive TickerCb where
  | lenisRaf (lenis : Nat)
  | foreign (tag : Nat)
deriving DecidableEq, Repr

/-- Calls observed on the outside world, in the order they happen. -/
inductive Call where
  | newLenis (id : Nat)
  | lenisOn (id : Nat) (l : Listener)
  | lenisOff (id : Nat) (l : Listener)
  | lenisDestroy (id : Nat)
  | lenisRaf (id : Nat) (timeMs : ℚ)
  | animateAdvance (id : Nat) (deltaSec : ℚ)
  | tickerAdd (cb : TickerCb)
  | tickerRemove (cb : TickerCb)
  | lagSmoothing (threshold : ℚ)
  | scrollTriggerUpdate
  | foreignListener (tag : Nat)
  | foreignTicker (tag : Nat)
  | requestFrame (cb : FrameCb) (id : Nat)
  | cancelFrame (id : Nat)
  | gsapSetOrbs (x y : ℚ)
deriving DecidableEq, Repr

/-- The part of a Lenis instance the hook depends on: its `'scroll'` emitter,
its clock (`this.time`, milliseconds) and the clock of the running scroll
animation (`animate.currentTime`, seconds, against `duration`). -/
structure Lenis where
  id : Nat
  duration : ℚ
  scrollListeners : List Listener
  destroyed : Bool
  time : ℚ
  isRunning : Bool
  currentTime : ℚ
deriving DecidableEq, Repr

/-- The state of `gsap.ticker`.  `lagThreshold = none` stands for `Infinity`.
Times are milliseconds except `time`, which is seconds as handed to listeners. -/
structure Ticker where
  listeners : List TickerCb
  lagThreshold : Option ℚ
  adjustedLag : ℚ
  startTime : ℚ
  lastUpdate : ℚ
  nextTime : ℚ
  gap : ℚ
  time : ℚ
  frame : Nat
deriving DecidableEq, Repr

/-- Listeners of the window's `'mousemove'` event. -/
inductive WindowListener where
  | heroOnMove
  | foreign (tag : Nat)
deriving DecidableEq, Repr

/-- Hero's `mouse` ref: `{ x, y, tx, ty, rafId }`. -/
structure Mouse where
  x : ℚ
  y : ℚ
  tx : ℚ
  ty : ℚ
  rafId : Option Nat
deriving DecidableEq, Repr

/-- Everything the hook and the Hero loop read or write. -/
structure World where
  raf : RafQueue
  ticker : Ticker
  lenises : List Lenis
  lenisRef : Option Nat
  rafIdRef : Option Nat
  mouse : Mouse
  orbsPresent : Bool
  mousemove : List WindowListener
  log : List Call
deriving DecidableEq, Repr

/-- `useRef({ x: 0, y: 0, tx: 0, ty: 0, rafId: null })` (Hero.jsx:48). -/
def Mouse.init : Mouse := { x := 0, y := 0, tx := 0, ty := 0, rafId := none }

/-- The ticker as gsap creates it: lag threshold 500 ms, adjusted lag 33 ms,
a gap of 1000/240 ms, clock at `now`. -/
def Ticker.init (now : ℚ) : Ticker :=
  { listeners := [], lagThreshold := some 500, adjustedLag := 33,
    startTime := now, lastUpdate := now, nextTime := 1000 / 240, gap := 1000 / 240,
    time := 0, frame := 0 }

/-- A page on which nothing of the repository has mounted yet. -/
def World.init (now : ℚ) : World :=
  { raf := { counter := 0, pending := [] }, ticker := Ticker.init now, lenises := [],
    lenisRef := none, rafIdRef := none, mouse := Mouse.init, orbsPresent := true,
    mousemove := [], log := [] }

/-! ## World-level primitives -/

/-- Record a call. -/
def World.emit (w : World) (c : Call) : World := { w with log := w.log ++ [c] }

/-- `requestAnimationFrame(cb)` on the world; returns the handle. -/
def World.requestFrame (w : World) (cb : FrameCb) : Nat × World :=
  let r := requestAnimationFrame w.raf cb
  (r.1, { w with raf := r.2, log := w.log ++ [Call.requestFrame cb r.1] })

/-- `cancelAnimationFrame(id)` on the world. -/
def World.cancelFrame (w : World) (id : Nat) : World :=
  { w with raf := cancelAnimationFrame w.raf id, log := w.log ++ [Call.cancelFrame id] }

/-- `new Lenis({ duration, ... })`: a fresh instance with an empty emitter. -/
def World.newLenis (w : World) (duration : ℚ) : Nat × World :=
  let id := w.lenises.length
  (id, { w with
    lenises := w.lenises ++
      [{ id := id, duration := duration, scrollListeners := [], destroyed := false,
         time := 0, isRunning := false, currentTime := 0 }],
    log := w.log ++ [Call.newLenis id] })

/-- Apply `f` to instance `id`. -/
def World.updLenis (w : World) (id : Nat) (f : Lenis → Lenis) : World :=
  { w with lenises := w.lenises.map (fun l => if l.id = id then f l else l) }

/-- `lenis.on('scroll', cb)`: push on the emitter's list. -/
def World.lenisOn (w : World) (id : Nat) (cb : Listener) : World :=
  (w.updLenis id (fun l => { l with scrollListeners := l.scrollListeners ++ [cb] })).emit
    (Call.lenisOn id cb)

/-- `lenis.off('scroll', cb)`: filter the emitter's list. -/
def World.lenisOff (w : World) (id : Nat) (cb : Listener) : World :=
  (w.updLenis id (fun l =>
    { l with scrollListeners := l.scrollListeners.filter (fun c => c ≠ cb) })).emit
    (Call.lenisOff id cb)

/-- `lenis.destroy()`: the emitter is emptied and the instance is dead. -/
def World.lenisDestroy (w : World) (id : Nat) : World :=
  (w.updLenis id (fun l =>
    { l with scrollListeners := [], destroyed := true, isRunning := false })).emit
    (Call.lenisDestroy id)

/-- `gsap.ticker.remove(cb)`: splice out the first occurrence. -/
def World.tickerRemove (w : World) (cb : TickerCb) : World :=
  { w with ticker := { w.ticker with listeners := w.ticker.listeners.erase cb },
           log := w.log ++ [Call.tickerRemove cb] }

/-- `gsap.ticker.add(cb)`: remove it if present, then push. -/
def World.tickerAdd (w : World) (cb : TickerCb) : World :=
  { w with
    ticker := { w.ticker with listeners := w.ticker.listeners.erase cb ++ [cb] },
    log := w.log ++ [Call.tickerAdd cb] }

/-- `gsap.ticker.lagSmoothing(threshold)` with the second argument left out:
`_lagThreshold = threshold || Infinity; _adjustedLag = Math.min(33, _lagThreshold)`. -/
def World.lagSmoothing (w : World) (threshold : ℚ) : World :=
  let thr : Option ℚ := if threshold = 0 then none else some threshold
  let adj : ℚ := match thr with
    | none => 33
    | some t => min 33 t
  { w with ticker := { w.ticker with lagThreshold := thr, adjustedLag := adj },
           log := w.log ++ [Call.lagSmoothing threshold] }

/-! ## useLenis (src/hooks/useLenis.js) -/

/-- The function returned by the mount effect. -/
inductive Cleanup where
  | desktop (lenis : Nat) (tickerCb : TickerCb)
  | mobile
deriving DecidableEq, Repr

/-- The effect body of `useLenis` (lines 24-75).  `isTouchDevice` is
`window.matchMedia('(pointer: coarse)').matches`.  Of the constructor options
only `duration` is state here; the `easing` option is `easing` below, and the
remaining ones do not bear on what the hook registers. -/
def useLenisMount (isTouchDevice : Bool) (w : World) : Cleanup × World :=
  if !isTouchDevice then
    let r := w.newLenis (12 / 10)
    let lenis := r.1
    let w1 := { r.2 with lenisRef := some lenis }
    let w2 := w1.lenisOn lenis Listener.scrollTriggerUpdate
    let tickerCb := TickerCb.lenisRaf lenis
    let w3 := w2.tickerAdd tickerCb
    let w4 := w3.lagSmoothing 0
    (Cleanup.desktop lenis tickerCb, w4)
  else
    let r := w.requestFrame FrameCb.syncScrollTrigger
    (Cleanup.mobile, { r.2 with rafIdRef := some r.1 })

/-- Running the function returned by the mount effect. -/
def runCleanup (c : Cleanup) (w : World) : World :=
  match c with
  | Cleanup.desktop lenis tickerCb =>
    let w1 := w.lenisOff lenis Listener.scrollTriggerUpdate
    let w2 := w1.tickerRemove tickerCb
    let w3 := w2.lenisDestroy lenis
    { w3 with lenisRef := none }
  | Cleanup.mobile =>
    match w.rafIdRef with
    | some id => if id ≠ 0 then w.cancelFrame id else w
    | none => w

/-- `syncScrollTrigger` (lines 65-68). -/
def syncScrollTrigger (w : World) : World :=
  let w1 := w.emit Call.scrollTriggerUpdate
  let r := w1.requestFrame FrameCb.syncScrollTrigger
  { r.2 with rafIdRef := some r.1 }

/-! ## Lenis and the gsap ticker at run time -/

/-- Invoking one `'scroll'` listener. -/
def runListener (c : Listener) (w : World) : World :=
  match c with
  | Listener.scrollTriggerUpdate => w.emit Call.scrollTriggerUpdate
  | Listener.foreign tag => w.emit (Call.foreignListener tag)

/-- `lenis.raf(time)`:
`deltaTime = time - (this.time || time); this.time = time;
 this.animate.advance(deltaTime * 0.001)`, where `advance` returns at once when no
scroll animation is running and otherwise moves the animation clock, updates the
offset and emits `'scroll'` to the listeners in registration order. -/
def World.lenisRaf (w : World) (id : Nat) (time : ℚ) : World :=
  match w.lenises.find? (fun l => l.id = id) with
  | none => w
  | some l =>
    let deltaTime := time - (if l.time = 0 then time else l.time)
    let w1 := (w.updLenis id (fun l => { l with time := time })).emit (Call.lenisRaf id time)
    let w2 := w1.emit (Call.animateAdvance id (deltaTime / 1000))
    if !l.isRunning then w2
    else
      let ct := l.currentTime + deltaTime / 1000
      let completed := decide (l.duration ≤ ct)
      let w3 := w2.updLenis id (fun l => { l with currentTime := ct, isRunning := !completed })
      l.scrollListeners.foldl (fun w c => runListener c w) w3

/-- A wheel input on a live instance starts (or restarts) its scroll animation. -/
def World.wheel (w : World) (id : Nat) : World :=
  w.updLenis id (fun l =>
    if l.destroyed then l else { l with isRunning := true, currentTime := 0 })

/-- Invoking one ticker listener with the ticker time (seconds).
`tickerCb = (time) => lenis.raf(time * 1000)`. -/
def runTickerCb (time : ℚ) (cb : TickerCb) (w : World) : World :=
  match cb with
  | TickerCb.lenisRaf lenis => w.lenisRaf lenis (time * 1000)
  | TickerCb.foreign tag => w.emit (Call.foreignTicker tag)

/-- One run of gsap's `_tick` at wall-clock `now` (milliseconds):
the lag test moves `_startTime` forward when the elapsed time exceeds the
threshold, the ticker time is `_lastUpdate - _startTime`, and the listeners are
dispatched in order when the frame is due. -/
def gsapTick (now : ℚ) (w : World) : World :=
  let t := w.ticker
  let elapsed := now - t.lastUpdate
  let lagging : Bool :=
    (match t.lagThreshold with
      | some thr => decide (thr < elapsed)
      | none => false) || decide (elapsed < 0)
  let startTime := if lagging then t.startTime + (elapsed - t.adjustedLag) else t.startTime
  let lastUpdate := t.lastUpdate + elapsed
  let timeMs := lastUpdate - startTime
  let overlap := timeMs - t.nextTime
  if 0 < overlap then
    let time := timeMs / 1000
    let t1 : Ticker :=
      { t with startTime := startTime, lastUpdate := lastUpdate, frame := t.frame + 1,
               time := time,
               nextTime := t.nextTime + (overlap + (if t.gap ≤ overlap then 4 else t.gap - overlap)) }
    t.listeners.foldl (fun w cb => runTickerCb time cb w) { w with ticker := t1 }
  else
    { w with ticker := { t with startTime := startTime, lastUpdate := lastUpdate } }

/-! ## Hero mouse parallax (src/components/Hero.jsx, lines 111-152) -/

/-- `onMove` (lines 118-122). -/
def onMove (clientX clientY innerWidth innerHeight : ℚ) (w : World) : World :=
  { w with mouse := { w.mouse with
      tx := (clientX / innerWidth - 1 / 2) * 2,
      ty := (clientY / innerHeight - 1 / 2) * 2 } }

/-- `tick` (lines 124-138): re-request first, then lerp and apply. -/
def heroTick (w : World) : World :=
  let r := w.requestFrame FrameCb.heroTick
  let w1 := { r.2 with mouse := { r.2.mouse with rafId := some r.1 } }
  if !w1.orbsPresent then w1
  else
    let m := w1.mouse
    let x := m.x + (m.tx - m.x) * (7 / 100)
    let y := m.y + (m.ty - m.y) * (7 / 100)
    ({ w1 with mouse := { m with x := x, y := y } }).emit (Call.gsapSetOrbs (x * 20) (y * 20))

/-- `window.addEventListener('mousemove', l)`: a listener already present is
not added a second time. -/
def World.addMouseMove (w : World) (l : WindowListener) : World :=
  if l ∈ w.mousemove then w else { w with mousemove := w.mousemove ++ [l] }

/-- `window.removeEventListener('mousemove', l)`. -/
def World.removeMouseMove (w : World) (l : WindowListener) : World :=
  { w with mousemove := w.mousemove.erase l }

/-- `startMouseParallax` (lines 112-147); `none` is the early `return`. -/
def startMouseParallax (coarse : Bool) (w : World) : Option Unit × World :=
  if coarse then (none, w)
  else
    let w1 := w.addMouseMove WindowListener.heroOnMove
    let r := w1.requestFrame FrameCb.heroTick
    (some (), { r.2 with mouse := { r.2.mouse with rafId := some r.1 } })

/-- The cleanup returned by `startMouseParallax` (lines 143-146).
`cancelAnimationFrame(null)` cancels handle 0, which never exists. -/
def heroCleanup (w : World) : World :=
  (w.removeMouseMove WindowListener.heroOnMove).cancelFrame (w.mouse.rafId.getD 0)

/-! ## Frames and other events -/

/-- Invoking one animation-frame callback. -/
def runFrameCb (cb : FrameCb) (w : World) : World :=
  match cb with
  | FrameCb.syncScrollTrigger => syncScrollTrigger w
  | FrameCb.heroTick => heroTick w
  | FrameCb.foreign tag again =>
    if again then (w.requestFrame (FrameCb.foreign tag again)).2 else w

/-- One handle of the frame's snapshot: if it is still in the map, remove it
and invoke its callback. -/
def runHandle (w : World) (h : Nat) : World :=
  match w.raf.pending.lookup h with
  | some cb => runFrameCb cb { w with raf := cancelAnimationFrame w.raf h }
  | none => w

/-- "Run the animation frame callbacks": snapshot the handles, then process
them in order.  Requests made during the frame wait for the next one. -/
def runFrame (w : World) : World :=
  (w.raf.pending.map Prod.fst).foldl runHandle w

/-- Dispatching a `mousemove` event to the registered listeners. -/
def dispatchMouseMove (clientX clientY innerWidth innerHeight : ℚ) (w : World) : World :=
  w.mousemove.foldl (fun w l =>
    match l with
    | WindowListener.heroOnMove => onMove clientX clientY innerWidth innerHeight w
    | WindowListener.foreign _ => w) w

/-- What can happen on the page between a mount and its cleanup. -/
inductive Step where
  | frame
  | gsapTick (now : ℚ)
  | wheel (lenis : Nat)
  | mouseMove (clientX clientY innerWidth innerHeight : ℚ)
  | foreignRequest (tag : Nat) (again : Bool)
  | foreignCancel (id : Nat)
deriving DecidableEq, Repr

/-- Perform one step.  Foreign code cancels only handles of its own. -/
def step (w : World) (s : Step) : World :=
  match s with
  | Step.frame => runFrame w
  | Step.gsapTick now => gsapTick now w
  | Step.wheel lenis => w.wheel lenis
  | Step.mouseMove cx cy iw ih => dispatchMouseMove cx cy iw ih w
  | Step.foreignRequest tag again => (w.requestFrame (FrameCb.foreign tag again)).2
  | Step.foreignCancel id =>
    match w.raf.pending.lookup id with
    | some (FrameCb.foreign _ _) => w.cancelFrame id
    | _ => w

/-- Perform a sequence of steps. -/
def run (w : World) (ss : List Step) : World := ss.foldl step w

/-! ## gsap animations: timelines and tweens -/

/-- A gsap animation (tween or timeline) as `play`, `reverse` and the ticker see
it: a playhead `time` in `[0, duration]` (seconds), a direction and a paused
flag.  `id` tells instances apart. -/
structure Animation where
  id : Nat
  time : ℚ
  duration : ℚ
  reversed : Bool
  paused : Bool
deriving DecidableEq, Repr

/-- Normalised playhead position. -/
def Animation.progress (a : Animation) : ℚ := a.time / a.duration

/-- `animation.play()`: forward and unpaused, playhead untouched. -/
def Animation.play (a : Animation) : Animation := { a with reversed := false, paused := false }

/-- `animation.reverse()`: backward and unpaused, playhead untouched. -/
def Animation.reverse (a : Animation) : Animation := { a with reversed := true, paused := false }

/-- `animation.pause()`. -/
def Animation.pause (a : Animation) : Animation := { a with paused := true }

/-- `animation.resume()`. -/
def Animation.resume (a : Animation) : Animation := { a with paused := false }

/-- `animation.restart(true)`: back to the start, forward, unpaused. -/
def Animation.restart (a : Animation) : Animation :=
  { a with time := 0, reversed := false, paused := false }

/-- The ticker moving the playhead by `dt` seconds in the animation's direction,
clamped to `[0, duration]`; a paused animation stays where it is. -/
def Animation.advance (a : Animation) (dt : ℚ) : Animation :=
  if a.paused then a
  else { a with time := max 0 (min a.duration (if a.reversed then a.time - dt else a.time + dt)) }

/-- One `.to(targets, { duration, stagger }, '-=back')` of a timeline. -/
structure TlStep where
  duration : ℚ
  stagger : ℚ
  targets : Nat
  back : ℚ
deriving DecidableEq, Repr

/-- How long a step lasts: `duration + stagger * (targets - 1)`. -/
def TlStep.span (s : TlStep) : ℚ := s.duration + s.stagger * ((s.targets - 1 : Nat) : ℚ)

/-- Appending a step to a timeline that currently ends at `e`: the step starts
`back` seconds before `e`; returns its start and the timeline's new end. -/
def placeStep (e : ℚ) (s : TlStep) : ℚ × ℚ := (e - s.back, max e (e - s.back + s.span))

/-- Total duration of a timeline built from `steps`. -/
def timelineDuration (steps : List TlStep) : ℚ :=
  steps.foldl (fun e s => (placeStep e s).2) 0

/-! ## Menu/MenuOverlay.jsx -/

/-- The open timeline (lines 73-101) for `items` nav links and `socials` links. -/
def menuSteps (items socials : Nat) : List TlStep :=
  [ { duration := 55 / 100, stagger := 0, targets := 1, back := 0 },
    { duration := 65 / 100, stagger := 8 / 100, targets := items, back := 25 / 100 },
    { duration := 4 / 10, stagger := 0, targets := 1, back := 4 / 10 },
    { duration := 4 / 10, stagger := 5 / 100, targets := socials, back := 3 / 10 } ]

/-- The component's refs as far as the animation goes: `tlRef.current`. -/
structure MenuOverlay where
  tlRef : Option Animation
deriving DecidableEq, Repr

/-- Before the mount effect: `tlRef = useRef(null)`. -/
def MenuOverlay.init : MenuOverlay := { tlRef := none }

/-- The mount effect (lines 56-109): build the paused timeline once (five nav
items, four social links) and keep it in `tlRef`. -/
def menuMount (_m : MenuOverlay) : MenuOverlay :=
  { tlRef := some { id := 0, time := 0, duration := timelineDuration (menuSteps 5 4),
                    reversed := false, paused := true } }

/-- The `[isOpen]` effect (lines 112-125). -/
def menuEffect (isOpen : Bool) (m : MenuOverlay) : MenuOverlay :=
  match m.tlRef with
  | none => m
  | some tl => if isOpen then { tlRef := some tl.play } else { tlRef := some tl.reverse }

/-- A ticker tick of `dt` seconds reaching the timeline. -/
def menuTick (dt : ℚ) (m : MenuOverlay) : MenuOverlay :=
  { tlRef := m.tlRef.map (fun tl => tl.advance dt) }

/-- Progress of the timeline held in `tlRef` (0 when there is none). -/
def MenuOverlay.progress (m : MenuOverlay) : ℚ :=
  match m.tlRef with
  | some tl => tl.progress
  | none => 0

/-- What happens to a mounted menu: `isOpen` changes, or time passes. -/
inductive MenuEvent where
  | setOpen (isOpen : Bool)
  | tick (dt : ℚ)
deriving DecidableEq, Repr

/-- Perform one menu event. -/
def menuStep (m : MenuOverlay) (e : MenuEvent) : MenuOverlay :=
  match e with
  | MenuEvent.setOpen b => menuEffect b m
  | MenuEvent.tick dt => menuTick dt m

/-- Perform a sequence of menu events. -/
def menuRun (m : MenuOverlay) (es : List MenuEvent) : MenuOverlay := es.foldl menuStep m

/-- A run of ticks. -/
def menuTicks (m : MenuOverlay) (dts : List ℚ) : MenuOverlay :=
  dts.foldl (fun m dt => menuTick dt m) m

/-! ## ScrollTrigger toggle actions (Technology.jsx, Services.jsx) -/

/-- The words a `toggleActions` string is made of. -/
inductive ToggleAction where
  | play | pause | resume | reverse | restart | reset | complete | none
deriving DecidableEq, Repr

/-- The four callbacks of a trigger, in the order `toggleActions` lists them. -/
inductive TriggerEvent where
  | enter | leave | enterBack | leaveBack
deriving DecidableEq, Repr

/-- ScrollTrigger applying one toggle action to the bound animation. -/
def applyAction (act : ToggleAction) (a : Animation) : Animation :=
  match act with
  | ToggleAction.play => a.play
  | ToggleAction.pause => a.pause
  | ToggleAction.resume => a.resume
  | ToggleAction.reverse => a.reverse
  | ToggleAction.restart => a.restart
  | ToggleAction.reset => a.restart.pause
  | ToggleAction.complete => { a.pause with time := a.duration }
  | ToggleAction.none => a

/-- A trigger with toggle actions and the animation bound to it. -/
structure ToggleTrigger where
  onEnter : ToggleAction
  onLeave : ToggleAction
  onEnterBack : ToggleAction
  onLeaveBack : ToggleAction
  animation : Animation
deriving DecidableEq, Repr

/-- The action `toggleActions` assigns to an event. -/
def ToggleTrigger.actionFor (t : ToggleTrigger) (e : TriggerEvent) : ToggleAction :=
  match e with
  | TriggerEvent.enter => t.onEnter
  | TriggerEvent.leave => t.onLeave
  | TriggerEvent.enterBack => t.onEnterBack
  | TriggerEvent.leaveBack => t.onLeaveBack

/-- What happens to a trigger: one of its callbacks fires, or time passes. -/
inductive TriggerStep where
  | fire (e : TriggerEvent)
  | tick (dt : ℚ)
deriving DecidableEq, Repr

/-- Perform one trigger step. -/
def ToggleTrigger.step (t : ToggleTrigger) (s : TriggerStep) : ToggleTrigger :=
  match s with
  | TriggerStep.fire e => { t with animation := applyAction (t.actionFor e) t.animation }
  | TriggerStep.tick dt => { t with animation := t.animation.advance dt }

/-- Perform a sequence of trigger steps. -/
def ToggleTrigger.run (t : ToggleTrigger) (ss : List TriggerStep) : ToggleTrigger :=
  ss.foldl ToggleTrigger.step t

/-- The heading reveal of Technology.jsx (lines 54-69): a 0.9 s tween held at its
start by the trigger, `toggleActions: 'play none none none'`. -/
def technologyHeadingReveal : ToggleTrigger :=
  { onEnter := ToggleAction.play, onLeave := ToggleAction.none,
    onEnterBack := ToggleAction.none, onLeaveBack := ToggleAction.none,
    animation := { id := 0, time := 0, duration := 9 / 10, reversed := false, paused := true } }

/-- The stats reveal of Technology.jsx (lines 72-88): 0.7 s per stat, stagger
0.12 s over `stats` elements, `toggleActions: 'play none none none'`. -/
def technologyStatsReveal (stats : Nat) : ToggleTrigger :=
  { onEnter := ToggleAction.play, onLeave := ToggleAction.none,
    onEnterBack := ToggleAction.none, onLeaveBack := ToggleAction.none,
    animation := { id := 1, time := 0,
                   duration := 7 / 10 + 12 / 100 * ((stats - 1 : Nat) : ℚ),
                   reversed := false, paused := true } }

/-! ## ScrollTrigger scrub (Hero.jsx, Services.jsx, Team.jsx, Footer.jsx) -/

/-- The `scrub` values the components pass: Hero 1.2, Services 1.5, Team 1,
Footer 1 (seconds the animation takes to catch up with the scroll position). -/
def heroScrub : ℚ := 12 / 10

/-- Services stack push: `scrub: 1.5`. -/
def servicesScrub : ℚ := 15 / 10

/-- Team cards: `scrub: 1`. -/
def teamScrub : ℚ := 1

/-- Footer CTA: `scrub: 1`. -/
def footerScrub : ℚ := 1

/-- `clipped > 1 ? 1 : clipped < 0 ? 0 : clipped`. -/
def clamp01 (x : ℚ) : ℚ := max 0 (min 1 x)

/-- The progress ScrollTrigger derives from the scroll offset:
`(scroll - start) / (end - start)` clamped to `[0, 1]`. -/
def scrubTarget (start stop scroll : ℚ) : ℚ := clamp01 ((scroll - start) / (stop - start))

/-- A trigger with a numeric `scrub`: its own `progress`, the progress of the
bound animation, and the internal catch-up tween (`from`, `to`, elapsed time)
that moves the animation toward the trigger's progress. -/
structure ScrubTrigger where
  start : ℚ
  stop : ℚ
  scrub : ℚ
  progress : ℚ
  animProgress : ℚ
  tweenFrom : ℚ
  tweenTo : ℚ
  tweenElapsed : ℚ
  tweening : Bool
deriving DecidableEq, Repr

/-- A trigger as created: everything at the start, no catch-up tween running. -/
def ScrubTrigger.create (start stop scrub : ℚ) : ScrubTrigger :=
  { start := start, stop := stop, scrub := scrub, progress := 0, animProgress := 0,
    tweenFrom := 0, tweenTo := 0, tweenElapsed := 0, tweening := false }

/-- `ScrollTrigger.update` for one trigger at scroll offset `scroll`: when the
clamped ratio changed, it becomes the trigger's progress and the catch-up tween is
restarted from the animation's current progress toward it. -/
def ScrubTrigger.update (t : ScrubTrigger) (scroll : ℚ) : ScrubTrigger :=
  if scrubTarget t.start t.stop scroll = t.progress then t
  else
    { t with progress := scrubTarget t.start t.stop scroll, tweenFrom := t.animProgress,
             tweenTo := scrubTarget t.start t.stop scroll, tweenElapsed := 0,
             tweening := true }

/-- The ticker advancing the catch-up tween by `dt` seconds with easing `ease`;
after `scrub` seconds the animation has arrived. -/
def ScrubTrigger.tick (ease : ℚ → ℚ) (t : ScrubTrigger) (dt : ℚ) : ScrubTrigger :=
  if !t.tweening then t
  else if t.scrub ≤ t.tweenElapsed + dt then
    { t with animProgress := t.tweenTo, tweenElapsed := t.scrub, tweening := false }
  else
    { t with
      animProgress := t.tweenFrom + (t.tweenTo - t.tweenFrom) * ease ((t.tweenElapsed + dt) / t.scrub),
      tweenElapsed := t.tweenElapsed + dt }

/-- What happens to a scrub trigger: the scroll offset is re-read, or time passes. -/
inductive ScrubEvent where
  | update (scroll : ℚ)
  | tick (dt : ℚ)
deriving DecidableEq, Repr

/-- Perform one scrub event. -/
def ScrubTrigger.step (ease : ℚ → ℚ) (t : ScrubTrigger) (e : ScrubEvent) : ScrubTrigger :=
  match e with
  | ScrubEvent.update scroll => t.update scroll
  | ScrubEvent.tick dt => t.tick ease dt

/-- Perform a sequence of scrub events. -/
def ScrubTrigger.run (ease : ℚ → ℚ) (t : ScrubTrigger) (es : List ScrubEvent) : ScrubTrigger :=
  es.foldl (ScrubTrigger.step ease) t

/-- A run of ticks. -/
def ScrubTrigger.ticks (ease : ℚ → ℚ) (t : ScrubTrigger) (dts : List ℚ) : ScrubTrigger :=
  dts.foldl (ScrubTrigger.tick ease) t

/-! ## The Lenis easing (useLenis.js, lines 33-34) -/

/-- `duration: 1.2` (seconds). -/
def lenisDuration : ℚ := 12 / 10

/-- `easing: (t) => Math.min(1, 1.001 - Math.pow(2, -10 * t))`, over the reals. -/
noncomputable def easing (t : ℝ) : ℝ := min 1 (1.001 - (2 : ℝ) ^ (-10 * t))

/-- The easing at the grid points `t = k / 10`, where the power of two is
rational: `min(1, 1.001 - 2^(-k))`. -/
def easingTenth (k : Nat) : ℚ := min 1 (1001 / 1000 - 1 / 2 ^ k)

/-- The offset Lenis' animation yields `currentTime` seconds into a scroll from
`start` to `target`: linear progress `clamp(0, currentTime / duration, 1)`, eased
(1 once completed), then `start + (target - start) * eased`. -/
noncomputable def lenisOffset (start target currentTime : ℝ) : ℝ :=
  start + (target - start) *
    (if 1 ≤ max 0 (min (currentTime / (lenisDuration : ℝ)) 1) then 1
     else easing (max 0 (min (currentTime / (lenisDuration : ℝ)) 1)))

/-! ## Frame loops: what is pending and what is stored -/

/-- The frame queue is a map: handles are distinct, positive and were all issued
by the counter. -/
def RafQueue.WF (q : RafQueue) : Prop :=
  (q.pending.map Prod.fst).Nodup ∧ ∀ e ∈ q.pending, 0 < e.1 ∧ e.1 ≤ q.counter

/-- The pending frame requests whose callback is `cb`. -/
def loopPending (cb : FrameCb) (w : World) : List (Nat × FrameCb) :=
  w.raf.pending.filter (fun e => e.2 = cb)

/-- Where each loop keeps the handle of its last request:
`rafIdRef.current` (useLenis.js) and `mouse.current.rafId` (Hero.jsx). -/
def storedId (cb : FrameCb) (w : World) : Option Nat :=
  match cb with
  | FrameCb.syncScrollTrigger => w.rafIdRef
  | FrameCb.heroTick => w.mouse.rafId
  | FrameCb.foreign _ _ => none

/-- Exactly one request of the loop is pending and the stored handle is its handle. -/
def LoopRunning (cb : FrameCb) (w : World) : Prop :=
  ∃ id, storedId cb w = some id ∧ loopPending cb w = [(id, cb)]

/-- The call a `'scroll'` listener amounts to when invoked. -/
def Listener.call : Listener → Call
  | Listener.scrollTriggerUpdate => Call.scrollTriggerUpdate
  | Listener.foreign tag => Call.foreignListener tag

/-! ## What a mount can register -/

/-- The calls by which `useLenis` builds its desktop set-up. -/
def Call.isRegistration : Call → Bool
  | Call.newLenis _ => true
  | Call.lenisOn _ _ => true
  | Call.tickerAdd _ => true
  | _ => false

/-- The registrations visible on the page: every Lenis instance with its
`'scroll'` listeners and liveness, the ticker's listeners, `lenisRef.current`,
and the registration calls made so far. -/
def hookView (w : World) :
    List (Nat × List Listener × Bool) × List TickerCb × Option Nat × List Call :=
  (w.lenises.map (fun l => (l.id, l.scrollListeners, l.destroyed)),
   w.ticker.listeners, w.lenisRef, w.log.filter Call.isRegistration)

/-! ## The media query (useLenis.js:28, Hero.jsx:114) -/

/-- An exception thrown by the JavaScript engine. -/
inductive JsError where
  | typeError
deriving DecidableEq, Repr

/-- The mount effect of `useLenis` with the call
`window.matchMedia('(pointer: coarse)').matches` made explicit.  `none` is a
page on which `window.matchMedia` is undefined: calling it throws a `TypeError`,
and the effect has no handler around the call.  `some mm` is the function; an
unsupported query simply does not match. -/
def useLenisEffect (matchMedia : Option (String → Bool)) (w : World) :
    Except JsError (Cleanup × World) :=
  match matchMedia with
  | none => Except.error JsError.typeError
  | some mm => Except.ok (useLenisMount (mm "(pointer: coarse)") w)

/-- What mounting `App` leaves behind: the page, how often the media query was
evaluated, whether `startMouseParallax` returned a cleanup, and the cleanup of
`useLenis`. -/
structure Session where
  world : World
  queries : Nat
  heroCleanup : Option Unit
  lenisCleanup : Cleanup
deriving DecidableEq, Repr

/-- Mounting `App` (App.jsx).  React runs the effects of the children before
those of the parent, so Hero's parallax effect (Hero.jsx:149-152) evaluates
the query first and `useLenis` (App.jsx:16) second.  `answer k` is what the
`k`-th evaluation of `'(pointer: coarse)'` returns. -/
def appMount (answer : Nat → Bool) (w : World) : Session :=
  let q0 : Nat := 0
  let h := startMouseParallax (answer q0) w
  let q1 := q0 + 1
  let l := useLenisMount (answer q1) h.2
  let q2 := q1 + 1
  { world := l.2, queries := q2, heroCleanup := h.1, lenisCleanup := l.1 }

/-! ## Timelines of the components -/

/-- The start offsets of the steps of a timeline, in declaration order. -/
def stepStarts (steps : List TlStep) : List ℚ :=
  (steps.foldl
    (fun (acc : List ℚ × ℚ) s => (acc.1 ++ [(placeStep acc.2 s).1], (placeStep acc.2 s).2))
    ([], 0)).1

/-- Hero intro timeline (Hero.jsx:71-81) over `lines` title lines. -/
def heroIntroSteps (lines : Nat) : List TlStep :=
  [ { duration := 11 / 10, stagger := 12 / 100, targets := lines, back := 0 },
    { duration := 9 / 10, stagger := 0, targets := 1, back := 7 / 10 },
    { duration := 7 / 10, stagger := 0, targets := 1, back := 55 / 100 },
    { duration := 7 / 10, stagger := 0, targets := 1, back := 5 / 10 },
    { duration := 5 / 10, stagger := 0, targets := 1, back := 3 / 10 } ]

/-- Header/MenuOverlay open timeline (lines 39-89): a `set`, the overlay fade,
the menu links, the close button, the social links. -/
def headerOpenSteps (links socials : Nat) : List TlStep :=
  [ { duration := 0, stagger := 0, targets := 1, back := 0 },
    { duration := 3 / 10, stagger := 0, targets := 1, back := 0 },
    { duration := 8 / 10, stagger := 1 / 10, targets := links, back := 2 / 10 },
    { duration := 5 / 10, stagger := 0, targets := 1, back := 6 / 10 },
    { duration := 5 / 10, stagger := 5 / 100, targets := socials, back := 4 / 10 } ]

/-- Header/MenuOverlay close timeline (lines 93-115): the menu links, the
overlay fade, a `set`. -/
def headerCloseSteps (links : Nat) : List TlStep :=
  [ { duration := 4 / 10, stagger := 5 / 100, targets := links, back := 0 },
    { duration := 3 / 10, stagger := 0, targets := 1, back := 2 / 10 },
    { duration := 0, stagger := 0, targets := 1, back := 0 } ]

/-! ## Services.jsx -/

/-- `const scaleTarget = 0.97 - i * 0.01` (line 89). -/
def scaleTarget (i : Nat) : ℚ := 97 / 100 - (i : ℚ) * (1 / 100)

/-- The tweens the Services effect creates: the entrance of a card, and the
scale-down of a card triggered by another card. -/
inductive ServicesTween where
  | entrance (card : Nat)
  | scaleDown (card : Nat) (trigger : Nat)
deriving DecidableEq, Repr

/-- The body of `cards.forEach((card, i) => ...)` (lines 67-103) for card `i` of
`n`: the entrance tween, and the scale-down when `i < cards.length - 1`. -/
def servicesCard (n i : Nat) : List ServicesTween :=
  ServicesTween.entrance i ::
    (if (i : ℤ) < (n : ℤ) - 1 then [ServicesTween.scaleDown i (i + 1)] else [])

/-- The Services effect over `n` cards. -/
def servicesEffect (n : Nat) : List ServicesTween :=
  ((List.range n).map (servicesCard n)).flatten

/-- The entrance trigger of a Services card (lines 69-84): a 0.8 s tween,
`toggleActions: 'play none none reverse'`. -/
def servicesEntrance : ToggleTrigger :=
  { onEnter := ToggleAction.play, onLeave := ToggleAction.none,
    onEnterBack := ToggleAction.none, onLeaveBack := ToggleAction.reverse,
    animation := { id := 0, time := 0, duration := 8 / 10, reversed := false, paused := true } }

/-- Whether a tween is a card entrance. -/
def ServicesTween.isEntrance : ServicesTween → Bool
  | ServicesTween.entrance _ => true
  | ServicesTween.scaleDown _ _ => false

/-- Whether a tween is a scale-down. -/
def ServicesTween.isScaleDown : ServicesTween → Bool
  | ServicesTween.entrance _ => false
  | ServicesTween.scaleDown _ _ => true

/-! ## gsap contexts: who owns which animation -/

/-- The components that create gsap animations. -/
inductive Component where
  | hero | services | technology | team | footer | menuOverlay | headerMenuOverlay
deriving DecidableEq, Repr

/-- A tween or timeline gsap is holding.  `inContext` says whether it was
created while the callback of the owner's `gsap.context` ran.  `remaining` is
the time until it completes by itself, `none` when it stays until it is killed
(bound to a trigger, repeating, or paused).  The steps of a timeline belong to
the timeline; `gsap.set` calls complete at once and are not listed. -/
structure Anim where
  owner : Component
  inContext : Bool
  remaining : Option ℚ
deriving DecidableEq, Repr

/-- The hover effect of Team (Team.jsx:75-100): one `gsap.to` of 0.3 s per
card, called directly in the effect body, outside any context. -/
def teamHoverEffect (cards : Nat) : List Anim :=
  List.replicate cards { owner := Component.team, inContext := false, remaining := some (3 / 10) }

/-- The animations the effects of a component create when it mounts, for a
component with `cards` cards (Services, Team) and the `isOpen` prop it is
mounted with (Header/MenuOverlay).
* Hero: intro timeline (delay 0.3 s), the repeating bounce, the scroll parallax.
* Services: the tweens of `servicesEffect`.
* Technology: the two reveals.  Footer: the CTA reveal.
* Team: the scroll reveal inside the context, then the hover effect.
* Menu/MenuOverlay: the paused open timeline.
* Header/MenuOverlay: `gsap.timeline()` in the effect body, no context. -/
def mountAnims (c : Component) (cards : Nat) (isOpen : Bool) : List Anim :=
  match c with
  | Component.hero =>
    [ { owner := c, inContext := true,
        remaining := some (3 / 10 + timelineDuration (heroIntroSteps 2)) },
      { owner := c, inContext := true, remaining := none },
      { owner := c, inContext := true, remaining := none } ]
  | Component.services =>
    (servicesEffect cards).map (fun _ => { owner := c, inContext := true, remaining := none })
  | Component.technology =>
    [ { owner := c, inContext := true, remaining := none },
      { owner := c, inContext := true, remaining := none } ]
  | Component.team =>
    { owner := c, inContext := true, remaining := none } :: teamHoverEffect cards
  | Component.footer => [ { owner := c, inContext := true, remaining := none } ]
  | Component.menuOverlay => [ { owner := c, inContext := true, remaining := none } ]
  | Component.headerMenuOverlay =>
    [ { owner := c, inContext := false,
        remaining := some (if isOpen then timelineDuration (headerOpenSteps 5 4)
                           else timelineDuration (headerCloseSteps 5)) } ]

/-- Time passing: animations that complete by themselves are dropped. -/
def gsapElapse (dt : ℚ) (g : List Anim) : List Anim :=
  g.filterMap (fun a =>
    match a.remaining with
    | none => some a
    | some r => if r ≤ dt then none else some { a with remaining := some (r - dt) })

/-- Unmounting a component runs the cleanups its effects returned: where there
is one it is `ctx.revert()`, which kills the animations recorded in that
context. -/
def unmount (c : Component) (g : List Anim) : List Anim :=
  g.filter (fun a => !(decide (a.owner = c) && a.inContext))

/-! ## Menu/MenuOverlay.jsx: handleLinkClick -/

/-- The delay of the `setTimeout` in `handleLinkClick` (line 143), in seconds. -/
def linkClickDelay : ℚ := 650 / 1000

/-- `handleLinkClick` (lines 136-144) up to the moment its timer fires:
`onClose()` makes `isOpen` false, the effect reverses the timeline, and
`linkClickDelay` seconds later the callback calls `scrollIntoView`. -/
def handleLinkClick (m : MenuOverlay) : MenuOverlay :=
  menuTick linkClickDelay (menuEffect false m)

/-! ## Technology.jsx: marquee list and stat gradients -/

/-- An entry of `TECHNOLOGIES`. -/
structure Tech where
  name : String
  color : String
deriving DecidableEq, Repr

/-- `TECHNOLOGIES` (lines 24-37). -/
def TECHNOLOGIES : List Tech :=
  [ { name := "React", color := "#61DAFB" },
    { name := "Vue.js", color := "#4FC08D" },
    { name := "Node.js", color := "#339933" },
    { name := "Python", color := "#3776AB" },
    { name := "TypeScript", color := "#3178C6" },
    { name := "Next.js", color := "#EDEDED" },
    { name := "Tailwind", color := "#06B6D4" },
    { name := "GraphQL", color := "#E10098" },
    { name := "MongoDB", color := "#47A248" },
    { name := "PostgreSQL", color := "#4169E1" },
    { name := "Docker", color := "#2496ED" },
    { name := "AWS", color := "#FF9900" } ]

/-- `const allTechs = [...TECHNOLOGIES, ...TECHNOLOGIES]` (line 95). -/
def allTechs : List Tech := TECHNOLOGIES ++ TECHNOLOGIES

/-- The marquee items (lines 145-151): `allTechs.map((tech, i) => ...)`, each
with its `aria-hidden` flag `i >= TECHNOLOGIES.length`. -/
def marqueeItems : List (Tech × Bool) :=
  allTechs.enum.map (fun p => (p.2, decide (TECHNOLOGIES.length ≤ p.1)))

/-- An entry of `STATS`. -/
structure Stat where
  value : String
  label : String
  grad : String
deriving DecidableEq, Repr

/-- `STATS` of Technology.jsx (lines 39-43). -/
def STATS : List Stat :=
  [ { value := "12+", label := "Technologies", grad := "from-[#00d9ff] to-[#4f46e5]" },
    { value := "100%", label := "Modern Stack", grad := "from-[#4f46e5] to-[#8b5cf6]" },
    { value := "24/7", label := "Support", grad := "from-[#8b5cf6] to-[#ec4899]" } ]

/-- Whether the characters `p` stand at the start of `s`. -/
def startsWithChars : List Char → List Char → Bool
  | _, [] => true
  | [], _ :: _ => false
  | c :: cs, p :: ps => c == p && startsWithChars cs ps

/-- Whether the characters `p` occur somewhere in `s`. -/
def includesChars : List Char → List Char → Bool
  | [], p => p.isEmpty
  | c :: cs, p => startsWithChars (c :: cs) p || includesChars cs p

/-- `s.includes(sub)`. -/
def includes (s sub : String) : Bool := includesChars s.toList sub.toList

/-- `s.startsWith(p)`. -/
def startsWith (s p : String) : Bool := startsWithChars s.toList p.toList

/-- The first colour of the inline gradient (line 197):
`grad.includes('00d9ff') ? '#00d9ff'
 : grad.includes('4f46e5') && !grad.includes('8b5cf6') ? '#4f46e5' : '#8b5cf6'`. -/
def gradientFirst (grad : String) : String :=
  if includes grad "00d9ff" then "#00d9ff"
  else if includes grad "4f46e5" && !includes grad "8b5cf6" then "#4f46e5"
  else "#8b5cf6"

/-- The second colour of the inline gradient (line 197):
`grad.includes('4f46e5') && grad.startsWith('from-[#00d9ff]') ? '#4f46e5'
 : grad.includes('8b5cf6') ? '#8b5cf6' : '#ec4899'`. -/
def gradientSecond (grad : String) : String :=
  if includes grad "4f46e5" && startsWith grad "from-[#00d9ff]" then "#4f46e5"
  else if includes grad "8b5cf6" then "#8b5cf6"
  else "#ec4899"

/-- The `background` of the stat value (line 197). -/
def statGradient (grad : String) : String :=
  "linear-gradient(135deg, " ++ gradientFirst grad ++ ", " ++ gradientSecond grad ++ ")"

/-- The colour a grad string `from-[#a] to-[#b]` names first: what stands
between `from-[` and the next `]`. -/
def gradNamedFrom (grad : String) : String :=
  String.mk ((grad.toList.drop 6).takeWhile (fun c => c != ']'))

/-- The colour a grad string `from-[#a] to-[#b]` names second: what stands
between ` to-[` and the closing `]`. -/
def gradNamedTo (grad : String) : String :=
  String.mk (((((grad.toList.drop 6).dropWhile (fun c => c != ']')).drop 1).drop 5).takeWhile
    (fun c => c != ']'))

/-- The gradient the grad string asks for: `linear-gradient(135deg, #a, #b)`. -/
def namedGradient (grad : String) : String :=
  "linear-gradient(135deg, " ++ gradNamedFrom grad ++ ", " ++ gradNamedTo grad ++ ")"

/-! ## Team.jsx: hover dimming -/

/-- The properties a hover tween of Team animates to. -/
structure HoverTarget where
  opacity : ℚ
  scale : ℚ
deriving DecidableEq, Repr

/-- The branch taken for the card `index` under `hoveredIndex` (lines 77-98);
`none` is `null`. -/
def hoverTarget (hoveredIndex : Option Nat) (index : Nat) : HoverTarget :=
  match hoveredIndex with
  | none => { opacity := 1, scale := 1 }
  | some h =>
    if index = h then { opacity := 1, scale := 105 / 100 }
    else { opacity := 3 / 10, scale := 95 / 100 }

/-- `cardsRef.current.forEach((card, index) => ...)`: the targets of all cards. -/
def teamHoverTargets (hoveredIndex : Option Nat) (cards : Nat) : List HoverTarget :=
  (List.range cards).map (hoverTarget hoveredIndex)

/-! ## Invariants used below -/

/-- The part of the world the frame loops live in. -/
def loopView (w : World) : RafQueue × Option Nat × Option Nat :=
  (w.raf, w.rafIdRef, w.mouse.rafId)

/-- The timeline built by the mount is still the one in `tlRef`, with its
playhead inside the timeline. -/
def MenuOverlay.Mounted (m : MenuOverlay) : Prop :=
  ∃ tl, m.tlRef = some tl ∧ tl.id = 0 ∧ tl.duration = 152 / 100 ∧ 0 ≤ tl.time

/-- The mounted timeline is running backwards. -/
def MenuOverlay.Reversing (m : MenuOverlay) : Prop :=
  ∃ tl, m.tlRef = some tl ∧ tl.id = 0 ∧ tl.duration = 152 / 100 ∧ 0 ≤ tl.time ∧
    tl.reversed = true ∧ tl.paused = false

/-- The mounted timeline is unpaused, running backwards, with its playhead at
`t` seconds. -/
def MenuOverlay.ReversingAt (m : MenuOverlay) (t : ℚ) : Prop :=
  ∃ tl, m.tlRef = some tl ∧ tl.id = 0 ∧ tl.duration = 152 / 100 ∧ tl.time = t ∧
    tl.reversed = true ∧ tl.paused = false

/-- A trigger whose actions are `play none none none`, with a forward animation
whose playhead is inside it. -/
def ToggleTrigger.PlayOnce (t : ToggleTrigger) : Prop :=
  t.onEnter = ToggleAction.play ∧ t.onLeave = ToggleAction.none ∧
  t.onEnterBack = ToggleAction.none ∧ t.onLeaveBack = ToggleAction.none ∧
  t.animation.reversed = false ∧ 0 ≤ t.animation.time ∧
  t.animation.time ≤ t.animation.duration

/-- Ticks carry a non-negative time delta. -/
def TriggerStep.Forward : TriggerStep → Prop
  | TriggerStep.fire _ => True
  | TriggerStep.tick dt => 0 ≤ dt

/-- The catch-up tween, while running, heads for the trigger's progress and has
run for a non-negative time; when it is not running the animation is at the
trigger's progress. -/
def ScrubTrigger.Settled (t : ScrubTrigger) : Prop :=
  (t.tweening = true → t.tweenTo = t.progress ∧ 0 ≤ t.tweenElapsed) ∧
  (t.tweening = false → t.animProgress = t.progress)

/-- Ticks carry a non-negative time delta. -/
def ScrubEvent.Forward : ScrubEvent → Prop
  | ScrubEvent.update _ => True
  | ScrubEvent.tick dt => 0 ≤ dt

/-- Current position and target of the parallax are within `[-1, 1]` on both
axes. -/
def Mouse.InBox (m : Mouse) : Prop :=
  (-1 ≤ m.x ∧ m.x ≤ 1) ∧ (-1 ≤ m.y ∧ m.y ≤ 1) ∧ (-1 ≤ m.tx ∧ m.tx ≤ 1) ∧ (-1 ≤ m.ty ∧ m.ty ≤ 1)

/-- A `mousemove` event reports a pointer inside a viewport of positive size. -/
def Step.InViewport : Step → Prop
  | Step.mouseMove clientX clientY innerWidth innerHeight =>
    0 ≤ clientX ∧ clientX ≤ innerWidth ∧ 0 ≤ clientY ∧ clientY ≤ innerHeight ∧
    0 < innerWidth ∧ 0 < innerHeight
  | _ => True

/-! ## Lemmas: events leave the registrations alone -/

theorem foldl_keeps {α β γ : Type} (V : α → γ) (f : α → β → α)
    (h : ∀ a b, V (f a b) = V a) (l : List β) (a : α) : V (l.foldl f a) = V a := by
  induction l generalizing a with
  | nil => rfl
  | cons b l ih => simp only [List.foldl_cons]; rw [ih, h]

theorem hookView_updLenis (w : World) (id : Nat) (f : Lenis → Lenis)
    (hf : ∀ l, ((f l).id, (f l).scrollListeners, (f l).destroyed)
      = (l.id, l.scrollListeners, l.destroyed)) :
    hookView (w.updLenis id f) = hookView w := by
  unfold hookView World.updLenis
  simp only [List.map_map]
  congr 2
  funext l
  by_cases h : l.id = id
  · simp only [Function.comp, h, if_true]; rw [hf l, h]
  · simp only [Function.comp, h, if_false]

theorem hookView_emit (w : World) (c : Call) (hc : c.isRegistration = false) :
    hookView (w.emit c) = hookView w := by
  simp [hookView, World.emit, List.filter_append, hc]

theorem hookView_requestFrame (w : World) (cb : FrameCb) :
    hookView (w.requestFrame cb).2 = hookView w := by
  simp [hookView, World.requestFrame, List.filter_append, Call.isRegistration]

theorem hookView_cancelFrame (w : World) (id : Nat) :
    hookView (w.cancelFrame id) = hookView w := by
  simp [hookView, World.cancelFrame, List.filter_append, Call.isRegistration]

theorem hookView_runListener (w : World) (c : Listener) :
    hookView (runListener c w) = hookView w := by
  cases c <;> simp [runListener, hookView_emit, Call.isRegistration]

theorem hookView_lenisRaf (w : World) (id : Nat) (time : ℚ) :
    hookView (w.lenisRaf id time) = hookView w := by
  unfold World.lenisRaf
  split
  · rfl
  · rename_i l _
    have h1 : hookView (w.updLenis id (fun l => { l with time := time })) = hookView w :=
      hookView_updLenis w id _ (fun _ => rfl)
    have h2 : hookView (((w.updLenis id (fun l => { l with time := time })).emit
        (Call.lenisRaf id time)).emit
        (Call.animateAdvance id ((time - (if l.time = 0 then time else l.time)) / 1000)))
        = hookView w := by
      rw [hookView_emit, hookView_emit, h1] <;> rfl
    dsimp only
    split
    · exact h2
    · rw [foldl_keeps hookView _ (fun a b => hookView_runListener a b)]
      refine (hookView_updLenis _ id _ ?_).trans h2
      intro _; rfl

theorem hookView_runTickerCb (time : ℚ) (cb : TickerCb) (w : World) :
    hookView (runTickerCb time cb w) = hookView w := by
  cases cb with
  | lenisRaf l => exact hookView_lenisRaf w l _
  | foreign t => exact hookView_emit w _ rfl

theorem hookView_gsapTick (now : ℚ) (w : World) : hookView (gsapTick now w) = hookView w := by
  unfold gsapTick
  dsimp only
  split_ifs
  all_goals first
    | rfl
    | exact (foldl_keeps hookView _ (fun a b => hookView_runTickerCb _ b a) _ _).trans rfl

theorem hookView_syncScrollTrigger (w : World) :
    hookView (syncScrollTrigger w) = hookView w := by
  simp [hookView, syncScrollTrigger, World.requestFrame, World.emit, List.filter_append,
    Call.isRegistration]

theorem hookView_heroTick (w : World) : hookView (heroTick w) = hookView w := by
  unfold heroTick
  dsimp only
  split
  · simp [hookView, World.requestFrame, List.filter_append, Call.isRegistration]
  · simp [hookView, World.requestFrame, World.emit, List.filter_append, Call.isRegistration]

theorem hookView_runFrameCb (cb : FrameCb) (w : World) :
    hookView (runFrameCb cb w) = hookView w := by
  cases cb with
  | syncScrollTrigger => exact hookView_syncScrollTrigger w
  | heroTick => exact hookView_heroTick w
  | foreign t again =>
    show hookView (if again then (w.requestFrame (FrameCb.foreign t again)).2 else w) = _
    split
    · exact hookView_requestFrame w _
    · rfl

theorem hookView_runHandle (w : World) (h : Nat) : hookView (runHandle w h) = hookView w := by
  unfold runHandle
  split
  · rw [hookView_runFrameCb]; rfl
  · rfl

theorem hookView_onMove (a b c d : ℚ) (w : World) :
    hookView (onMove a b c d w) = hookView w := rfl

theorem hookView_step (w : World) (s : Step) : hookView (step w s) = hookView w := by
  cases s with
  | frame => exact foldl_keeps hookView _ hookView_runHandle _ w
  | gsapTick now => exact hookView_gsapTick now w
  | wheel l =>
    apply hookView_updLenis
    intro l; split <;> rfl
  | mouseMove a b c d =>
    apply foldl_keeps hookView
    intro w l; cases l <;> rfl
  | foreignRequest t again => exact hookView_requestFrame w _
  | foreignCancel id =>
    unfold step
    dsimp only
    split
    · exact hookView_cancelFrame w id
    · rfl

theorem hookView_run (w : World) (ss : List Step) : hookView (run w ss) = hookView w :=
  foldl_keeps hookView step hookView_step ss w

theorem hookView_cleanup_mobile (w : World) :
    hookView (runCleanup Cleanup.mobile w) = hookView w := by
  unfold runCleanup
  dsimp only
  split
  · split
    · exact hookView_cancelFrame w _
    · rfl
  · rfl

/-! ## Coarse pointer: nothing but the sync loop -/

/-- C1: when the `(pointer: coarse)` query matches, the mount effect of
`useLenis` only requests one animation frame for `syncScrollTrigger`, whose body
calls `ScrollTrigger.update()` and re-requests itself.  At every later point of
the hook's lifetime (after any events, and after the cleanup followed by any
events) no Lenis instance has been constructed, no ticker callback and no Lenis
`'scroll'` listener has been added, and `lenisRef.current` is still `null`. -/
theorem useLenis_coarse_installs_only_sync_loop (w : World) (before after : List Step)
    (href : w.lenisRef = none) :
    (useLenisMount true w).1 = Cleanup.mobile ∧
    (useLenisMount true w).2.log =
      w.log ++ [Call.requestFrame FrameCb.syncScrollTrigger (w.raf.counter + 1)] ∧
    (useLenisMount true w).2.raf.pending =
      w.raf.pending ++ [(w.raf.counter + 1, FrameCb.syncScrollTrigger)] ∧
    (∀ v : World, (runFrameCb FrameCb.syncScrollTrigger v).log =
      v.log ++ [Call.scrollTriggerUpdate,
                Call.requestFrame FrameCb.syncScrollTrigger (v.raf.counter + 1)]) ∧
    (∀ v : World,
      v = run (useLenisMount true w).2 before ∨
      v = run (runCleanup (useLenisMount true w).1 (run (useLenisMount true w).2 before)) after →
      v.lenises.length = w.lenises.length ∧
      v.lenises.map Lenis.scrollListeners = w.lenises.map Lenis.scrollListeners ∧
      v.ticker.listeners = w.ticker.listeners ∧
      v.lenisRef = none ∧
      v.log.filter Call.isRegistration = w.log.filter Call.isRegistration) := by
  have hm : hookView (useLenisMount true w).2 = hookView w := by
    simp [useLenisMount, hookView, World.requestFrame, List.filter_append, Call.isRegistration]
  have key : ∀ v : World, hookView v = hookView w →
      v.lenises.length = w.lenises.length ∧
      v.lenises.map Lenis.scrollListeners = w.lenises.map Lenis.scrollListeners ∧
      v.ticker.listeners = w.ticker.listeners ∧
      v.lenisRef = none ∧
      v.log.filter Call.isRegistration = w.log.filter Call.isRegistration := by
    intro v hv
    simp only [hookView, Prod.mk.injEq] at hv
    obtain ⟨h1, h2, h3, h4⟩ := hv
    refine ⟨?_, ?_, h2, h3.trans href, h4⟩
    · simpa using congrArg List.length h1
    · simpa [List.map_map, Function.comp] using congrArg (List.map (fun t => t.2.1)) h1
  refine ⟨rfl, ?_, ?_, ?_, ?_⟩
  · simp [useLenisMount, World.requestFrame, requestAnimationFrame]
  · simp [useLenisMount, World.requestFrame, requestAnimationFrame]
  · intro v
    simp [runFrameCb, syncScrollTrigger, World.requestFrame, requestAnimationFrame, World.emit]
  · intro v hv
    apply key
    rcases hv with rfl | rfl
    · rw [hookView_run, hm]
    · rw [hookView_run]
      show hookView (runCleanup Cleanup.mobile _) = _
      rw [hookView_cleanup_mobile, hookView_run, hm]

/-- C1 at a concrete page: a fresh page, two frames and a foreign request before
the cleanup, one frame after it. -/
theorem useLenis_coarse_installs_only_sync_loop_witness :
    (World.init 0).lenisRef = none ∧
    (useLenisMount true (World.init 0)).1 = Cleanup.mobile ∧
    (run (runCleanup Cleanup.mobile
        (run (useLenisMount true (World.init 0)).2
          [Step.frame, Step.foreignRequest 7 true, Step.frame])) [Step.frame]).lenisRef = none :=
  ⟨rfl,
   (useLenis_coarse_installs_only_sync_loop (World.init 0)
      [Step.frame, Step.foreignRequest 7 true, Step.frame] [Step.frame] rfl).1,
   ((useLenis_coarse_installs_only_sync_loop (World.init 0)
      [Step.frame, Step.foreignRequest 7 true, Step.frame] [Step.frame] rfl).2.2.2.2
      _ (Or.inr rfl)).2.2.2.1⟩

/-! ## Fine pointer: mount and cleanup cancel out -/

theorem lenisView_updLenis (w : World) (id : Nat) (f : Lenis → Lenis)
    (g : Nat × List Listener × Bool → Nat × List Listener × Bool)
    (hf : ∀ l, ((f l).id, (f l).scrollListeners, (f l).destroyed)
      = g (l.id, l.scrollListeners, l.destroyed)) :
    (hookView (w.updLenis id f)).1 = (hookView w).1.map (fun t => if t.1 = id then g t else t) := by
  unfold hookView World.updLenis
  simp only [List.map_map]
  apply List.map_congr_left
  intro l _
  by_cases h : l.id = id
  · simp only [Function.comp, h, if_true]; rw [hf l, h]
  · simp only [Function.comp, h, if_false]

theorem hookView_mount_desktop (w : World)
    (hfresh : TickerCb.lenisRaf w.lenises.length ∉ w.ticker.listeners)
    (hids : ∀ l ∈ w.lenises, l.id ≠ w.lenises.length) :
    (useLenisMount false w).1
      = Cleanup.desktop w.lenises.length (TickerCb.lenisRaf w.lenises.length) ∧
    (hookView (useLenisMount false w).2).1
      = (hookView w).1 ++ [(w.lenises.length, [Listener.scrollTriggerUpdate], false)] ∧
    (hookView (useLenisMount false w).2).2.1
      = w.ticker.listeners ++ [TickerCb.lenisRaf w.lenises.length] ∧
    (hookView (useLenisMount false w).2).2.2.1 = some w.lenises.length := by
  refine ⟨rfl, ?_, ?_, rfl⟩
  · simp only [useLenisMount, hookView, World.newLenis, World.lenisOn, World.tickerAdd,
      World.lagSmoothing, World.updLenis, World.emit, Bool.not_false, if_true,
      List.map_append, List.map_map, List.map_cons, List.map_nil, List.nil_append]
    congr 1
    apply List.map_congr_left
    intro l hl
    simp [Function.comp, hids l hl]
  · simp only [useLenisMount, hookView, World.newLenis, World.lenisOn, World.tickerAdd,
      World.lagSmoothing, World.updLenis, World.emit, Bool.not_false, if_true]
    rw [List.erase_of_not_mem hfresh]

theorem hookView_cleanup_desktop (u : World) (n : Nat) (cb : TickerCb) :
    (hookView (runCleanup (Cleanup.desktop n cb) u)).1
      = (hookView u).1.map (fun t => if t.1 = n then (t.1, [], true) else t) ∧
    (hookView (runCleanup (Cleanup.desktop n cb) u)).2.1 = (hookView u).2.1.erase cb ∧
    (hookView (runCleanup (Cleanup.desktop n cb) u)).2.2.1 = none := by
  refine ⟨?_, rfl, rfl⟩
  have h1 := lenisView_updLenis u n
    (fun l => { l with scrollListeners := l.scrollListeners.filter (fun c => c ≠ Listener.scrollTriggerUpdate) })
    (fun t => (t.1, t.2.1.filter (fun c => c ≠ Listener.scrollTriggerUpdate), t.2.2)) (fun _ => rfl)
  have h2 := lenisView_updLenis
    ((u.lenisOff n Listener.scrollTriggerUpdate).tickerRemove cb) n
    (fun l => { l with scrollListeners := [], destroyed := true, isRunning := false })
    (fun t => (t.1, [], true)) (fun _ => rfl)
  have h3 : (hookView (runCleanup (Cleanup.desktop n cb) u)).1
      = (hookView ((u.lenisOff n Listener.scrollTriggerUpdate).tickerRemove cb)).1.map
          (fun t => if t.1 = n then (t.1, [], true) else t) := h2
  have h4 : (hookView ((u.lenisOff n Listener.scrollTriggerUpdate).tickerRemove cb)).1
      = (hookView u).1.map (fun t => if t.1 = n
          then (t.1, t.2.1.filter (fun c => c ≠ Listener.scrollTriggerUpdate), t.2.2) else t) := h1
  rw [h3, h4, List.map_map]
  apply List.map_congr_left
  intro t _
  by_cases h : t.1 = n <;> simp [Function.comp, h]

/-- C2: on a fine-pointer device the mount adds one ticker callback and one
`ScrollTrigger.update` listener (on the new Lenis instance), and after any events
the cleanup leaves the ticker's callback list exactly as it was before the mount,
every earlier Lenis instance with the listeners it had, the hook's own instance
destroyed with no `'scroll'` listener left, and `lenisRef.current` null. -/
theorem useLenis_fine_mount_cleanup_restores (w : World) (events : List Step)
    (hfresh : TickerCb.lenisRaf w.lenises.length ∉ w.ticker.listeners)
    (hids : ∀ l ∈ w.lenises, l.id ≠ w.lenises.length) :
    (useLenisMount false w).2.ticker.listeners
      = w.ticker.listeners ++ [TickerCb.lenisRaf w.lenises.length] ∧
    (useLenisMount false w).2.lenisRef = some w.lenises.length ∧
    (runCleanup (useLenisMount false w).1
        (run (useLenisMount false w).2 events)).ticker.listeners = w.ticker.listeners ∧
    (runCleanup (useLenisMount false w).1
        (run (useLenisMount false w).2 events)).lenises.map
          (fun l => (l.id, l.scrollListeners, l.destroyed))
      = w.lenises.map (fun l => (l.id, l.scrollListeners, l.destroyed))
          ++ [(w.lenises.length, [], true)] ∧
    (runCleanup (useLenisMount false w).1
        (run (useLenisMount false w).2 events)).lenisRef = none := by
  obtain ⟨hc, hl, ht, hr⟩ := hookView_mount_desktop w hfresh hids
  obtain ⟨cl, ct, cr⟩ := hookView_cleanup_desktop (run (useLenisMount false w).2 events)
    w.lenises.length (TickerCb.lenisRaf w.lenises.length)
  rw [hookView_run] at cl ct
  rw [hl] at cl
  rw [ht] at ct
  rw [hc]
  refine ⟨ht, hr, ?_, ?_, cr⟩
  · refine ct.trans ?_
    rw [List.erase_append_right _ hfresh]
    simp
  · refine cl.trans ?_
    rw [List.map_append]
    congr 1
    · have : ∀ t ∈ (hookView w).1, t.1 ≠ w.lenises.length := by
        intro t ht'
        simp only [hookView, List.mem_map] at ht'
        obtain ⟨l, hl', rfl⟩ := ht'
        exact hids l hl'
      calc (hookView w).1.map (fun t => if t.1 = w.lenises.length then (t.1, [], true) else t)
          = (hookView w).1.map id := by
            apply List.map_congr_left
            intro t ht'
            simp [this t ht']
        _ = (hookView w).1 := List.map_id _
    · simp

/-- C2 on a fresh page with a wheel input, a ticker tick and a frame between the
mount and the cleanup. -/
theorem useLenis_fine_mount_cleanup_restores_witness :
    (runCleanup (useLenisMount false (World.init 0)).1
        (run (useLenisMount false (World.init 0)).2
          [Step.wheel 0, Step.gsapTick 20, Step.frame])).ticker.listeners = [] ∧
    (runCleanup (useLenisMount false (World.init 0)).1
        (run (useLenisMount false (World.init 0)).2
          [Step.wheel 0, Step.gsapTick 20, Step.frame])).lenisRef = none :=
  ⟨(useLenis_fine_mount_cleanup_restores (World.init 0)
      [Step.wheel 0, Step.gsapTick 20, Step.frame]
      (by simp [World.init, Ticker.init]) (by simp [World.init])).2.2.1,
   (useLenis_fine_mount_cleanup_restores (World.init 0)
      [Step.wheel 0, Step.gsapTick 20, Step.frame]
      (by simp [World.init, Ticker.init]) (by simp [World.init])).2.2.2.2⟩

/-! ## The frame loops keep exactly one request pending -/

theorem run_inv (P : World → Prop) (h : ∀ w s, P w → P (step w s)) (ss : List Step) :
    ∀ w, P w → P (run w ss) := by
  induction ss with
  | nil => intro w hw; exact hw
  | cons s ss ih => intro w hw; exact ih _ (h w s hw)

theorem mem_of_lookup {l : List (Nat × FrameCb)} {h : Nat} {cb : FrameCb}
    (e : l.lookup h = some cb) : (h, cb) ∈ l := by
  induction l with
  | nil => simp [List.lookup] at e
  | cons a l ih =>
    obtain ⟨k, c⟩ := a
    by_cases hk : h = k
    · subst hk
      simp [List.lookup] at e
      simp [e]
    · have : (h == k) = false := by simpa using hk
      simp only [List.lookup, this] at e
      exact List.mem_cons_of_mem _ (ih e)

theorem wf_request (q : RafQueue) (cb : FrameCb) (hq : q.WF) :
    (requestAnimationFrame q cb).2.WF := by
  obtain ⟨hn, hb⟩ := hq
  constructor
  · simp only [requestAnimationFrame, List.map_append, List.map_cons, List.map_nil]
    rw [List.nodup_append]
    refine ⟨hn, by simp, ?_⟩
    intro a ha hb'
    simp only [List.mem_singleton] at hb'
    simp only [List.mem_map] at ha
    obtain ⟨e, he, rfl⟩ := ha
    have := (hb e he).2
    omega
  · intro e he
    simp only [requestAnimationFrame, List.mem_append, List.mem_singleton] at he
    rcases he with he | rfl
    · have := hb e he
      exact ⟨this.1, by simp only [requestAnimationFrame]; omega⟩
    · simp [requestAnimationFrame]

theorem wf_cancel (q : RafQueue) (id : Nat) (hq : q.WF) : (cancelAnimationFrame q id).WF := by
  obtain ⟨hn, hb⟩ := hq
  constructor
  · exact hn.sublist ((List.filter_sublist _).map _)
  · intro e he
    exact hb e (List.mem_of_mem_filter he)

theorem loopView_lenisRaf (w : World) (id : Nat) (time : ℚ) :
    loopView (w.lenisRaf id time) = loopView w := by
  unfold World.lenisRaf
  split
  · rfl
  · dsimp only
    split
    · rfl
    · exact (foldl_keeps loopView _ (fun a b => by cases b <;> rfl) _ _).trans rfl

theorem loopView_gsapTick (now : ℚ) (w : World) : loopView (gsapTick now w) = loopView w := by
  unfold gsapTick
  dsimp only
  split_ifs
  all_goals first
    | rfl
    | exact (foldl_keeps loopView _
        (fun a b => by cases b <;> first | exact loopView_lenisRaf a _ _ | rfl) _ _).trans rfl

theorem loopView_mouseMove (a b c d : ℚ) (w : World) :
    loopView (dispatchMouseMove a b c d w) = loopView w :=
  foldl_keeps loopView _ (fun w l => by cases l <;> rfl) _ w

/-- What running a frame callback does to the queue. -/
theorem raf_runFrameCb (cb : FrameCb) (w : World) :
    (runFrameCb cb w).raf =
      match cb with
      | FrameCb.foreign _ false => w.raf
      | _ => (requestAnimationFrame w.raf cb).2 := by
  cases cb with
  | syncScrollTrigger => rfl
  | heroTick =>
    simp only [runFrameCb, heroTick]
    split <;> rfl
  | foreign t again => cases again <;> rfl

/-- What running a frame callback does to a loop's stored handle. -/
theorem storedId_runFrameCb (cb cb1 : FrameCb) (w : World) :
    storedId cb (runFrameCb cb1 w) =
      match cb with
      | FrameCb.foreign _ _ => none
      | _ => if cb1 = cb then some (w.raf.counter + 1) else storedId cb w := by
  cases cb1 with
  | syncScrollTrigger => cases cb <;> rfl
  | heroTick =>
    cases cb
    all_goals
      simp only [runFrameCb, heroTick]
      split <;> rfl
  | foreign t again => cases cb <;> cases again <;> rfl

theorem wf_runFrameCb (cb : FrameCb) (w : World) (hw : w.raf.WF) : (runFrameCb cb w).raf.WF := by
  rw [raf_runFrameCb]
  split
  · exact hw
  · exact wf_request _ _ hw

theorem wf_runHandle (w : World) (h : Nat) (hw : w.raf.WF) : (runHandle w h).raf.WF := by
  unfold runHandle
  split
  · exact wf_runFrameCb _ _ (wf_cancel _ _ hw)
  · exact hw

theorem wf_step (w : World) (s : Step) (hw : w.raf.WF) : (step w s).raf.WF := by
  cases s with
  | frame =>
    show (List.foldl runHandle w _).raf.WF
    generalize (w.raf.pending.map Prod.fst) = hs
    induction hs generalizing w with
    | nil => exact hw
    | cons h hs ih => exact ih _ (wf_runHandle w h hw)
  | gsapTick now =>
    have := congrArg Prod.fst (loopView_gsapTick now w)
    show (gsapTick now w).raf.WF
    simp only [loopView] at this
    rw [this]; exact hw
  | wheel l => exact hw
  | mouseMove a b c d =>
    have := congrArg Prod.fst (loopView_mouseMove a b c d w)
    show (dispatchMouseMove a b c d w).raf.WF
    simp only [loopView] at this
    rw [this]; exact hw
  | foreignRequest t again => exact wf_request _ _ hw
  | foreignCancel id =>
    unfold step
    dsimp only
    split
    · exact wf_cancel _ _ hw
    · exact hw

theorem loopPending_runFrameCb (cb cb1 : FrameCb) (w : World)
    (hcb : ∀ t a, cb ≠ FrameCb.foreign t a) :
    loopPending cb (runFrameCb cb1 w) =
      loopPending cb w ++ (if cb1 = cb then [(w.raf.counter + 1, cb)] else []) := by
  unfold loopPending
  rw [raf_runFrameCb]
  by_cases h : cb1 = cb
  · subst h
    cases cb1 with
    | foreign t a => exact absurd rfl (hcb t a)
    | syncScrollTrigger => simp [requestAnimationFrame, List.filter_append]
    | heroTick => simp [requestAnimationFrame, List.filter_append]
  · cases cb1 with
    | foreign t a => cases a <;> simp [requestAnimationFrame, List.filter_append, h]
    | syncScrollTrigger => simp [requestAnimationFrame, List.filter_append, h]
    | heroTick => simp [requestAnimationFrame, List.filter_append, h]

theorem loopPending_cancel (cb : FrameCb) (w : World) (h : Nat) :
    loopPending cb { w with raf := cancelAnimationFrame w.raf h }
      = (loopPending cb w).filter (fun e => e.1 ≠ h) := by
  simp only [loopPending, cancelAnimationFrame, List.filter_filter]
  congr 1
  funext e
  exact Bool.and_comm _ _

theorem storedId_cancel (cb : FrameCb) (w : World) (h : Nat) :
    storedId cb { w with raf := cancelAnimationFrame w.raf h } = storedId cb w := by
  cases cb <;> rfl

theorem storedId_of_not_foreign (cb cb1 : FrameCb) (w : World)
    (hcb : ∀ t a, cb ≠ FrameCb.foreign t a) :
    storedId cb (runFrameCb cb1 w)
      = if cb1 = cb then some (w.raf.counter + 1) else storedId cb w := by
  rw [storedId_runFrameCb]
  cases cb with
  | foreign t a => exact absurd rfl (hcb t a)
  | syncScrollTrigger => rfl
  | heroTick => rfl

theorem running_runHandle (cb : FrameCb) (hcb : ∀ t a, cb ≠ FrameCb.foreign t a)
    (w : World) (h : Nat) (hw : w.raf.WF) (hr : LoopRunning cb w) :
    LoopRunning cb (runHandle w h) := by
  unfold runHandle
  split
  · rename_i cb1 hl
    have hmem := mem_of_lookup hl
    obtain ⟨id, hs, hp⟩ := hr
    have hidmem : (id, cb) ∈ w.raf.pending := by
      have : (id, cb) ∈ loopPending cb w := by rw [hp]; simp
      exact List.mem_of_mem_filter this
    unfold LoopRunning
    rw [storedId_of_not_foreign _ _ _ hcb, loopPending_runFrameCb _ _ _ hcb,
      loopPending_cancel, storedId_cancel, hp]
    by_cases hc : cb1 = cb
    · subst hc
      have : (h, cb1) ∈ loopPending cb1 w := by
        simp only [loopPending, List.mem_filter]; exact ⟨hmem, by simp⟩
      rw [hp] at this
      simp only [List.mem_singleton, Prod.mk.injEq, and_true] at this
      subst this
      exact ⟨(cancelAnimationFrame w.raf h).counter + 1, by simp, by simp⟩
    · have hne : id ≠ h := by
        intro e
        subst e
        have hnd := hw.1
        have := List.inj_on_of_nodup_map hnd hidmem hmem rfl
        simp only [Prod.mk.injEq, true_and] at this
        exact hc this.symm
      exact ⟨id, by simp [hc, hs], by simp [hc, hne]⟩
  · exact hr

theorem idle_runHandle (cb : FrameCb) (hcb : ∀ t a, cb ≠ FrameCb.foreign t a)
    (w : World) (h : Nat) (hi : loopPending cb w = []) :
    loopPending cb (runHandle w h) = [] := by
  unfold runHandle
  split
  · rename_i cb1 hl
    have hmem := mem_of_lookup hl
    rw [loopPending_runFrameCb _ _ _ hcb, loopPending_cancel, hi]
    have hc : cb1 ≠ cb := by
      intro e
      subst e
      have : (h, cb1) ∈ loopPending cb1 w := by
        simp only [loopPending, List.mem_filter]; exact ⟨hmem, by simp⟩
      rw [hi] at this
      simp at this
    simp [hc]
  · exact hi

theorem loopPending_of_loopView (cb : FrameCb) (w v : World) (h : loopView v = loopView w) :
    loopPending cb v = loopPending cb w ∧ storedId cb v = storedId cb w := by
  simp only [loopView, Prod.mk.injEq] at h
  obtain ⟨h1, h2, h3⟩ := h
  constructor
  · simp only [loopPending, h1]
  · cases cb
    · exact h2
    · exact h3
    · rfl

theorem lookup_foreign_ne (cb : FrameCb) (hcb : ∀ t a, cb ≠ FrameCb.foreign t a)
    (w : World) (id : Nat) (t : Nat) (a : Bool)
    (hl : w.raf.pending.lookup id = some (FrameCb.foreign t a)) (hw : w.raf.WF) :
    (loopPending cb w).filter (fun e => e.1 ≠ id) = loopPending cb w := by
  rw [List.filter_eq_self]
  intro e he
  have hmem := mem_of_lookup hl
  simp only [loopPending, List.mem_filter, decide_eq_true_eq] at he
  simp only [ne_eq, decide_not, Bool.not_eq_true', decide_eq_false_iff_not]
  intro e1
  have := List.inj_on_of_nodup_map hw.1 he.1 hmem e1
  rw [this] at he
  exact hcb t a he.2.symm

theorem running_step (cb : FrameCb) (hcb : ∀ t a, cb ≠ FrameCb.foreign t a)
    (w : World) (s : Step) (hw : w.raf.WF ∧ LoopRunning cb w) :
    (step w s).raf.WF ∧ LoopRunning cb (step w s) := by
  refine ⟨wf_step w s hw.1, ?_⟩
  have view : ∀ v : World, loopView v = loopView w → LoopRunning cb v := by
    intro v hv
    obtain ⟨h1, h2⟩ := loopPending_of_loopView cb w v hv
    obtain ⟨id, hs, hp⟩ := hw.2
    exact ⟨id, h2.trans hs, h1.trans hp⟩
  cases s with
  | frame =>
    show LoopRunning cb (List.foldl runHandle w _)
    generalize (w.raf.pending.map Prod.fst) = hs
    induction hs generalizing w with
    | nil => exact hw.2
    | cons h hs ih =>
      exact ih _ ⟨wf_runHandle w h hw.1, running_runHandle cb hcb w h hw.1 hw.2⟩
        (fun v hv => by
          obtain ⟨h1, h2⟩ := loopPending_of_loopView cb _ v hv
          obtain ⟨id, hs', hp⟩ := running_runHandle cb hcb w h hw.1 hw.2
          exact ⟨id, h2.trans hs', h1.trans hp⟩)
  | gsapTick now => exact view _ (loopView_gsapTick now w)
  | wheel l => exact view _ rfl
  | mouseMove a b c d => exact view _ (loopView_mouseMove a b c d w)
  | foreignRequest t again =>
    obtain ⟨id, hs, hp⟩ := hw.2
    refine ⟨id, ?_, ?_⟩
    · cases cb <;> exact hs
    · have : FrameCb.foreign t again ≠ cb := fun e => hcb t again e.symm
      simp only [step, loopPending, World.requestFrame, requestAnimationFrame,
        List.filter_append] at hp ⊢
      simp [hp, this]
  | foreignCancel id =>
    unfold step
    dsimp only
    split
    · rename_i t a hl
      obtain ⟨i, hs, hp⟩ := hw.2
      refine ⟨i, ?_, ?_⟩
      · cases cb <;> exact hs
      · have h1 : loopPending cb (w.cancelFrame id)
            = (loopPending cb w).filter (fun e => e.1 ≠ id) := loopPending_cancel cb w id
        rw [h1, lookup_foreign_ne cb hcb w id t a hl hw.1, hp]
    · exact hw.2

theorem idle_step (cb : FrameCb) (hcb : ∀ t a, cb ≠ FrameCb.foreign t a)
    (w : World) (s : Step) (hi : loopPending cb w = []) :
    loopPending cb (step w s) = [] := by
  cases s with
  | frame =>
    show loopPending cb (List.foldl runHandle w _) = []
    generalize (w.raf.pending.map Prod.fst) = hs
    induction hs generalizing w with
    | nil => exact hi
    | cons h hs ih => exact ih _ (idle_runHandle cb hcb w h hi)
  | gsapTick now => exact ((loopPending_of_loopView cb w _ (loopView_gsapTick now w)).1).trans hi
  | wheel l => exact hi
  | mouseMove a b c d =>
    exact ((loopPending_of_loopView cb w _ (loopView_mouseMove a b c d w)).1).trans hi
  | foreignRequest t again =>
    have : FrameCb.foreign t again ≠ cb := fun e => hcb t again e.symm
    simp only [step, loopPending, World.requestFrame, requestAnimationFrame,
      List.filter_append] at hi ⊢
    simp [hi, this]
  | foreignCancel id =>
    unfold step
    dsimp only
    split
    · have h1 : loopPending cb (w.cancelFrame id)
          = (loopPending cb w).filter (fun e => e.1 ≠ id) := loopPending_cancel cb w id
      rw [h1, hi]; rfl
    · exact hi

theorem running_run (cb : FrameCb) (hcb : ∀ t a, cb ≠ FrameCb.foreign t a)
    (w : World) (ss : List Step) (hw : w.raf.WF ∧ LoopRunning cb w) :
    (run w ss).raf.WF ∧ LoopRunning cb (run w ss) :=
  run_inv (fun v => v.raf.WF ∧ LoopRunning cb v) (running_step cb hcb) ss w hw

theorem idle_run (cb : FrameCb) (hcb : ∀ t a, cb ≠ FrameCb.foreign t a)
    (w : World) (ss : List Step) (hi : loopPending cb w = []) :
    loopPending cb (run w ss) = [] :=
  run_inv (fun v => loopPending cb v = []) (idle_step cb hcb) ss w hi

theorem sync_start (w : World) (hw : w.raf.WF)
    (hi : loopPending FrameCb.syncScrollTrigger w = []) :
    (useLenisMount true w).2.raf.WF ∧
      LoopRunning FrameCb.syncScrollTrigger (useLenisMount true w).2 := by
  refine ⟨wf_request _ _ hw, w.raf.counter + 1, rfl, ?_⟩
  simp only [loopPending] at hi
  simp [loopPending, useLenisMount, World.requestFrame, requestAnimationFrame,
    List.filter_append, hi]

theorem sync_cleanup (w : World) (hw : w.raf.WF)
    (hr : LoopRunning FrameCb.syncScrollTrigger w) :
    loopPending FrameCb.syncScrollTrigger (runCleanup Cleanup.mobile w) = [] := by
  obtain ⟨id, hs, hp⟩ := hr
  have hs1 : w.rafIdRef = some id := hs
  have hmem : (id, FrameCb.syncScrollTrigger) ∈ w.raf.pending := by
    have : (id, FrameCb.syncScrollTrigger) ∈ loopPending FrameCb.syncScrollTrigger w := by
      rw [hp]; simp
    exact List.mem_of_mem_filter this
  have hpos : id ≠ 0 := by
    have := (hw.2 _ hmem).1
    simp only at this
    omega
  have h1 : loopPending FrameCb.syncScrollTrigger (w.cancelFrame id)
      = (loopPending FrameCb.syncScrollTrigger w).filter (fun e => e.1 ≠ id) :=
    loopPending_cancel _ w id
  simp only [runCleanup, hs1, hpos, ne_eq, not_false_eq_true, if_true]
  rw [h1, hp]
  simp

theorem hero_start (w : World) (hw : w.raf.WF) (hi : loopPending FrameCb.heroTick w = []) :
    (startMouseParallax false w).2.raf.WF ∧
      LoopRunning FrameCb.heroTick (startMouseParallax false w).2 := by
  have hraf : (w.addMouseMove WindowListener.heroOnMove).raf = w.raf := by
    unfold World.addMouseMove; split <;> rfl
  refine ⟨?_, (w.addMouseMove WindowListener.heroOnMove).raf.counter + 1, rfl, ?_⟩
  · show (requestAnimationFrame (w.addMouseMove WindowListener.heroOnMove).raf _).2.WF
    rw [hraf]; exact wf_request _ _ hw
  · simp only [loopPending] at hi
    simp [loopPending, startMouseParallax, World.requestFrame, requestAnimationFrame,
      List.filter_append, hraf, hi]

theorem hero_cleanup (w : World) (hr : LoopRunning FrameCb.heroTick w) :
    loopPending FrameCb.heroTick (heroCleanup w) = [] := by
  obtain ⟨id, hs, hp⟩ := hr
  have hs1 : w.mouse.rafId = some id := hs
  have h1 : loopPending FrameCb.heroTick (heroCleanup w)
      = (loopPending FrameCb.heroTick w).filter (fun e => e.1 ≠ id) := by
    simp only [heroCleanup, hs1, Option.getD_some]
    exact loopPending_cancel _ w id
  rw [h1, hp]
  simp

/-- C3: for both self-rescheduling frame loops (the coarse-pointer
`syncScrollTrigger` of useLenis and Hero's parallax `tick`), started on a page
where the loop is not yet running: after any sequence of events (frames, ticker
ticks, input, other code's requests) exactly one request of the loop is pending
and the stored handle (`rafIdRef.current`, `mouse.current.rafId`) is its handle;
and once the cleanup has run, no request of the loop is pending after any
further events. -/
theorem frame_loops_one_pending_then_none (w : World) (during after : List Step)
    (hw : w.raf.WF)
    (hsync : loopPending FrameCb.syncScrollTrigger w = [])
    (hhero : loopPending FrameCb.heroTick w = []) :
    LoopRunning FrameCb.syncScrollTrigger (run (useLenisMount true w).2 during) ∧
    loopPending FrameCb.syncScrollTrigger
      (run (runCleanup (useLenisMount true w).1 (run (useLenisMount true w).2 during)) after)
      = [] ∧
    LoopRunning FrameCb.heroTick (run (startMouseParallax false w).2 during) ∧
    loopPending FrameCb.heroTick
      (run (heroCleanup (run (startMouseParallax false w).2 during)) after) = [] := by
  have s := running_run FrameCb.syncScrollTrigger (fun _ _ h => by cases h) _ during
    (sync_start w hw hsync)
  have h := running_run FrameCb.heroTick (fun _ _ h => by cases h) _ during
    (hero_start w hw hhero)
  refine ⟨s.2, ?_, h.2, ?_⟩
  · exact idle_run _ (fun _ _ h => by cases h) _ after (sync_cleanup _ s.1 s.2)
  · exact idle_run _ (fun _ _ h => by cases h) _ after (hero_cleanup _ h.2)

/-- C3 on a fresh page: three frames while the loops run, two after the cleanup. -/
theorem frame_loops_one_pending_then_none_witness :
    LoopRunning FrameCb.syncScrollTrigger
      (run (useLenisMount true (World.init 0)).2 [Step.frame, Step.frame, Step.frame]) ∧
    loopPending FrameCb.heroTick
      (run (heroCleanup (run (startMouseParallax false (World.init 0)).2
        [Step.frame, Step.frame, Step.frame])) [Step.frame, Step.frame]) = [] :=
  ⟨(frame_loops_one_pending_then_none (World.init 0) [Step.frame, Step.frame, Step.frame]
      [Step.frame, Step.frame]
      ⟨by simp [World.init], by simp [World.init]⟩ rfl rfl).1,
   (frame_loops_one_pending_then_none (World.init 0) [Step.frame, Step.frame, Step.frame]
      [Step.frame, Step.frame]
      ⟨by simp [World.init], by simp [World.init]⟩ rfl rfl).2.2.2⟩

/-! ## Order of calls within a ticker tick -/

theorem log_runListeners (ls : List Listener) (u : World) :
    (ls.foldl (fun w c => runListener c w) u).log = u.log ++ ls.map Listener.call := by
  induction ls generalizing u with
  | nil => simp
  | cons c ls ih =>
    simp only [List.foldl_cons, List.map_cons]
    rw [ih]
    cases c <;> simp [runListener, World.emit, Listener.call]

theorem log_lenisRaf (v : World) (n : Nat) (time : ℚ) (l : Lenis)
    (h : v.lenises.find? (fun l => l.id = n) = some l) :
    (v.lenisRaf n time).log =
      v.log ++ Call.lenisRaf n time
        :: Call.animateAdvance n ((time - (if l.time = 0 then time else l.time)) / 1000)
        :: (if l.isRunning then l.scrollListeners.map Listener.call else []) := by
  unfold World.lenisRaf
  rw [h]
  dsimp only
  cases hr : l.isRunning
  · simp [World.emit, World.updLenis]
  · simp only [Bool.not_true, Bool.false_eq_true, if_false, if_true]
    rw [log_runListeners]
    simp [World.emit, World.updLenis]

theorem find_mounted_lenis (w v : World)
    (hids : ∀ l ∈ w.lenises, l.id ≠ w.lenises.length)
    (hv : (hookView v).1
      = (hookView w).1 ++ [(w.lenises.length, [Listener.scrollTriggerUpdate], false)]) :
    ∃ l, v.lenises.find? (fun l => l.id = w.lenises.length) = some l ∧
      l.scrollListeners = [Listener.scrollTriggerUpdate] := by
  have hex : ∃ l ∈ v.lenises, l.id = w.lenises.length := by
    have : (w.lenises.length, [Listener.scrollTriggerUpdate], false) ∈ (hookView v).1 := by
      rw [hv]; simp
    simp only [hookView, List.mem_map] at this
    obtain ⟨l, hl, e⟩ := this
    exact ⟨l, hl, (Prod.mk.inj e).1⟩
  obtain ⟨l0, hl0, hid0⟩ := hex
  cases hf : v.lenises.find? (fun l => l.id = w.lenises.length) with
  | none =>
    have := List.find?_eq_none.mp hf l0 hl0
    simp [hid0] at this
  | some l =>
    refine ⟨l, rfl, ?_⟩
    have hid : l.id = w.lenises.length := by simpa using List.find?_some hf
    have hmem : (l.id, l.scrollListeners, l.destroyed) ∈ (hookView v).1 := by
      simp only [hookView, List.mem_map]
      exact ⟨l, List.mem_of_find?_eq_some hf, rfl⟩
    rw [hv, List.mem_append] at hmem
    rcases hmem with hm | hm
    · simp only [hookView, List.mem_map] at hm
      obtain ⟨l1, hl1, e⟩ := hm
      have := (Prod.mk.inj e).1
      exact absurd (this.trans hid) (hids l1 hl1)
    · simp only [List.mem_singleton, Prod.mk.injEq] at hm
      exact hm.2.1

/-- C4: after a fine-pointer mount and any events, the hook's ticker callback is
registered on the ticker, and invoking it with ticker time `time` (seconds)
first calls `lenis.raf(time * 1000)`, which advances the scroll animation; the
only call that can follow is `ScrollTrigger.update`, made as the `'scroll'`
listener when that advance moved a running animation.  No
`ScrollTrigger.update` precedes the advance. -/
theorem tickerCb_advances_before_update (w : World) (events : List Step) (time : ℚ)
    (hfresh : TickerCb.lenisRaf w.lenises.length ∉ w.ticker.listeners)
    (hids : ∀ l ∈ w.lenises, l.id ≠ w.lenises.length) :
    TickerCb.lenisRaf w.lenises.length ∈ (run (useLenisMount false w).2 events).ticker.listeners ∧
    ∃ l, (run (useLenisMount false w).2 events).lenises.find?
          (fun l => l.id = w.lenises.length) = some l ∧
      (runTickerCb time (TickerCb.lenisRaf w.lenises.length)
          (run (useLenisMount false w).2 events)).log =
        (run (useLenisMount false w).2 events).log ++
          Call.lenisRaf w.lenises.length (time * 1000)
          :: Call.animateAdvance w.lenises.length
              ((time * 1000 - (if l.time = 0 then time * 1000 else l.time)) / 1000)
          :: (if l.isRunning then [Call.scrollTriggerUpdate] else []) := by
  obtain ⟨_, hl, ht, _⟩ := hookView_mount_desktop w hfresh hids
  have hv := hookView_run (useLenisMount false w).2 events
  constructor
  · have : (run (useLenisMount false w).2 events).ticker.listeners
        = w.ticker.listeners ++ [TickerCb.lenisRaf w.lenises.length] := by
      have := congrArg (fun t => t.2.1) hv
      exact this.trans ht
    rw [this]; simp
  · obtain ⟨l, hf, hs⟩ := find_mounted_lenis w (run (useLenisMount false w).2 events) hids
      ((congrArg Prod.fst hv).trans hl)
    refine ⟨l, hf, ?_⟩
    show (World.lenisRaf _ _ _).log = _
    rw [log_lenisRaf _ _ _ l hf, hs]
    rfl

/-- C4 on a fresh page, after a wheel input has started the scroll animation:
the callback is on the ticker and its calls at ticker time 1/50 s start with
`lenis.raf(20)`. -/
theorem tickerCb_advances_before_update_witness :
    TickerCb.lenisRaf 0 ∈ (run (useLenisMount false (World.init 0)).2 [Step.wheel 0]).ticker.listeners ∧
    ∃ l, (run (useLenisMount false (World.init 0)).2 [Step.wheel 0]).lenises.find?
          (fun l => l.id = 0) = some l ∧
      (runTickerCb (1 / 50) (TickerCb.lenisRaf 0)
          (run (useLenisMount false (World.init 0)).2 [Step.wheel 0])).log =
        (run (useLenisMount false (World.init 0)).2 [Step.wheel 0]).log ++
          Call.lenisRaf 0 (1 / 50 * 1000)
          :: Call.animateAdvance 0
              ((1 / 50 * 1000 - (if l.time = 0 then 1 / 50 * 1000 else l.time)) / 1000)
          :: (if l.isRunning then [Call.scrollTriggerUpdate] else []) :=
  tickerCb_advances_before_update (World.init 0) [Step.wheel 0] (1 / 50)
    (by simp [World.init, Ticker.init]) (by simp [World.init])

/-! ## Lag smoothing -/

theorem ticker_lenisRaf (w : World) (id : Nat) (time : ℚ) :
    (w.lenisRaf id time).ticker = w.ticker := by
  unfold World.lenisRaf
  split
  · rfl
  · dsimp only
    split
    · rfl
    · exact (foldl_keeps World.ticker _ (fun a b => by cases b <;> rfl) _ _).trans rfl

theorem ticker_runTickerCb (time : ℚ) (cb : TickerCb) (w : World) :
    (runTickerCb time cb w).ticker = w.ticker := by
  cases cb with
  | lenisRaf l => exact ticker_lenisRaf w l _
  | foreign t => rfl

theorem ticker_runHandle (w : World) (h : Nat) : (runHandle w h).ticker = w.ticker := by
  unfold runHandle
  split
  · rename_i cb _
    cases cb with
    | syncScrollTrigger => rfl
    | heroTick =>
      simp only [runFrameCb, heroTick]
      split <;> rfl
    | foreign t a => cases a <;> rfl
  · rfl

/-- What one `_tick` does to the ticker's state. -/
theorem ticker_gsapTick (now : ℚ) (w : World) :
    (gsapTick now w).ticker.lagThreshold = w.ticker.lagThreshold ∧
    (gsapTick now w).ticker.listeners = w.ticker.listeners ∧
    (gsapTick now w).ticker.lastUpdate = now ∧
    (w.ticker.lagThreshold = none → w.ticker.lastUpdate ≤ now →
      (gsapTick now w).ticker.startTime = w.ticker.startTime) := by
  unfold gsapTick
  dsimp only
  split_ifs with h1 h2 h3
  all_goals
    first
    | rw [foldl_keeps World.ticker _ (fun a b => ticker_runTickerCb _ b a)]
    | skip
  all_goals
    refine ⟨rfl, rfl, by simp, ?_⟩
    intro hn hle
    first
    | rfl
    | (exfalso
       rw [hn] at h1
       simp only [Bool.false_or, decide_eq_true_eq] at h1
       linarith)

theorem lagThreshold_step (w : World) (s : Step) :
    (step w s).ticker.lagThreshold = w.ticker.lagThreshold := by
  cases s with
  | frame => exact congrArg _ (foldl_keeps World.ticker _ ticker_runHandle _ w)
  | gsapTick now => exact (ticker_gsapTick now w).1
  | wheel l => rfl
  | mouseMove a b c d =>
    exact congrArg _ (foldl_keeps World.ticker _ (fun w l => by cases l <;> rfl) _ w)
  | foreignRequest t again => rfl
  | foreignCancel id =>
    unfold step
    dsimp only
    split <;> rfl

theorem lagThreshold_run (w : World) (ss : List Step) :
    (run w ss).ticker.lagThreshold = w.ticker.lagThreshold :=
  foldl_keeps (fun v => v.ticker.lagThreshold) step lagThreshold_step ss w

theorem find_map_upd (ls : List Lenis) (n k : Nat) (f : Lenis → Lenis)
    (hf : ∀ l, (f l).id = l.id) :
    (ls.map (fun l => if l.id = k then f l else l)).find? (fun l => l.id = n)
      = if k = n then (ls.find? (fun l => l.id = n)).map f
        else ls.find? (fun l => l.id = n) := by
  induction ls with
  | nil => simp
  | cons a ls ih =>
    simp only [List.map_cons, List.find?_cons]
    by_cases hk : k = n
    · subst hk
      simp only [if_true] at ih ⊢
      by_cases ha : a.id = k
      · simp [ha, hf]
      · simp only [ha, if_false, decide_False]
        exact ih
    · simp only [hk, if_false] at ih ⊢
      by_cases ha : a.id = k
      · have hne : a.id ≠ n := fun e => hk (ha.symm.trans e)
        simp only [ha, if_true, hf, hk, decide_False]
        simp only [← ha] at ih ⊢
        simp only [ha, hne, decide_False]
        rw [← ih]
        simp [ha]
      · simp only [ha, if_false]
        rw [ih]

theorem lenises_runListeners (ls : List Listener) (u : World) :
    (ls.foldl (fun w c => runListener c w) u).lenises = u.lenises :=
  foldl_keeps World.lenises _ (fun a b => by cases b <;> rfl) ls u

theorem find_lenisRaf_ne (w : World) (k n : Nat) (time : ℚ) (hk : k ≠ n) :
    (w.lenisRaf k time).lenises.find? (fun l => l.id = n)
      = w.lenises.find? (fun l => l.id = n) := by
  unfold World.lenisRaf
  split
  · rfl
  · dsimp only
    split
    · show (List.map _ w.lenises).find? _ = _
      rw [find_map_upd]
      · simp [hk]
      · intro _; rfl
    · rw [lenises_runListeners]
      show (List.map _ (List.map _ w.lenises)).find? _ = _
      rw [find_map_upd, find_map_upd]
      · simp [hk]
      · intro _; rfl
      · intro _; rfl

theorem find_lenisRaf_self (w : World) (n : Nat) (time : ℚ) (l : Lenis)
    (h : w.lenises.find? (fun l => l.id = n) = some l) :
    ∃ l1, (w.lenisRaf n time).lenises.find? (fun l => l.id = n) = some l1 ∧ l1.time = time := by
  unfold World.lenisRaf
  rw [h]
  dsimp only
  split
  · refine ⟨{ l with time := time }, ?_, rfl⟩
    show (List.map _ w.lenises).find? _ = _
    rw [find_map_upd, h]
    · simp
    · intro _; rfl
  · rw [lenises_runListeners]
    have key : ∀ f1 f2 : Lenis → Lenis, (∀ l, (f1 l).id = l.id) → (∀ l, (f2 l).id = l.id) →
        ((w.lenises.map (fun l => if l.id = n then f1 l else l)).map
          (fun l => if l.id = n then f2 l else l)).find? (fun l => l.id = n)
          = some (f2 (f1 l)) := by
      intro f1 f2 h1 h2
      rw [find_map_upd _ n n f2 h2, find_map_upd _ n n f1 h1, h]
      simp
    exact ⟨_, key (fun l => { l with time := time })
      (fun l1 => { l1 with
        currentTime := l.currentTime + (time - (if l.time = 0 then time else l.time)) / 1000,
        isRunning := !decide (l.duration
          ≤ l.currentTime + (time - (if l.time = 0 then time else l.time)) / 1000) })
      (fun _ => rfl) (fun _ => rfl), rfl⟩

theorem find_runTickerCbs (L : List TickerCb) (n : Nat) (time : ℚ) (u : World)
    (hnot : TickerCb.lenisRaf n ∉ L) :
    (L.foldl (fun w cb => runTickerCb time cb w) u).lenises.find? (fun l => l.id = n)
      = u.lenises.find? (fun l => l.id = n) := by
  induction L generalizing u with
  | nil => rfl
  | cons cb L ih =>
    simp only [List.mem_cons, not_or] at hnot
    simp only [List.foldl_cons]
    rw [ih _ hnot.2]
    cases cb with
    | foreign t => rfl
    | lenisRaf k =>
      have hk : k ≠ n := fun e => hnot.1 (by rw [e])
      exact find_lenisRaf_ne u k n _ hk

/-- A due tick on a ticker without lag threshold: the hook's callback, last in
the list, is handed the full ticker time and Lenis derives its delta from the
clock value of the previous call. -/
theorem tick_dispatch (v : World) (now : ℚ) (L : List TickerCb) (n : Nat) (l : Lenis)
    (hL : v.ticker.listeners = L ++ [TickerCb.lenisRaf n]) (hnot : TickerCb.lenisRaf n ∉ L)
    (hthr : v.ticker.lagThreshold = none) (hle : v.ticker.lastUpdate ≤ now)
    (hdue : v.ticker.startTime + v.ticker.nextTime < now)
    (hf : v.lenises.find? (fun l => l.id = n) = some l) :
    (∃ pre, (gsapTick now v).log =
      pre ++ Call.lenisRaf n (now - v.ticker.startTime)
        :: Call.animateAdvance n
            ((now - v.ticker.startTime
              - (if l.time = 0 then now - v.ticker.startTime else l.time)) / 1000)
        :: (if l.isRunning then l.scrollListeners.map Listener.call else [])) ∧
    ∃ l1, (gsapTick now v).lenises.find? (fun l => l.id = n) = some l1 ∧
      l1.time = now - v.ticker.startTime := by
  have h0 : ¬ (now - v.ticker.lastUpdate < 0) := by linarith
  have h1 : 0 < v.ticker.lastUpdate + (now - v.ticker.lastUpdate) - v.ticker.startTime
      - v.ticker.nextTime := by linarith
  have hT : (v.ticker.lastUpdate + (now - v.ticker.lastUpdate) - v.ticker.startTime) / 1000 * 1000
      = now - v.ticker.startTime := by ring
  unfold gsapTick
  dsimp only
  rw [hthr]
  simp only [h0, decide_False, Bool.or_false, Bool.false_eq_true, if_false, h1, if_true, hL,
    List.foldl_append, List.foldl_cons, List.foldl_nil]
  generalize hu : List.foldl _ _ L = u
  have hfu : u.lenises.find? (fun l => l.id = n) = some l := by
    rw [← hu, find_runTickerCbs _ _ _ _ hnot]
    exact hf
  show (∃ pre, (World.lenisRaf u n _).log = _) ∧ ∃ l1, (World.lenisRaf u n _).lenises.find? _ = _ ∧ _
  rw [hT]
  exact ⟨⟨u.log, log_lenisRaf u n _ l hfu⟩, find_lenisRaf_self u n _ l hfu⟩

/-- C5 (as the code has it): the mount calls `gsap.ticker.lagSmoothing(0)`, which
switches lag smoothing off, and it stays off.  For two consecutive dispatched
ticks at wall-clock times `now1 ≤ now2`, however far apart, the hook's callback
is handed the full ticker time and the delta that reaches the Lenis
interpolation (`animate.advance`) is the whole gap `(now2 - now1) / 1000`
seconds; nothing caps it. -/
theorem lagSmoothing_off_passes_full_gap (w v : World) (events : List Step) (now1 now2 : ℚ)
    (hfresh : TickerCb.lenisRaf w.lenises.length ∉ w.ticker.listeners)
    (hids : ∀ l ∈ w.lenises, l.id ≠ w.lenises.length)
    (hv : v = run (useLenisMount false w).2 events)
    (h1 : v.ticker.lastUpdate ≤ now1) (h12 : now1 ≤ now2)
    (hne : now1 ≠ v.ticker.startTime)
    (hd1 : v.ticker.startTime + v.ticker.nextTime < now1)
    (hd2 : v.ticker.startTime + (gsapTick now1 v).ticker.nextTime < now2) :
    v.ticker.lagThreshold = none ∧
    ∃ pre tail, (gsapTick now2 (gsapTick now1 v)).log =
      pre ++ Call.lenisRaf w.lenises.length (now2 - v.ticker.startTime)
        :: Call.animateAdvance w.lenises.length ((now2 - now1) / 1000) :: tail := by
  obtain ⟨_, hl, ht, _⟩ := hookView_mount_desktop w hfresh hids
  have hview := hookView_run (useLenisMount false w).2 events
  rw [← hv] at hview
  have hL : v.ticker.listeners = w.ticker.listeners ++ [TickerCb.lenisRaf w.lenises.length] :=
    (congrArg (fun t => t.2.1) hview).trans ht
  have hthr : v.ticker.lagThreshold = none := by
    rw [hv, lagThreshold_run]; rfl
  obtain ⟨l, hf, _⟩ := find_mounted_lenis w v hids ((congrArg Prod.fst hview).trans hl)
  obtain ⟨_, l1, hf1, ht1⟩ := tick_dispatch v now1 _ _ l hL hfresh hthr h1 hd1 hf
  obtain ⟨g1, g2, g3, g4⟩ := ticker_gsapTick now1 v
  have hstart := g4 hthr h1
  have hl1 : l1.time ≠ 0 := by
    rw [ht1]; exact sub_ne_zero.mpr hne
  obtain ⟨⟨pre, hlog⟩, _⟩ := tick_dispatch (gsapTick now1 v) now2 _ _ l1 (g2.trans hL) hfresh
    (g1.trans hthr) (by rw [g3]; exact h12) (by rw [hstart]; exact hd2) hf1
  refine ⟨hthr, pre, (if l1.isRunning then l1.scrollListeners.map Listener.call else []), ?_⟩
  rw [hlog, hstart, if_neg hl1, ht1]
  have e : now2 - v.ticker.startTime - (now1 - v.ticker.startTime) = now2 - now1 := by ring
  rw [e]

/-- C5 (amended) on a fresh page: ticks at 1000 ms and 61000 ms. -/
theorem lagSmoothing_off_passes_full_gap_witness :
    (run (useLenisMount false (World.init 0)).2 [Step.wheel 0]).ticker.lagThreshold = none ∧
    ∃ pre tail, (gsapTick 61000 (gsapTick 1000
        (run (useLenisMount false (World.init 0)).2 [Step.wheel 0]))).log =
      pre ++ Call.lenisRaf (World.init 0).lenises.length
          (61000 - (run (useLenisMount false (World.init 0)).2 [Step.wheel 0]).ticker.startTime)
        :: Call.animateAdvance (World.init 0).lenises.length ((61000 - 1000) / 1000) :: tail :=
  lagSmoothing_off_passes_full_gap (World.init 0) _ [Step.wheel 0] 1000 61000
    (by simp [World.init, Ticker.init]) (by simp [World.init]) rfl
    (by norm_num [run, step, World.wheel, useLenisMount, World.init, Ticker.init,
      World.newLenis, World.lenisOn, World.tickerAdd, World.lagSmoothing, World.updLenis,
      World.emit])
    (by norm_num)
    (by norm_num [run, step, World.wheel, useLenisMount, World.init, Ticker.init,
      World.newLenis, World.lenisOn, World.tickerAdd, World.lagSmoothing, World.updLenis,
      World.emit])
    (by norm_num [run, step, World.wheel, useLenisMount, World.init, Ticker.init,
      World.newLenis, World.lenisOn, World.tickerAdd, World.lagSmoothing, World.updLenis,
      World.emit])
    (by norm_num [run, step, World.wheel, gsapTick, runTickerCb, World.lenisRaf, runListener,
      useLenisMount, World.init, Ticker.init, World.newLenis, World.lenisOn, World.tickerAdd,
      World.lagSmoothing, World.updLenis, World.emit])

/-- C5 fails as stated: on a fresh page, after the fine-pointer mount and a
wheel input, a tick at 1000 ms followed by one at 61000 ms (a tab that was in
the background for a minute) hands Lenis a delta of 60 seconds, far above any
frame interval (gsap's own cap would have been 33 ms). -/
theorem lagSmoothing_cap_counterexample :
    (run (useLenisMount false (World.init 0)).2
      [Step.wheel 0, Step.gsapTick 1000, Step.gsapTick 61000]).log.drop 7
      = [Call.lenisRaf 0 61000, Call.animateAdvance 0 60, Call.scrollTriggerUpdate] ∧
    ¬ ((60 : ℚ) ≤ 33 / 1000) := by
  constructor
  · norm_num [run, step, World.wheel, gsapTick, runTickerCb, World.lenisRaf, runListener,
      useLenisMount, World.init, Ticker.init, World.newLenis, World.lenisOn, World.tickerAdd,
      World.lagSmoothing, World.updLenis, World.emit]
  · norm_num

/-- With gsap's default lag smoothing left on (threshold 500 ms, adjusted lag
33 ms) two ticks a minute apart hand Lenis a delta of 33 ms: the cap exists in
the ticker and it is the hook's call that removes it. -/
theorem lagSmoothing_default_caps :
    (run { World.init 0 with
            ticker := { Ticker.init 0 with listeners := [TickerCb.lenisRaf 0] },
            lenises := [{ id := 0, duration := 12 / 10,
                          scrollListeners := [Listener.scrollTriggerUpdate],
                          destroyed := false, time := 0, isRunning := true,
                          currentTime := 0 }] }
      [Step.gsapTick 16, Step.gsapTick 60016]).log.drop 3
      = [Call.lenisRaf 0 49, Call.animateAdvance 0 (33 / 1000), Call.scrollTriggerUpdate] := by
  norm_num [run, step, gsapTick, runTickerCb, World.lenisRaf, runListener, World.init,
    Ticker.init, World.updLenis, World.emit]

/-! ## Menu overlay: reverse continues from where play got to -/

theorem menu_duration : timelineDuration (menuSteps 5 4) = 152 / 100 := by
  norm_num [timelineDuration, menuSteps, placeStep, TlStep.span]

theorem advance_time_nonneg (a : Animation) (dt : ℚ) (h : 0 ≤ a.time) :
    0 ≤ (a.advance dt).time := by
  unfold Animation.advance
  split
  · exact h
  · exact le_max_left _ _

theorem mounted_step (m : MenuOverlay) (e : MenuEvent) (h : m.Mounted) :
    (menuStep m e).Mounted := by
  obtain ⟨tl, ht, hid, hd, h0⟩ := h
  cases e with
  | setOpen b =>
    cases b
    · exact ⟨tl.reverse, by simp [menuStep, menuEffect, ht], hid, hd, h0⟩
    · exact ⟨tl.play, by simp [menuStep, menuEffect, ht], hid, hd, h0⟩
  | tick dt =>
    refine ⟨tl.advance dt, by simp [menuStep, menuTick, ht], ?_, ?_, advance_time_nonneg tl dt h0⟩
    · unfold Animation.advance; split <;> exact hid
    · unfold Animation.advance; split <;> exact hd

theorem mounted_run (es : List MenuEvent) :
    (menuRun (menuMount MenuOverlay.init) es).Mounted := by
  have h0 : (menuMount MenuOverlay.init).Mounted :=
    ⟨_, rfl, rfl, menu_duration, le_refl _⟩
  unfold menuRun
  generalize menuMount MenuOverlay.init = m at h0
  induction es generalizing m with
  | nil => exact h0
  | cons e es ih => exact ih _ (mounted_step m e h0)

theorem reversing_tick (m : MenuOverlay) (dt : ℚ) (hdt : 0 ≤ dt) (h : m.Reversing) :
    (menuTick dt m).Reversing ∧ (menuTick dt m).progress ≤ m.progress := by
  obtain ⟨tl, ht, hid, hd, h0, hr, hp⟩ := h
  have hadv : tl.advance dt = { tl with time := max 0 (min tl.duration (tl.time - dt)) } := by
    simp [Animation.advance, hr, hp]
  have hle : max 0 (min tl.duration (tl.time - dt)) ≤ tl.time := by
    apply max_le h0
    exact (min_le_right _ _).trans (by linarith)
  refine ⟨⟨tl.advance dt, by simp [menuTick, ht], ?_, ?_, advance_time_nonneg tl dt h0, ?_, ?_⟩, ?_⟩
  · rw [hadv]; exact hid
  · rw [hadv]; exact hd
  · rw [hadv]; exact hr
  · rw [hadv]; exact hp
  · simp only [MenuOverlay.progress, menuTick, ht, Option.map_some', Animation.progress, hadv]
    exact div_le_div_of_nonneg_right hle (by rw [hd]; norm_num)

theorem reversing_ticks (dts : List ℚ) (hdts : ∀ d ∈ dts, 0 ≤ d) :
    ∀ m : MenuOverlay, m.Reversing →
      (menuTicks m dts).Reversing ∧ (menuTicks m dts).progress ≤ m.progress := by
  induction dts with
  | nil => intro m h; exact ⟨h, le_refl _⟩
  | cons d dts ih =>
    intro m h
    obtain ⟨h1, h2⟩ := reversing_tick m d (hdts d (List.mem_cons_self _ _)) h
    obtain ⟨h3, h4⟩ := ih (fun x hx => hdts x (List.mem_cons_of_mem _ hx)) _ h1
    exact ⟨h3, h4.trans h2⟩

theorem advance_time_le (a : Animation) (dt : ℚ) (hd : 0 ≤ a.duration)
    (h : a.time ≤ a.duration) :
    (a.advance dt).time ≤ (a.advance dt).duration ∧ (a.advance dt).duration = a.duration := by
  unfold Animation.advance
  split
  · exact ⟨h, rfl⟩
  · exact ⟨max_le hd (min_le_left _ _), rfl⟩

theorem mounted_range_step (m : MenuOverlay) (e : MenuEvent)
    (h : ∃ tl, m.tlRef = some tl ∧ tl.duration = 152 / 100 ∧ tl.time ≤ 152 / 100) :
    ∃ tl, (menuStep m e).tlRef = some tl ∧ tl.duration = 152 / 100 ∧ tl.time ≤ 152 / 100 := by
  obtain ⟨tl, ht, hd, hle⟩ := h
  cases e with
  | setOpen b =>
    cases b
    · exact ⟨tl.reverse, by simp [menuStep, menuEffect, ht], hd, hle⟩
    · exact ⟨tl.play, by simp [menuStep, menuEffect, ht], hd, hle⟩
  | tick dt =>
    obtain ⟨a1, a2⟩ := advance_time_le tl dt (by rw [hd]; norm_num) (by rw [hd]; exact hle)
    exact ⟨tl.advance dt, by simp [menuStep, menuTick, ht], a2.trans hd, by
      rw [a2, hd] at a1; exact a1⟩

theorem mounted_range_run (es : List MenuEvent) :
    ∃ tl, (menuRun (menuMount MenuOverlay.init) es).tlRef = some tl ∧
      tl.duration = 152 / 100 ∧ tl.time ≤ 152 / 100 := by
  have h0 : ∃ tl, (menuMount MenuOverlay.init).tlRef = some tl ∧
      tl.duration = 152 / 100 ∧ tl.time ≤ 152 / 100 :=
    ⟨_, rfl, menu_duration, by norm_num⟩
  unfold menuRun
  generalize menuMount MenuOverlay.init = m at h0
  induction es generalizing m with
  | nil => exact h0
  | cons e es ih => exact ih _ (mounted_range_step m e h0)

theorem reversingAt_progress (m : MenuOverlay) (t : ℚ) (h : m.ReversingAt t) :
    m.progress = t / (152 / 100) := by
  obtain ⟨tl, ht, _, hd, htime, _, _⟩ := h
  simp [MenuOverlay.progress, ht, Animation.progress, hd, htime]

theorem reversingAt_tick (m : MenuOverlay) (t dt : ℚ) (hdt : 0 ≤ dt) (hle : t ≤ 152 / 100)
    (h : m.ReversingAt t) : (menuTick dt m).ReversingAt (max 0 (t - dt)) := by
  obtain ⟨tl, ht, hid, hd, htime, hr, hp⟩ := h
  have hadv : tl.advance dt = { tl with time := max 0 (min tl.duration (tl.time - dt)) } := by
    simp [Animation.advance, hr, hp]
  have hmin : min tl.duration (tl.time - dt) = t - dt := by
    rw [hd, htime]
    exact min_eq_right (by linarith)
  refine ⟨tl.advance dt, by simp [menuTick, ht], ?_, ?_, ?_, ?_, ?_⟩
  · rw [hadv]; exact hid
  · rw [hadv]; exact hd
  · rw [hadv]; show max 0 (min tl.duration (tl.time - dt)) = _; rw [hmin]
  · rw [hadv]; exact hr
  · rw [hadv]; exact hp

theorem reversingAt_ticks (dts : List ℚ) (hdts : ∀ d ∈ dts, 0 ≤ d) :
    ∀ (m : MenuOverlay) (t : ℚ), 0 ≤ t → t ≤ 152 / 100 → m.ReversingAt t →
      (menuTicks m dts).ReversingAt (max 0 (t - dts.sum)) := by
  induction dts with
  | nil =>
    intro m t h0 _ h
    simpa [menuTicks, max_eq_right h0] using h
  | cons d ds ih =>
    intro m t h0 hle h
    have hd : 0 ≤ d := hdts d (List.mem_cons_self _ _)
    have hds : ∀ x ∈ ds, 0 ≤ x := fun x hx => hdts x (List.mem_cons_of_mem _ hx)
    have hsum : 0 ≤ ds.sum := List.sum_nonneg hds
    have h1 := reversingAt_tick m t d hd hle h
    have h2 := ih hds _ _ (le_max_left _ _) (max_le (by norm_num) (by linarith)) h1
    have e : max 0 (max 0 (t - d) - ds.sum) = max 0 (t - (d :: ds).sum) := by
      rw [List.sum_cons]
      rcases le_total 0 (t - d) with hc | hc
      · rw [max_eq_right hc]
        congr 1
        ring
      · rw [max_eq_left hc, max_eq_left (by linarith), max_eq_left (by linarith)]
    rw [← e]
    exact h2

/-- C6: in Menu/MenuOverlay the timeline built by the mount effect is the one
every later open and close acts on.  Whatever the menu went through before
(in particular a forward play interrupted at progress `p`), when `isOpen`
becomes false the progress right after `reverse()` is still `p`, the instance is
the one the mount built, and it is unpaused and running backwards: after ticks
summing to `s` seconds the progress is exactly `max 0 (p - s / 1.52)`, so it
never exceeds `p`, never increases, strictly decreases under every tick of
positive length while it is above 0, and is 0 once `p * 1.52` seconds have
passed. -/
theorem menu_reverse_continues_from_progress (es : List MenuEvent) (dts : List ℚ) (dt : ℚ)
    (hdts : ∀ d ∈ dts, 0 ≤ d) (hdt : 0 ≤ dt) :
    (menuEffect false (menuRun (menuMount MenuOverlay.init) es)).progress
      = (menuRun (menuMount MenuOverlay.init) es).progress ∧
    (menuEffect false (menuRun (menuMount MenuOverlay.init) es)).tlRef.map Animation.id
      = (menuMount MenuOverlay.init).tlRef.map Animation.id ∧
    (menuTicks (menuEffect false (menuRun (menuMount MenuOverlay.init) es)) dts).progress
      ≤ (menuRun (menuMount MenuOverlay.init) es).progress ∧
    (menuTick dt
        (menuTicks (menuEffect false (menuRun (menuMount MenuOverlay.init) es)) dts)).progress
      ≤ (menuTicks (menuEffect false (menuRun (menuMount MenuOverlay.init) es)) dts).progress ∧
    (menuEffect false (menuRun (menuMount MenuOverlay.init) es)).tlRef.map
        (fun tl => (tl.reversed, tl.paused)) = some (true, false) ∧
    (menuTicks (menuEffect false (menuRun (menuMount MenuOverlay.init) es)) dts).progress
      = max 0 ((menuRun (menuMount MenuOverlay.init) es).progress
          - dts.sum / timelineDuration (menuSteps 5 4)) ∧
    (0 < dt →
      0 < (menuTicks (menuEffect false (menuRun (menuMount MenuOverlay.init) es)) dts).progress →
      (menuTick dt
          (menuTicks (menuEffect false (menuRun (menuMount MenuOverlay.init) es)) dts)).progress
        < (menuTicks (menuEffect false (menuRun (menuMount MenuOverlay.init) es))
            dts).progress) ∧
    ((menuRun (menuMount MenuOverlay.init) es).progress * timelineDuration (menuSteps 5 4)
        ≤ dts.sum →
      (menuTicks (menuEffect false (menuRun (menuMount MenuOverlay.init) es)) dts).progress
        = 0) := by
  obtain ⟨tl, ht, hid, hd, h0⟩ := mounted_run es
  obtain ⟨tl2, ht2, _, hle2⟩ := mounted_range_run es
  have htl : tl2 = tl := Option.some.inj (ht2.symm.trans ht)
  rw [htl] at hle2
  have hrev : (menuEffect false (menuRun (menuMount MenuOverlay.init) es)).Reversing :=
    ⟨tl.reverse, by simp [menuEffect, ht], hid, hd, h0, rfl, rfl⟩
  have hp : (menuEffect false (menuRun (menuMount MenuOverlay.init) es)).progress
      = (menuRun (menuMount MenuOverlay.init) es).progress := by
    simp [menuEffect, ht, MenuOverlay.progress, Animation.progress, Animation.reverse]
  obtain ⟨h1, h2⟩ := reversing_ticks dts hdts _ hrev
  have e : (menuEffect false (menuRun (menuMount MenuOverlay.init) es)).tlRef
      = some tl.reverse := by
    simp [menuEffect, ht]
  have hat : (menuEffect false (menuRun (menuMount MenuOverlay.init) es)).ReversingAt tl.time :=
    ⟨tl.reverse, e, hid, hd, rfl, rfl, rfl⟩
  have hM : (menuRun (menuMount MenuOverlay.init) es).progress = tl.time / (152 / 100) := by
    simp [MenuOverlay.progress, ht, Animation.progress, hd]
  have hticks := reversingAt_ticks dts hdts _ _ h0 hle2 hat
  have hprog := reversingAt_progress _ _ hticks
  have hexact : (menuTicks (menuEffect false (menuRun (menuMount MenuOverlay.init) es))
      dts).progress = max 0 ((menuRun (menuMount MenuOverlay.init) es).progress
        - dts.sum / timelineDuration (menuSteps 5 4)) := by
    rw [hprog, hM, menu_duration, ← max_div_div_right (by norm_num : (0 : ℚ) ≤ 152 / 100),
      zero_div, sub_div]
  refine ⟨hp, ?_, hp ▸ h2, (reversing_tick _ dt hdt h1).2, ?_, hexact, ?_, ?_⟩
  · rw [e]
    simp [menuMount, Animation.reverse, hid]
  · rw [e]
    rfl
  · intro hpos hgt
    have hs0 : 0 ≤ max 0 (tl.time - dts.sum) := le_max_left _ _
    have hs1 : max 0 (tl.time - dts.sum) ≤ 152 / 100 :=
      max_le (by norm_num) (by linarith [List.sum_nonneg hdts])
    have hnext := reversingAt_progress _ _
      (reversingAt_tick _ _ dt hdt hs1 hticks)
    rw [hprog] at hgt ⊢
    rw [hnext]
    have hspos : 0 < max 0 (tl.time - dts.sum) := by
      by_contra hc
      have : max 0 (tl.time - dts.sum) = 0 := le_antisymm (not_lt.mp hc) hs0
      rw [this] at hgt
      norm_num at hgt
    have hlt : max 0 (max 0 (tl.time - dts.sum) - dt) < max 0 (tl.time - dts.sum) :=
      max_lt hspos (by linarith)
    exact div_lt_div_of_pos_right hlt (by norm_num)
  · intro hdone
    rw [hexact, menu_duration]
    rw [menu_duration] at hdone
    apply max_eq_left
    have : (menuRun (menuMount MenuOverlay.init) es).progress ≤ dts.sum / (152 / 100) := by
      rw [le_div_iff₀ (by norm_num)]
      exact hdone
    linarith

/-- C6 at the scenario of the specification: the menu opens, 0.456 s pass
(progress 0.3 of 1.52 s), then it is closed.  A tick of 0.1 s later the progress
is `3/10 - 0.1 / 1.52 = 356/1520`, a further tick lowers it strictly, and after
0.456 s of reversing it is 0. -/
theorem menu_reverse_continues_from_progress_witness :
    (menuRun (menuMount MenuOverlay.init)
      [MenuEvent.setOpen false, MenuEvent.setOpen true, MenuEvent.tick (456 / 1000)]).progress
      = 3 / 10 ∧
    (menuEffect false (menuRun (menuMount MenuOverlay.init)
      [MenuEvent.setOpen false, MenuEvent.setOpen true, MenuEvent.tick (456 / 1000)])).progress
      = (menuRun (menuMount MenuOverlay.init)
      [MenuEvent.setOpen false, MenuEvent.setOpen true, MenuEvent.tick (456 / 1000)]).progress ∧
    (menuTick (1 / 10) (menuTicks (menuEffect false (menuRun (menuMount MenuOverlay.init)
      [MenuEvent.setOpen false, MenuEvent.setOpen true, MenuEvent.tick (456 / 1000)]))
        [1 / 10])).progress
      ≤ (menuTicks (menuEffect false (menuRun (menuMount MenuOverlay.init)
      [MenuEvent.setOpen false, MenuEvent.setOpen true, MenuEvent.tick (456 / 1000)]))
        [1 / 10]).progress ∧
    (menuTicks (menuEffect false (menuRun (menuMount MenuOverlay.init)
      [MenuEvent.setOpen false, MenuEvent.setOpen true, MenuEvent.tick (456 / 1000)]))
        [1 / 10]).progress
      = max 0 ((menuRun (menuMount MenuOverlay.init)
          [MenuEvent.setOpen false, MenuEvent.setOpen true,
           MenuEvent.tick (456 / 1000)]).progress
          - [(1 / 10 : ℚ)].sum / timelineDuration (menuSteps 5 4)) ∧
    (menuTicks (menuEffect false (menuRun (menuMount MenuOverlay.init)
      [MenuEvent.setOpen false, MenuEvent.setOpen true, MenuEvent.tick (456 / 1000)]))
        [1 / 10]).progress = 356 / 1520 ∧
    (menuTick (1 / 10) (menuTicks (menuEffect false (menuRun (menuMount MenuOverlay.init)
      [MenuEvent.setOpen false, MenuEvent.setOpen true, MenuEvent.tick (456 / 1000)]))
        [1 / 10])).progress
      < (menuTicks (menuEffect false (menuRun (menuMount MenuOverlay.init)
      [MenuEvent.setOpen false, MenuEvent.setOpen true, MenuEvent.tick (456 / 1000)]))
        [1 / 10]).progress ∧
    (menuTicks (menuEffect false (menuRun (menuMount MenuOverlay.init)
      [MenuEvent.setOpen false, MenuEvent.setOpen true, MenuEvent.tick (456 / 1000)]))
        [1 / 10, 356 / 1000]).progress = 0 :=
  ⟨by norm_num [menuRun, menuStep, menuEffect, menuTick, menuMount, MenuOverlay.progress,
      Animation.progress, Animation.advance, Animation.play, Animation.reverse, menu_duration],
   (menu_reverse_continues_from_progress
      [MenuEvent.setOpen false, MenuEvent.setOpen true, MenuEvent.tick (456 / 1000)]
      [1 / 10] (1 / 10) (by simp) (by norm_num)).1,
   (menu_reverse_continues_from_progress
      [MenuEvent.setOpen false, MenuEvent.setOpen true, MenuEvent.tick (456 / 1000)]
      [1 / 10] (1 / 10) (by simp) (by norm_num)).2.2.2.1,
   (menu_reverse_continues_from_progress
      [MenuEvent.setOpen false, MenuEvent.setOpen true, MenuEvent.tick (456 / 1000)]
      [1 / 10] (1 / 10) (by simp) (by norm_num)).2.2.2.2.2.1,
   by norm_num [menuTicks, menuRun, menuStep, menuEffect, menuTick, menuMount,
      MenuOverlay.progress, Animation.progress, Animation.advance, Animation.play,
      Animation.reverse, menu_duration],
   (menu_reverse_continues_from_progress
      [MenuEvent.setOpen false, MenuEvent.setOpen true, MenuEvent.tick (456 / 1000)]
      [1 / 10] (1 / 10) (by simp) (by norm_num)).2.2.2.2.2.2.1 (by norm_num)
      (by norm_num [menuTicks, menuRun, menuStep, menuEffect, menuTick, menuMount,
        MenuOverlay.progress, Animation.progress, Animation.advance, Animation.play,
        Animation.reverse, menu_duration]),
   (menu_reverse_continues_from_progress
      [MenuEvent.setOpen false, MenuEvent.setOpen true, MenuEvent.tick (456 / 1000)]
      [1 / 10, 356 / 1000] (1 / 10)
      (by intro d hd; simp at hd; rcases hd with rfl | rfl <;> norm_num) (by norm_num)).2.2.2.2.2.2.2
      (by norm_num [menuRun, menuStep, menuEffect, menuTick, menuMount, MenuOverlay.progress,
        Animation.progress, Animation.advance, Animation.play, Animation.reverse,
        menu_duration])⟩

/-! ## Technology: reveal triggers play once -/

theorem forward_advance (a : Animation) (dt : ℚ) (hdt : 0 ≤ dt)
    (hr : a.reversed = false) (h0 : 0 ≤ a.time) (hd : a.time ≤ a.duration) :
    (a.advance dt).reversed = false ∧ 0 ≤ (a.advance dt).time ∧
      (a.advance dt).time ≤ (a.advance dt).duration ∧ a.time ≤ (a.advance dt).time ∧
      (a.advance dt).duration = a.duration := by
  unfold Animation.advance
  split
  · exact ⟨hr, h0, hd, le_refl _, rfl⟩
  · simp only [hr, Bool.false_eq_true, if_false]
    have hge : a.time ≤ min a.duration (a.time + dt) := le_min hd (by linarith)
    exact ⟨trivial, le_max_left _ _, max_le (h0.trans hd) (min_le_left _ _),
      hge.trans (le_max_right _ _), trivial⟩

theorem playOnce_step (t : ToggleTrigger) (s : TriggerStep) (hs : s.Forward)
    (h : t.PlayOnce) :
    (t.step s).PlayOnce ∧ t.animation.time ≤ (t.step s).animation.time ∧
      (t.step s).animation.duration = t.animation.duration := by
  obtain ⟨h1, h2, h3, h4, hr, h0, hd⟩ := h
  have hacts : (t.step s).onEnter = t.onEnter ∧ (t.step s).onLeave = t.onLeave ∧
      (t.step s).onEnterBack = t.onEnterBack ∧ (t.step s).onLeaveBack = t.onLeaveBack := by
    cases s <;> exact ⟨rfl, rfl, rfl, rfl⟩
  have hanim : (t.step s).animation.reversed = false ∧ 0 ≤ (t.step s).animation.time ∧
      (t.step s).animation.time ≤ (t.step s).animation.duration ∧
      t.animation.time ≤ (t.step s).animation.time ∧
      (t.step s).animation.duration = t.animation.duration := by
    cases s with
    | fire e =>
      have hact : t.actionFor e = ToggleAction.play ∨ t.actionFor e = ToggleAction.none := by
        cases e <;> simp [ToggleTrigger.actionFor, h1, h2, h3, h4]
      show (applyAction (t.actionFor e) t.animation).reversed = false ∧
        0 ≤ (applyAction (t.actionFor e) t.animation).time ∧
        (applyAction (t.actionFor e) t.animation).time
          ≤ (applyAction (t.actionFor e) t.animation).duration ∧
        t.animation.time ≤ (applyAction (t.actionFor e) t.animation).time ∧
        (applyAction (t.actionFor e) t.animation).duration = t.animation.duration
      rcases hact with ha | ha <;> rw [ha]
      · exact ⟨rfl, h0, hd, le_refl _, rfl⟩
      · exact ⟨hr, h0, hd, le_refl _, rfl⟩
    | tick dt => exact forward_advance t.animation dt hs hr h0 hd
  obtain ⟨c1, c2, c3, c4⟩ := hacts
  obtain ⟨d1, d2, d3, d4, d5⟩ := hanim
  exact ⟨⟨c1.trans h1, c2.trans h2, c3.trans h3, c4.trans h4, d1, d2, d3⟩, d4, d5⟩

theorem playOnce_run (ss : List TriggerStep) (hss : ∀ s ∈ ss, s.Forward) :
    ∀ t : ToggleTrigger, t.PlayOnce →
      (t.run ss).PlayOnce ∧ (t.run ss).animation.duration = t.animation.duration := by
  induction ss with
  | nil => intro t h; exact ⟨h, rfl⟩
  | cons s ss ih =>
    intro t h
    obtain ⟨h1, _, h3⟩ := playOnce_step t s (hss s (List.mem_cons_self _ _)) h
    obtain ⟨h4, h5⟩ := ih (fun x hx => hss x (List.mem_cons_of_mem _ hx)) _ h1
    exact ⟨h4, h5.trans h3⟩

/-- C7: for each reveal trigger of Technology (`'play none none none'`), the only
action any event applies is `play` (on enter) or nothing; the first enter starts
the tween forward; and along every sequence of enter / leave / enter-back /
leave-back events and ticks the tween is never reversed and its progress never
decreases from one step to the next (no restart, reverse or reset). -/
theorem technology_reveal_plays_once (t : ToggleTrigger) (stats : Nat)
    (ss : List TriggerStep) (s : TriggerStep)
    (ht : t = technologyHeadingReveal ∨ t = technologyStatsReveal stats)
    (hss : ∀ x ∈ ss, x.Forward) (hs : s.Forward) :
    (∀ e, t.actionFor e = ToggleAction.play ∨ t.actionFor e = ToggleAction.none) ∧
    (t.step (TriggerStep.fire TriggerEvent.enter)).animation.paused = false ∧
    (t.step (TriggerStep.fire TriggerEvent.enter)).animation.reversed = false ∧
    (∀ e, (t.run ss).actionFor e = t.actionFor e) ∧
    (t.run ss).animation.reversed = false ∧
    (t.run ss).animation.progress ≤ ((t.run ss).step s).animation.progress := by
  have hinit : t.PlayOnce ∧ 0 ≤ t.animation.duration := by
    rcases ht with rfl | rfl
    · refine ⟨⟨rfl, rfl, rfl, rfl, rfl, le_refl _, ?_⟩, ?_⟩ <;>
        norm_num [technologyHeadingReveal]
    · have : (0 : ℚ) ≤ 7 / 10 + 12 / 100 * ((stats - 1 : Nat) : ℚ) := by positivity
      exact ⟨⟨rfl, rfl, rfl, rfl, rfl, le_refl _, this⟩, this⟩
  obtain ⟨hp, hdur⟩ := playOnce_run ss hss t hinit.1
  obtain ⟨_, hmono, hd⟩ := playOnce_step (t.run ss) s hs hp
  obtain ⟨a1, a2, a3, a4, _⟩ := hinit.1
  obtain ⟨b1, b2, b3, b4, b5, _⟩ := hp
  refine ⟨?_, ?_, ?_, ?_, b5, ?_⟩
  · intro e; cases e <;> simp [ToggleTrigger.actionFor, a1, a2, a3, a4]
  · simp [ToggleTrigger.step, ToggleTrigger.actionFor, a1, applyAction, Animation.play]
  · simp [ToggleTrigger.step, ToggleTrigger.actionFor, a1, applyAction, Animation.play]
  · intro e; cases e <;> simp [ToggleTrigger.actionFor, a1, a2, a3, a4, b1, b2, b3, b4]
  · simp only [Animation.progress, hd]
    exact div_le_div_of_nonneg_right hmono (hdur ▸ hinit.2)

/-- C7 on the heading reveal: enter, half a second, leave-back, enter again, and
then another re-entry from below. -/
theorem technology_reveal_plays_once_witness :
    (technologyHeadingReveal.run
      [TriggerStep.fire TriggerEvent.enter, TriggerStep.tick (1 / 2),
       TriggerStep.fire TriggerEvent.leaveBack,
       TriggerStep.fire TriggerEvent.enter]).animation.reversed = false ∧
    (technologyHeadingReveal.run
      [TriggerStep.fire TriggerEvent.enter, TriggerStep.tick (1 / 2),
       TriggerStep.fire TriggerEvent.leaveBack,
       TriggerStep.fire TriggerEvent.enter]).animation.progress
      ≤ ((technologyHeadingReveal.run
      [TriggerStep.fire TriggerEvent.enter, TriggerStep.tick (1 / 2),
       TriggerStep.fire TriggerEvent.leaveBack,
       TriggerStep.fire TriggerEvent.enter]).step
        (TriggerStep.fire TriggerEvent.enterBack)).animation.progress :=
  ⟨(technology_reveal_plays_once technologyHeadingReveal 3
      [TriggerStep.fire TriggerEvent.enter, TriggerStep.tick (1 / 2),
       TriggerStep.fire TriggerEvent.leaveBack, TriggerStep.fire TriggerEvent.enter]
      (TriggerStep.fire TriggerEvent.enterBack) (Or.inl rfl)
      (by intro x hx; simp at hx; rcases hx with rfl | rfl | rfl | rfl <;>
            simp [TriggerStep.Forward])
      trivial).2.2.2.2.1,
   (technology_reveal_plays_once technologyHeadingReveal 3
      [TriggerStep.fire TriggerEvent.enter, TriggerStep.tick (1 / 2),
       TriggerStep.fire TriggerEvent.leaveBack, TriggerStep.fire TriggerEvent.enter]
      (TriggerStep.fire TriggerEvent.enterBack) (Or.inl rfl)
      (by intro x hx; simp at hx; rcases hx with rfl | rfl | rfl | rfl <;>
            simp [TriggerStep.Forward])
      trivial).2.2.2.2.2⟩

/-! ## Scrub triggers: the animation catches up, it is not set -/

theorem scrub_update_facts (t : ScrubTrigger) (scroll : ℚ) :
    (t.update scroll).progress = scrubTarget t.start t.stop scroll ∧
    (t.update scroll).animProgress = t.animProgress ∧
    (t.update scroll).start = t.start ∧ (t.update scroll).stop = t.stop ∧
    (t.update scroll).scrub = t.scrub := by
  unfold ScrubTrigger.update
  split
  · rename_i h; exact ⟨h.symm, rfl, rfl, rfl, rfl⟩
  · exact ⟨rfl, rfl, rfl, rfl, rfl⟩

theorem settled_update (t : ScrubTrigger) (scroll : ℚ) (h : t.Settled) :
    (t.update scroll).Settled := by
  unfold ScrubTrigger.update
  split
  · exact h
  · exact ⟨fun _ => ⟨rfl, le_refl _⟩, fun hf => by simp at hf⟩

theorem scrub_tick_facts (ease : ℚ → ℚ) (t : ScrubTrigger) (dt : ℚ) :
    (t.tick ease dt).progress = t.progress ∧ (t.tick ease dt).start = t.start ∧
    (t.tick ease dt).stop = t.stop ∧ (t.tick ease dt).scrub = t.scrub ∧
    (t.tweening = false → t.tick ease dt = t) ∧
    ((t.tick ease dt).tweening = true →
      t.tweening = true ∧ (t.tick ease dt).tweenElapsed = t.tweenElapsed + dt ∧
      (t.tick ease dt).tweenElapsed < t.scrub ∧ (t.tick ease dt).tweenTo = t.tweenTo) ∧
    ((t.tick ease dt).tweening = false → t.tweening = true →
      (t.tick ease dt).animProgress = t.tweenTo) := by
  unfold ScrubTrigger.tick
  cases ht : t.tweening
  · simp [ht]
  · simp only [Bool.not_true, Bool.false_eq_true, if_false]
    split
    · simp
    · rename_i h
      simp only [not_le] at h
      simp [ht, h]

theorem settled_tick (ease : ℚ → ℚ) (t : ScrubTrigger) (dt : ℚ) (hdt : 0 ≤ dt)
    (h : t.Settled) : (t.tick ease dt).Settled := by
  obtain ⟨hp, _, _, _, hsame, hrun, hdone⟩ := scrub_tick_facts ease t dt
  constructor
  · intro h1
    obtain ⟨ht, he, _, hto⟩ := hrun h1
    obtain ⟨a, b⟩ := h.1 ht
    exact ⟨by rw [hto, hp, a], by rw [he]; linarith⟩
  · intro h1
    cases ht : t.tweening
    · rw [hsame ht]; exact h.2 ht
    · rw [hdone h1 ht, hp]; exact (h.1 ht).1

theorem settled_run (ease : ℚ → ℚ) (es : List ScrubEvent) (hes : ∀ e ∈ es, e.Forward) :
    ∀ t : ScrubTrigger, t.Settled →
      (t.run ease es).Settled ∧ (t.run ease es).start = t.start ∧
      (t.run ease es).stop = t.stop ∧ (t.run ease es).scrub = t.scrub := by
  induction es with
  | nil => intro t h; exact ⟨h, rfl, rfl, rfl⟩
  | cons e es ih =>
    intro t h
    have hstep : (t.step ease e).Settled ∧ (t.step ease e).start = t.start ∧
        (t.step ease e).stop = t.stop ∧ (t.step ease e).scrub = t.scrub := by
      cases e with
      | update scroll =>
        obtain ⟨_, _, a, b, c⟩ := scrub_update_facts t scroll
        exact ⟨settled_update t scroll h, a, b, c⟩
      | tick dt =>
        obtain ⟨_, a, b, c, _⟩ := scrub_tick_facts ease t dt
        exact ⟨settled_tick ease t dt (hes _ (List.mem_cons_self _ _)) h, a, b, c⟩
    obtain ⟨h1, h2, h3, h4⟩ := ih (fun x hx => hes x (List.mem_cons_of_mem _ hx)) _ hstep.1
    exact ⟨h1, h2.trans hstep.2.1, h3.trans hstep.2.2.1, h4.trans hstep.2.2.2⟩

theorem scrub_ticks_idle (ease : ℚ → ℚ) (dts : List ℚ) :
    ∀ u : ScrubTrigger, u.tweening = false → u.ticks ease dts = u := by
  induction dts with
  | nil => intro u _; rfl
  | cons x l ih =>
    intro u hu
    show (u.tick ease x).ticks ease l = u
    rw [(scrub_tick_facts ease u x).2.2.2.2.1 hu]
    exact ih u hu

theorem scrub_ticks_facts (ease : ℚ → ℚ) (dts : List ℚ) (hdts : ∀ d ∈ dts, 0 ≤ d) :
    ∀ t : ScrubTrigger, t.Settled →
      (t.ticks ease dts).Settled ∧ (t.ticks ease dts).progress = t.progress ∧
      ((t.ticks ease dts).tweening = true →
        (t.ticks ease dts).tweenElapsed = t.tweenElapsed + dts.sum ∧
        (dts ≠ [] → (t.ticks ease dts).tweenElapsed < t.scrub)) := by
  induction dts with
  | nil => intro t h; exact ⟨h, rfl, fun _ => ⟨by simp [ScrubTrigger.ticks], fun c => absurd rfl c⟩⟩
  | cons d ds ih =>
    intro t h
    have hd : 0 ≤ d := hdts d (List.mem_cons_self _ _)
    obtain ⟨hp, _, _, hscrub, hsame, hrun, _⟩ := scrub_tick_facts ease t d
    obtain ⟨h1, h2, h3⟩ := ih (fun x hx => hdts x (List.mem_cons_of_mem _ hx)) _
      (settled_tick ease t d hd h)
    refine ⟨h1, h2.trans hp, ?_⟩
    intro hfin
    have hfin' : ((t.tick ease d).ticks ease ds).tweening = true := hfin
    obtain ⟨e1, e2⟩ := h3 hfin'
    have hmid : (t.tick ease d).tweening = true := by
      by_contra hc
      have hc' : (t.tick ease d).tweening = false := by simpa using hc
      rw [scrub_ticks_idle ease ds _ hc'] at hfin'
      rw [hc'] at hfin'
      exact Bool.false_ne_true hfin'
    obtain ⟨_, f2, f3, _⟩ := hrun hmid
    constructor
    · show ((t.tick ease d).ticks ease ds).tweenElapsed = _
      rw [e1, f2, List.sum_cons]; ring
    · intro _
      show ((t.tick ease d).ticks ease ds).tweenElapsed < _
      by_cases hds : ds = []
      · subst hds
        exact f3
      · rw [← hscrub]; exact e2 hds

/-- C8 (as the code has it): every scrub trigger of the components has a numeric
`scrub` (Hero 1.2, Services 1.5, Team 1, Footer 1).  On a scroll update the
trigger's own progress becomes `(scroll - start) / (end - start)` clamped to
`[0, 1]` (1/2 for 800, 1200, 1000), the bound animation's progress is left where
it was, and once `scrub` seconds of ticks have passed without a further change
the animation's progress equals that value. -/
theorem scrub_animation_catches_up (start stop scrub scroll : ℚ) (ease : ℚ → ℚ)
    (es : List ScrubEvent) (dts : List ℚ)
    (hscrub : scrub = heroScrub ∨ scrub = servicesScrub ∨ scrub = teamScrub ∨ scrub = footerScrub)
    (hes : ∀ e ∈ es, e.Forward) (hdts : ∀ d ∈ dts, 0 ≤ d) (hsum : scrub ≤ dts.sum) :
    (((ScrubTrigger.create start stop scrub).run ease es).update scroll).progress
      = clamp01 ((scroll - start) / (stop - start)) ∧
    (((ScrubTrigger.create start stop scrub).run ease es).update scroll).animProgress
      = ((ScrubTrigger.create start stop scrub).run ease es).animProgress ∧
    ((((ScrubTrigger.create start stop scrub).run ease es).update scroll).ticks ease
        dts).animProgress
      = clamp01 ((scroll - start) / (stop - start)) ∧
    scrubTarget 800 1200 1000 = 1 / 2 := by
  have hpos : 0 < scrub := by
    rcases hscrub with h | h | h | h <;> rw [h] <;>
      norm_num [heroScrub, servicesScrub, teamScrub, footerScrub]
  have h0 : (ScrubTrigger.create start stop scrub).Settled :=
    ⟨fun h => by simp [ScrubTrigger.create] at h, fun _ => rfl⟩
  obtain ⟨hset, hst, hsp, hsc⟩ := settled_run ease es hes _ h0
  obtain ⟨u1, u2, _, _, u5⟩ := scrub_update_facts
    ((ScrubTrigger.create start stop scrub).run ease es) scroll
  have htarget : (((ScrubTrigger.create start stop scrub).run ease es).update scroll).progress
      = clamp01 ((scroll - start) / (stop - start)) := by
    rw [u1, hst, hsp]; rfl
  have hset2 := settled_update _ scroll hset
  obtain ⟨k1, k2, k3⟩ := scrub_ticks_facts ease dts hdts _ hset2
  refine ⟨htarget, u2, ?_, by norm_num [scrubTarget, clamp01]⟩
  cases hfin : ((((ScrubTrigger.create start stop scrub).run ease es).update scroll).ticks ease
      dts).tweening
  · rw [k1.2 hfin, k2, htarget]
  · exfalso
    obtain ⟨e1, e2⟩ := k3 hfin
    have hne : dts ≠ [] := by
      intro hc
      rw [hc] at hsum
      simp at hsum
      linarith
    have hlt := e2 hne
    rw [e1, u5, hsc] at hlt
    have hstart : 0 ≤ (((ScrubTrigger.create start stop scrub).run ease es).update
        scroll).tweenElapsed := by
      cases hu : (((ScrubTrigger.create start stop scrub).run ease es).update scroll).tweening
      · rw [scrub_ticks_idle ease dts _ hu, hu] at hfin
        exact absurd hfin Bool.false_ne_true
      · exact (hset2.1 hu).2
    have : (ScrubTrigger.create start stop scrub).scrub = scrub := rfl
    rw [this] at hlt
    linarith

/-- C8 (amended) for the Hero trigger with the offsets of the scenario: at rest,
the offset becomes 1000, then 1.2 s pass in three ticks. -/
theorem scrub_animation_catches_up_witness :
    (((ScrubTrigger.create 800 1200 heroScrub).run (fun x => x) []).update 1000).progress
      = clamp01 ((1000 - 800) / (1200 - 800)) ∧
    ((((ScrubTrigger.create 800 1200 heroScrub).run (fun x => x) []).update 1000).ticks
        (fun x => x) [1 / 2, 1 / 2, 1 / 5]).animProgress
      = clamp01 ((1000 - 800) / (1200 - 800)) :=
  ⟨(scrub_animation_catches_up 800 1200 heroScrub 1000 (fun x => x) [] [1 / 2, 1 / 2, 1 / 5]
      (Or.inl rfl) (by simp)
      (by intro d hd; simp at hd; rcases hd with rfl | rfl | rfl <;> norm_num)
      (by norm_num [heroScrub])).1,
   (scrub_animation_catches_up 800 1200 heroScrub 1000 (fun x => x) [] [1 / 2, 1 / 2, 1 / 5]
      (Or.inl rfl) (by simp)
      (by intro d hd; simp at hd; rcases hd with rfl | rfl | rfl <;> norm_num)
      (by norm_num [heroScrub])).2.2.1⟩

/-- C8 fails as stated: the Hero trigger (`scrub: 1.2`) with start 800 and end
1200, at rest above its region, sees the offset 1000.  The trigger's progress is
1/2 but the animation's progress is still 0 when that update is done, and with a
linear catch-up it is 1/4 after a tick of 0.6 s, not 1/2. -/
theorem scrub_progress_counterexample :
    ((ScrubTrigger.create 800 1200 heroScrub).update 1000).progress = 1 / 2 ∧
    ((ScrubTrigger.create 800 1200 heroScrub).update 1000).animProgress = 0 ∧
    ((ScrubTrigger.create 800 1200 heroScrub).update 1000).animProgress
      ≠ clamp01 ((1000 - 800) / (1200 - 800)) ∧
    (((ScrubTrigger.create 800 1200 heroScrub).update 1000).tick (fun x => x)
      (6 / 10)).animProgress = 1 / 4 := by
  norm_num [ScrubTrigger.create, ScrubTrigger.update, ScrubTrigger.tick, scrubTarget, clamp01,
    heroScrub]

/-! ## The easing: half-life and bounds -/

theorem easing_tenth (k : Nat) : easing ((k : ℝ) / 10) = ((easingTenth k : ℚ) : ℝ) := by
  have h : (-10 * ((k : ℝ) / 10)) = -(k : ℝ) := by ring
  unfold easing easingTenth
  rw [h, Real.rpow_neg (by norm_num), Real.rpow_natCast]
  push_cast
  norm_num

theorem easing_mono : Monotone easing := by
  intro a b hab
  unfold easing
  apply min_le_min le_rfl
  apply sub_le_sub_left
  exact Real.rpow_le_rpow_of_exponent_le (by norm_num) (by linarith)

theorem easing_bounds (t : ℝ) (ht : 0 ≤ t) : 1 / 1000 ≤ easing t ∧ easing t ≤ 1 := by
  unfold easing
  refine ⟨le_min (by norm_num) ?_, min_le_left _ _⟩
  have h2 : (2 : ℝ) ^ (-10 * t) ≤ 1 :=
    Real.rpow_le_one_of_one_le_of_nonpos (by norm_num) (by linarith)
  have h3 : (1.001 : ℝ) = 1 / 1000 + 1 := by norm_num
  rw [h3]
  linarith

theorem lenisOffset_half_life : lenisOffset 0 1000 0.12 = 501 := by
  have h1 : max (0 : ℝ) (min ((0.12 : ℝ) / (lenisDuration : ℝ)) 1) = ((1 : ℕ) : ℝ) / 10 := by
    norm_num [lenisDuration]
  unfold lenisOffset
  rw [h1, easing_tenth]
  norm_num [easingTenth]

/-- C9 (as the code has it): with duration 1.2 s and easing
`min(1, 1.001 - 2^(-10 t))` the exponential term halves every 0.1 of normalised
time, and a jump from 0 to 1000 is at offset `1000 * e(0.1) = 501` after one
half-life (0.12 s): within 1 of 500, the easing's constant 0.001 adding 1 to the
exact half. -/
theorem easing_half_life_offset :
    (∀ t : ℝ, (2 : ℝ) ^ (-10 * (t + 0.1)) = (2 : ℝ) ^ (-10 * t) / 2) ∧
    easing 0.1 = 0.501 ∧
    lenisOffset 0 1000 0.12 = 1000 * easing 0.1 ∧
    lenisOffset 0 1000 0.12 = 501 ∧
    |lenisOffset 0 1000 0.12 - 500| ≤ 1 := by
  have he : easing 0.1 = 0.501 := by
    have := easing_tenth 1
    norm_num [easingTenth] at this
    rw [show (0.1 : ℝ) = 1 / 10 by norm_num, this]
    norm_num
  refine ⟨?_, he, ?_, lenisOffset_half_life, ?_⟩
  · intro t
    have h : (-10 * (t + 0.1) : ℝ) = -10 * t - 1 := by ring
    rw [h, Real.rpow_sub (by norm_num), Real.rpow_one]
  · rw [lenisOffset_half_life, he]; norm_num
  · rw [lenisOffset_half_life]; norm_num

/-- C9 fails as stated: the offset after one half-life is 501, which is not
within 0.5 of 500. -/
theorem easing_half_life_counterexample :
    ¬ (|lenisOffset 0 1000 0.12 - 500| ≤ 0.5) := by
  rw [lenisOffset_half_life]
  norm_num

/-- C10: the easing is non-decreasing, satisfies `0 < e(t) ≤ 1` for every real
`t ≥ 0`, with `e(0) = 0.001` and `e(1) = 1`; the interpolated offset always lies
between start and target (no overshoot) and equals the target from the end of
the 1.2 s duration on (so at least 99% of the delta is covered by then). -/
theorem easing_monotone_bounded :
    Monotone easing ∧
    (∀ t : ℝ, 0 ≤ t → 0 < easing t ∧ easing t ≤ 1) ∧
    easing 0 = 0.001 ∧ easing 1 = 1 ∧
    (∀ start target currentTime : ℝ,
      lenisOffset start target currentTime ∈ Set.uIcc start target) ∧
    (∀ start target currentTime : ℝ, (lenisDuration : ℝ) ≤ currentTime →
      lenisOffset start target currentTime = target) := by
  refine ⟨easing_mono, ?_, ?_, ?_, ?_, ?_⟩
  · intro t ht
    obtain ⟨h1, h2⟩ := easing_bounds t ht
    exact ⟨by linarith, h2⟩
  · have := easing_tenth 0
    norm_num [easingTenth] at this
    rw [this]; norm_num
  · have := easing_tenth 10
    norm_num [easingTenth] at this
    exact this
  · intro start target ct
    have hfrac : ∃ r : ℝ, 0 < r ∧ r ≤ 1 ∧
        lenisOffset start target ct = start + (target - start) * r := by
      unfold lenisOffset
      split
      · exact ⟨1, by norm_num, le_refl _, rfl⟩
      · obtain ⟨h1, h2⟩ := easing_bounds (max 0 (min (ct / (lenisDuration : ℝ)) 1))
          (le_max_left _ _)
        exact ⟨_, by linarith, h2, rfl⟩
    obtain ⟨r, hr0, hr1, hv⟩ := hfrac
    rw [hv, Set.mem_uIcc]
    rcases le_total start target with h | h
    · left
      constructor <;> nlinarith
    · right
      constructor <;> nlinarith
  · intro start target ct hct
    have hd : (0 : ℝ) < (lenisDuration : ℝ) := by norm_num [lenisDuration]
    have h1 : 1 ≤ max 0 (min (ct / (lenisDuration : ℝ)) 1) := by
      apply le_max_of_le_right
      apply le_min _ le_rfl
      rw [le_div_iff₀ hd]; linarith
    unfold lenisOffset
    rw [if_pos h1]; ring

/-- C10 at half the normalised time and at the end of the duration. -/
theorem easing_monotone_bounded_witness :
    (0 < easing (1 / 2) ∧ easing (1 / 2) ≤ 1) ∧ lenisOffset 0 1000 (12 / 10) = 1000 :=
  ⟨easing_monotone_bounded.2.1 (1 / 2) (by norm_num),
   easing_monotone_bounded.2.2.2.2.2 0 1000 (12 / 10) (by norm_num [lenisDuration])⟩

/-! ## The media query: failure and number of evaluations -/

/-- C11 (as the code has it): when the `'(pointer: coarse)'` query does not
match (in particular when it is unsupported) the mount effect completes and
takes the fine-pointer branch: a Lenis instance is created and held in
`lenisRef`.  When `window.matchMedia` itself is missing, the call throws a
`TypeError` which the effect does not catch, whatever the page. -/
theorem useLenis_without_media_query (mm : String → Bool) (w : World)
    (hno : mm "(pointer: coarse)" = false) :
    useLenisEffect (some mm) w = Except.ok (useLenisMount false w) ∧
    (useLenisMount false w).1
      = Cleanup.desktop w.lenises.length (TickerCb.lenisRaf w.lenises.length) ∧
    (useLenisMount false w).2.lenisRef = some w.lenises.length ∧
    (useLenisMount false w).2.lenises.length = w.lenises.length + 1 ∧
    (∀ v : World, useLenisEffect none v = Except.error JsError.typeError) := by
  refine ⟨?_, rfl, rfl, ?_, fun _ => rfl⟩
  · simp [useLenisEffect, hno]
  · simp [useLenisMount, World.newLenis, World.lenisOn, World.tickerAdd, World.lagSmoothing,
      World.updLenis, World.emit]

/-- C11 (amended) on a fresh page with a browser that knows no media feature. -/
theorem useLenis_without_media_query_witness :
    useLenisEffect (some (fun _ => false)) (World.init 0)
      = Except.ok (useLenisMount false (World.init 0)) ∧
    (useLenisMount false (World.init 0)).2.lenisRef = some (World.init 0).lenises.length :=
  ⟨(useLenis_without_media_query (fun _ => false) (World.init 0) rfl).1,
   (useLenis_without_media_query (fun _ => false) (World.init 0) rfl).2.2.1⟩

/-- C11 fails as stated: on a page without `window.matchMedia` the mount effect
ends in a `TypeError` instead of completing with the fine-pointer branch. -/
theorem useLenis_no_matchMedia_counterexample :
    useLenisEffect none (World.init 0) = Except.error JsError.typeError ∧
    useLenisEffect none (World.init 0) ≠ Except.ok (useLenisMount false (World.init 0)) := by
  constructor
  · rfl
  · intro h
    cases h

/-- C12 (as the code has it): one mount of `App` evaluates the query twice, once
in Hero's `startMouseParallax` (deciding the parallax branch) and once in the
mount effect of `useLenis` (deciding the scroll branch).  Nothing after these
two evaluations is read: answers that agree on them give the same session. -/
theorem app_mount_evaluates_query_twice (answer : Nat → Bool) (w : World) :
    (appMount answer w).queries = 2 ∧
    ((appMount answer w).heroCleanup = none ↔ answer 0 = true) ∧
    ((appMount answer w).lenisCleanup = Cleanup.mobile ↔ answer 1 = true) ∧
    (∀ other : Nat → Bool, other 0 = answer 0 → other 1 = answer 1 →
      appMount other w = appMount answer w) := by
  refine ⟨rfl, ?_, ?_, ?_⟩
  · cases h : answer 0 <;> simp [appMount, startMouseParallax, h]
  · cases h : answer 1 <;> simp [appMount, useLenisMount, h]
  · intro other h0 h1
    simp only [appMount, h0, h1]

/-- C12 (amended) on a fine-pointer device. -/
theorem app_mount_evaluates_query_twice_witness :
    (appMount (fun _ => false) (World.init 0)).queries = 2 ∧
    appMount (fun k => decide (k = 5)) (World.init 0)
      = appMount (fun _ => false) (World.init 0) :=
  ⟨(app_mount_evaluates_query_twice (fun _ => false) (World.init 0)).1,
   (app_mount_evaluates_query_twice (fun _ => false) (World.init 0)).2.2.2
      (fun k => decide (k = 5)) (by decide) (by decide)⟩

/-- C12 fails as stated: the query is evaluated twice, not once, and the two
results are used separately; if the device answers "fine" to Hero and "coarse"
to `useLenis`, the parallax is installed while the scroll takes the coarse
branch. -/
theorem app_mount_single_query_counterexample :
    (appMount (fun _ => false) (World.init 0)).queries ≠ 1 ∧
    (appMount (fun k => decide (k = 1)) (World.init 0)).heroCleanup = some () ∧
    (appMount (fun k => decide (k = 1)) (World.init 0)).lenisCleanup = Cleanup.mobile := by
  refine ⟨by decide, rfl, rfl⟩

/-! ## gsap contexts -/

/-- C13 at its failing inputs: a Team of four cards unmounted 0.1 s after its
mount, and a Header/MenuOverlay mounted open and unmounted 0.1 s later.  The
four hover tweens of Team and the timeline of Header/MenuOverlay were created
outside any `gsap.context` and are still held by gsap after the unmount, while
`ctx.revert()` leaves nothing of Hero, Services, Technology, Footer,
Menu/MenuOverlay and of Team's scroll reveal. -/
theorem tweens_outside_context_outlive_unmount :
    unmount Component.team (gsapElapse (1 / 10) (mountAnims Component.team 4 false))
      = List.replicate 4
          { owner := Component.team, inContext := false, remaining := some (2 / 10) } ∧
    unmount Component.headerMenuOverlay
        (gsapElapse (1 / 10) (mountAnims Component.headerMenuOverlay 0 true))
      = [{ owner := Component.headerMenuOverlay, inContext := false,
           remaining := some (145 / 100) }] ∧
    unmount Component.hero (gsapElapse (1 / 10) (mountAnims Component.hero 0 false)) = [] ∧
    unmount Component.services (gsapElapse (1 / 10) (mountAnims Component.services 4 false))
      = [] ∧
    unmount Component.technology
      (gsapElapse (1 / 10) (mountAnims Component.technology 0 false)) = [] ∧
    unmount Component.footer (gsapElapse (1 / 10) (mountAnims Component.footer 0 false)) = [] ∧
    unmount Component.menuOverlay
      (gsapElapse (1 / 10) (mountAnims Component.menuOverlay 0 false)) = [] := by
  refine ⟨?_, ?_, ?_, ?_, ?_, ?_, ?_⟩
  · norm_num [unmount, gsapElapse, mountAnims, teamHoverEffect, List.replicate,
      List.filterMap, List.filter]
  · norm_num [unmount, gsapElapse, mountAnims, timelineDuration, headerOpenSteps, placeStep,
      TlStep.span, List.filterMap, List.filter]
  · norm_num [unmount, gsapElapse, mountAnims, timelineDuration, heroIntroSteps, placeStep,
      TlStep.span, List.filterMap, List.filter]
  · simp [unmount, gsapElapse, mountAnims, List.filterMap_map, List.filter_eq_nil_iff]
  · simp [unmount, gsapElapse, mountAnims]
  · simp [unmount, gsapElapse, mountAnims]
  · simp [unmount, gsapElapse, mountAnims]

/-! ## Timelines: start offsets -/

/-- C14: the start offsets of the steps, resolved from the position parameters,
are non-decreasing in declaration order in each timeline the components build:
Hero intro with two title lines (0, 0.52, 0.87, 1.07, 1.47 s), the
Menu/MenuOverlay open timeline, and the open and close timelines of
Header/MenuOverlay. -/
theorem timeline_starts_nondecreasing :
    stepStarts (heroIntroSteps 2) = [0, 52 / 100, 87 / 100, 107 / 100, 147 / 100] ∧
    (stepStarts (heroIntroSteps 2)).Sorted (fun a b => a ≤ b) ∧
    stepStarts (menuSteps 5 4) = [0, 30 / 100, 87 / 100, 97 / 100] ∧
    (stepStarts (menuSteps 5 4)).Sorted (fun a b => a ≤ b) ∧
    stepStarts (headerOpenSteps 5 4) = [0, 0, 1 / 10, 7 / 10, 9 / 10] ∧
    (stepStarts (headerOpenSteps 5 4)).Sorted (fun a b => a ≤ b) ∧
    stepStarts (headerCloseSteps 5) = [0, 4 / 10, 7 / 10] ∧
    (stepStarts (headerCloseSteps 5)).Sorted (fun a b => a ≤ b) := by
  have h1 : stepStarts (heroIntroSteps 2) = [0, 52 / 100, 87 / 100, 107 / 100, 147 / 100] := by
    norm_num [stepStarts, heroIntroSteps, placeStep, TlStep.span]
  have h2 : stepStarts (menuSteps 5 4) = [0, 30 / 100, 87 / 100, 97 / 100] := by
    norm_num [stepStarts, menuSteps, placeStep, TlStep.span]
  have h3 : stepStarts (headerOpenSteps 5 4) = [0, 0, 1 / 10, 7 / 10, 9 / 10] := by
    norm_num [stepStarts, headerOpenSteps, placeStep, TlStep.span]
  have h4 : stepStarts (headerCloseSteps 5) = [0, 4 / 10, 7 / 10] := by
    norm_num [stepStarts, headerCloseSteps, placeStep, TlStep.span]
  refine ⟨h1, ?_, h2, ?_, h3, ?_, h4, ?_⟩
  · rw [h1]; norm_num [List.Sorted]
  · rw [h2]; norm_num [List.Sorted]
  · rw [h3]; norm_num [List.Sorted]
  · rw [h4]; norm_num [List.Sorted]

/-! ## Services: entrance trigger, scale targets, tween counts -/

theorem toggle_actions_run (t : ToggleTrigger) (ss : List TriggerStep) :
    ∀ e, (t.run ss).actionFor e = t.actionFor e := by
  induction ss generalizing t with
  | nil => intro e; rfl
  | cons s ss ih =>
    intro e
    show ((t.step s).run ss).actionFor e = _
    rw [ih]
    cases s <;> cases e <;> rfl

theorem animation_id_run (t : ToggleTrigger) (ss : List TriggerStep) :
    (t.run ss).animation.id = t.animation.id := by
  induction ss generalizing t with
  | nil => rfl
  | cons s ss ih =>
    show ((t.step s).run ss).animation.id = _
    rw [ih]
    cases s with
    | fire e =>
      show (applyAction (t.actionFor e) t.animation).id = _
      cases t.actionFor e <;> rfl
    | tick dt =>
      show (t.animation.advance dt).id = _
      unfold Animation.advance
      split <;> rfl

/-- C16 (as the code has it): with `'play none none reverse'` the entrance
trigger of a Services card plays its tween forward on enter and reverses that
same tween, from the progress it has, when the card is left backwards
(`onLeaveBack`, the scroll returning above the start).  On the forward leave and
on enter-back it does nothing: the tween keeps its direction and playhead. -/
theorem services_entrance_reverses_on_leave_back (ss : List TriggerStep) :
    ((servicesEntrance.run ss).step (TriggerStep.fire TriggerEvent.enter)).animation
      = (servicesEntrance.run ss).animation.play ∧
    ((servicesEntrance.run ss).step (TriggerStep.fire TriggerEvent.leave)).animation
      = (servicesEntrance.run ss).animation ∧
    ((servicesEntrance.run ss).step (TriggerStep.fire TriggerEvent.enterBack)).animation
      = (servicesEntrance.run ss).animation ∧
    ((servicesEntrance.run ss).step (TriggerStep.fire TriggerEvent.leaveBack)).animation
      = (servicesEntrance.run ss).animation.reverse ∧
    (servicesEntrance.run ss).animation.reverse.progress
      = (servicesEntrance.run ss).animation.progress ∧
    (servicesEntrance.run ss).animation.id = servicesEntrance.animation.id := by
  have h := toggle_actions_run servicesEntrance ss
  refine ⟨?_, ?_, ?_, ?_, rfl, animation_id_run _ ss⟩
  · show applyAction ((servicesEntrance.run ss).actionFor TriggerEvent.enter) _ = _
    rw [h]; rfl
  · show applyAction ((servicesEntrance.run ss).actionFor TriggerEvent.leave) _ = _
    rw [h]; rfl
  · show applyAction ((servicesEntrance.run ss).actionFor TriggerEvent.enterBack) _ = _
    rw [h]; rfl
  · show applyAction ((servicesEntrance.run ss).actionFor TriggerEvent.leaveBack) _ = _
    rw [h]; rfl

/-- C16 fails as stated: after the card entered and 0.4 s passed, the forward
leave does not reverse the tween; it goes on forward and 0.2 s later its
progress has grown from 1/2 to 3/4. -/
theorem services_entrance_leave_counterexample :
    (servicesEntrance.run
      [TriggerStep.fire TriggerEvent.enter, TriggerStep.tick (4 / 10),
       TriggerStep.fire TriggerEvent.leave]).animation.reversed = false ∧
    (servicesEntrance.run
      [TriggerStep.fire TriggerEvent.enter, TriggerStep.tick (4 / 10),
       TriggerStep.fire TriggerEvent.leave]).animation.progress = 1 / 2 ∧
    (servicesEntrance.run
      [TriggerStep.fire TriggerEvent.enter, TriggerStep.tick (4 / 10),
       TriggerStep.fire TriggerEvent.leave, TriggerStep.tick (2 / 10)]).animation.progress
      = 3 / 4 := by
  norm_num [ToggleTrigger.run, ToggleTrigger.step, ToggleTrigger.actionFor, servicesEntrance,
    applyAction, Animation.play, Animation.advance, Animation.progress]

/-- C17 at its failing input: the menu fully open.  The open timeline (five nav
items, four social links) lasts 1.52 s, so when the 650 ms timer of
`handleLinkClick` fires the reverse has only reached 0.87 s (progress 87/152);
it needs the whole 1.52 s. -/
theorem link_click_timer_fires_mid_reverse :
    timelineDuration (menuSteps 5 4) = 152 / 100 ∧
    (menuRun (menuMount MenuOverlay.init)
      [MenuEvent.setOpen true, MenuEvent.tick (152 / 100)]).progress = 1 ∧
    (handleLinkClick (menuRun (menuMount MenuOverlay.init)
      [MenuEvent.setOpen true, MenuEvent.tick (152 / 100)])).tlRef.map Animation.time
      = some (87 / 100) ∧
    (handleLinkClick (menuRun (menuMount MenuOverlay.init)
      [MenuEvent.setOpen true, MenuEvent.tick (152 / 100)])).progress = 87 / 152 ∧
    ¬ (timelineDuration (menuSteps 5 4) ≤ linkClickDelay) := by
  refine ⟨menu_duration, ?_, ?_, ?_, ?_⟩
  · norm_num [menuRun, menuStep, menuEffect, menuTick, menuMount, MenuOverlay.progress,
      Animation.progress, Animation.advance, Animation.play, menu_duration]
  · norm_num [handleLinkClick, linkClickDelay, menuRun, menuStep, menuEffect, menuTick,
      menuMount, Animation.advance, Animation.play, Animation.reverse, menu_duration]
  · norm_num [handleLinkClick, linkClickDelay, menuRun, menuStep, menuEffect, menuTick,
      menuMount, MenuOverlay.progress, Animation.progress, Animation.advance, Animation.play,
      Animation.reverse, menu_duration]
  · rw [menu_duration]; norm_num [linkClickDelay]

/-- C18 at its failing input: for the cards `i = 0, 1, 2` the expression
`0.97 - i * 0.01` gives 0.97, 0.96 and 0.95; the first card is scaled to 0.97,
not to 0.96. -/
theorem scaleTarget_values :
    scaleTarget 0 = 97 / 100 ∧ scaleTarget 1 = 96 / 100 ∧ scaleTarget 2 = 95 / 100 ∧
    scaleTarget 0 ≠ 96 / 100 ∧ scaleTarget 2 ≠ 94 / 100 := by
  norm_num [scaleTarget]

theorem services_prefix_counts (n : Nat) :
    ∀ m, m ≤ n →
      (((List.range m).map (servicesCard n)).flatten.countP ServicesTween.isEntrance = m ∧
       ((List.range m).map (servicesCard n)).flatten.countP ServicesTween.isScaleDown
         = min m (n - 1)) := by
  intro m
  induction m with
  | zero => intro _; simp
  | succ m ih =>
    intro hm
    obtain ⟨h1, h2⟩ := ih (by omega)
    rw [List.range_succ, List.map_append, List.flatten_append, List.countP_append,
      List.countP_append, h1, h2]
    by_cases hlt : (m : ℤ) < (n : ℤ) - 1
    · have : m < n - 1 := by omega
      simp only [List.map_cons, List.map_nil, List.flatten_cons, List.flatten_nil,
        List.append_nil, servicesCard, hlt, if_true]
      simp only [List.countP_cons, List.countP_nil, ServicesTween.isEntrance,
        ServicesTween.isScaleDown]
      constructor
      · simp
      · simp; omega
    · have : n - 1 ≤ m := by omega
      simp only [List.map_cons, List.map_nil, List.flatten_cons, List.flatten_nil,
        List.append_nil, servicesCard, hlt, if_false]
      simp only [List.countP_cons, List.countP_nil, ServicesTween.isEntrance,
        ServicesTween.isScaleDown]
      constructor
      · simp
      · simp; omega

/-- C19: over `n` cards the Services effect creates exactly `n` entrance tweens
and `n - 1` scale-down tweens (none when `n = 0`); the scale-down of card `i`
exists exactly when `i < n - 1`, its trigger is card `i + 1`, and the last card
has none. -/
theorem services_effect_counts (n : Nat) :
    (servicesEffect n).countP ServicesTween.isEntrance = n ∧
    (servicesEffect n).countP ServicesTween.isScaleDown = n - 1 ∧
    (∀ i, ServicesTween.entrance i ∈ servicesEffect n ↔ i < n) ∧
    (∀ i j, ServicesTween.scaleDown i j ∈ servicesEffect n ↔
      ((i : ℤ) < (n : ℤ) - 1 ∧ j = i + 1)) ∧
    (∀ j, ServicesTween.scaleDown (n - 1) j ∉ servicesEffect n) := by
  obtain ⟨h1, h2⟩ := services_prefix_counts n n (le_refl n)
  have hmem : ∀ i j, ServicesTween.scaleDown i j ∈ servicesEffect n ↔
      ((i : ℤ) < (n : ℤ) - 1 ∧ j = i + 1) := by
    intro i j
    simp only [servicesEffect, servicesCard, List.mem_flatten, List.mem_map, List.mem_range]
    constructor
    · rintro ⟨l, ⟨k, hk, rfl⟩, hin⟩
      simp only [List.mem_cons] at hin
      rcases hin with hin | hin
      · cases hin
      · split at hin
        · rename_i hlt
          simp only [List.mem_singleton, ServicesTween.scaleDown.injEq] at hin
          obtain ⟨rfl, rfl⟩ := hin
          exact ⟨hlt, rfl⟩
        · simp at hin
    · rintro ⟨hlt, rfl⟩
      refine ⟨_, ⟨i, by omega, rfl⟩, ?_⟩
      simp [hlt]
  refine ⟨h1, ?_, ?_, hmem, ?_⟩
  · rw [show (servicesEffect n).countP ServicesTween.isScaleDown
        = ((List.range n).map (servicesCard n)).flatten.countP ServicesTween.isScaleDown
        from rfl, h2]
    omega
  · intro i
    simp only [servicesEffect, servicesCard, List.mem_flatten, List.mem_map, List.mem_range]
    constructor
    · rintro ⟨l, ⟨k, hk, rfl⟩, hin⟩
      simp only [List.mem_cons] at hin
      rcases hin with hin | hin
      · simp only [ServicesTween.entrance.injEq] at hin
        omega
      · split at hin
        · simp at hin
        · simp at hin
    · intro hi
      exact ⟨_, ⟨i, hi, rfl⟩, by simp⟩
  · intro j hj
    have := (hmem (n - 1) j).mp hj
    omega

/-! ## useLenis: remount -/

theorem wf_run (w : World) (ss : List Step) (hw : w.raf.WF) : (run w ss).raf.WF :=
  run_inv (fun v => v.raf.WF) wf_step ss w hw

theorem wf_cleanup_mobile (w : World) (hw : w.raf.WF) :
    (runCleanup Cleanup.mobile w).raf.WF := by
  unfold runCleanup
  dsimp only
  split
  · split
    · exact wf_cancel _ _ hw
    · exact hw
  · exact hw

theorem hookView_mount_cleanup (w : World) (events : List Step)
    (hfresh : TickerCb.lenisRaf w.lenises.length ∉ w.ticker.listeners)
    (hids : ∀ l ∈ w.lenises, l.id ≠ w.lenises.length) :
    (hookView (runCleanup (useLenisMount false w).1 (run (useLenisMount false w).2 events))).1
      = (hookView w).1 ++ [(w.lenises.length, [], true)] ∧
    (hookView (runCleanup (useLenisMount false w).1
      (run (useLenisMount false w).2 events))).2.1 = w.ticker.listeners := by
  obtain ⟨hc, hl, ht, _⟩ := hookView_mount_desktop w hfresh hids
  obtain ⟨cl, ct, _⟩ := hookView_cleanup_desktop (run (useLenisMount false w).2 events)
    w.lenises.length (TickerCb.lenisRaf w.lenises.length)
  rw [hookView_run] at cl ct
  rw [hl] at cl
  rw [ht] at ct
  rw [hc]
  constructor
  · refine cl.trans ?_
    rw [List.map_append]
    congr 1
    · have hne : ∀ t ∈ (hookView w).1, t.1 ≠ w.lenises.length := by
        intro t ht1
        simp only [hookView, List.mem_map] at ht1
        obtain ⟨l, hl1, rfl⟩ := ht1
        exact hids l hl1
      calc (hookView w).1.map (fun t => if t.1 = w.lenises.length then (t.1, [], true) else t)
          = (hookView w).1.map id := by
            apply List.map_congr_left
            intro t ht1
            simp [hne t ht1]
        _ = (hookView w).1 := List.map_id _
    · simp
  · refine ct.trans ?_
    rw [List.erase_append_right _ hfresh]
    simp

/-- C15: mount, cleanup and a second mount of `useLenis` (with any events in
between) leave the registrations of a single mount.  Fine pointer: the ticker
holds its earlier callbacks plus the one callback of the second mount; the
first Lenis instance is destroyed with an empty emitter; the second one is the
only live instance of the hook, has `ScrollTrigger.update` as its one
`'scroll'` listener and is the one in `lenisRef`.  Coarse pointer: exactly one
frame request of the sync loop is pending, under the handle in `rafIdRef`. -/
theorem useLenis_remount_single_registration (w : World) (e1 e2 : List Step)
    (hfresh : ∀ k, w.lenises.length ≤ k → TickerCb.lenisRaf k ∉ w.ticker.listeners)
    (hids : ∀ l ∈ w.lenises, l.id < w.lenises.length)
    (hwf : w.raf.WF) (hidle : loopPending FrameCb.syncScrollTrigger w = []) :
    (useLenisMount false (run (runCleanup (useLenisMount false w).1
        (run (useLenisMount false w).2 e1)) e2)).2.ticker.listeners
      = w.ticker.listeners ++ [TickerCb.lenisRaf (w.lenises.length + 1)] ∧
    (useLenisMount false (run (runCleanup (useLenisMount false w).1
        (run (useLenisMount false w).2 e1)) e2)).2.lenises.map
          (fun l => (l.id, l.scrollListeners, l.destroyed))
      = w.lenises.map (fun l => (l.id, l.scrollListeners, l.destroyed))
          ++ [(w.lenises.length, [], true),
              (w.lenises.length + 1, [Listener.scrollTriggerUpdate], false)] ∧
    (useLenisMount false (run (runCleanup (useLenisMount false w).1
        (run (useLenisMount false w).2 e1)) e2)).2.lenisRef = some (w.lenises.length + 1) ∧
    LoopRunning FrameCb.syncScrollTrigger
      (useLenisMount true (run (runCleanup (useLenisMount true w).1
        (run (useLenisMount true w).2 e1)) e2)).2 := by
  have hids1 : ∀ l ∈ w.lenises, l.id ≠ w.lenises.length := fun l hl => (hids l hl).ne
  obtain ⟨v1, v2⟩ := hookView_mount_cleanup w e1 (hfresh _ (le_refl _)) hids1
  generalize hA : run (runCleanup (useLenisMount false w).1
    (run (useLenisMount false w).2 e1)) e2 = A
  have hview : hookView A = hookView (runCleanup (useLenisMount false w).1
      (run (useLenisMount false w).2 e1)) := by
    rw [← hA]; exact hookView_run _ e2
  have a1 : (hookView A).1 = (hookView w).1 ++ [(w.lenises.length, [], true)] :=
    (congrArg Prod.fst hview).trans v1
  have a2 : A.ticker.listeners = w.ticker.listeners :=
    (congrArg (fun t => t.2.1) hview).trans v2
  have hlen : A.lenises.length = w.lenises.length + 1 := by
    have := congrArg List.length a1
    simpa [hookView] using this
  have hfreshA : TickerCb.lenisRaf A.lenises.length ∉ A.ticker.listeners := by
    rw [hlen, a2]; exact hfresh _ (by omega)
  have hidsA : ∀ l ∈ A.lenises, l.id ≠ A.lenises.length := by
    intro l hl
    have hm : (l.id, l.scrollListeners, l.destroyed) ∈ (hookView A).1 := by
      simp only [hookView, List.mem_map]
      exact ⟨l, hl, rfl⟩
    rw [a1, List.mem_append] at hm
    rw [hlen]
    rcases hm with hm | hm
    · simp only [hookView, List.mem_map] at hm
      obtain ⟨l1, hl1, e⟩ := hm
      have := (Prod.mk.inj e).1
      have := hids l1 hl1
      omega
    · simp only [List.mem_singleton, Prod.mk.injEq] at hm
      omega
  obtain ⟨_, m1, m2, m3⟩ := hookView_mount_desktop A hfreshA hidsA
  refine ⟨?_, ?_, ?_, ?_⟩
  · have : (useLenisMount false A).2.ticker.listeners
        = A.ticker.listeners ++ [TickerCb.lenisRaf A.lenises.length] := m2
    rw [this, a2, hlen]
  · have : (useLenisMount false A).2.lenises.map
        (fun l => (l.id, l.scrollListeners, l.destroyed))
        = (hookView A).1 ++ [(A.lenises.length, [Listener.scrollTriggerUpdate], false)] := m1
    rw [this, a1, hlen]
    simp [hookView]
  · have : (useLenisMount false A).2.lenisRef = some A.lenises.length := m3
    rw [this, hlen]
  · have s := running_run FrameCb.syncScrollTrigger (fun _ _ h => by cases h) _ e1
      (sync_start w hwf hidle)
    have c := sync_cleanup _ s.1 s.2
    have cw := wf_cleanup_mobile _ s.1
    have i := idle_run FrameCb.syncScrollTrigger (fun _ _ h => by cases h) _ e2 c
    exact (sync_start _ (wf_run _ e2 cw) i).2

/-- C15 on a fresh page with a frame before and after the first cleanup. -/
theorem useLenis_remount_single_registration_witness :
    (useLenisMount false (run (runCleanup (useLenisMount false (World.init 0)).1
        (run (useLenisMount false (World.init 0)).2 [Step.frame])) [Step.frame])).2.lenisRef
      = some ((World.init 0).lenises.length + 1) ∧
    LoopRunning FrameCb.syncScrollTrigger
      (useLenisMount true (run (runCleanup (useLenisMount true (World.init 0)).1
        (run (useLenisMount true (World.init 0)).2 [Step.frame])) [Step.frame])).2 :=
  ⟨(useLenis_remount_single_registration (World.init 0) [Step.frame] [Step.frame]
      (by simp [World.init, Ticker.init]) (by simp [World.init])
      ⟨by simp [World.init], by simp [World.init]⟩ rfl).2.2.1,
   (useLenis_remount_single_registration (World.init 0) [Step.frame] [Step.frame]
      (by simp [World.init, Ticker.init]) (by simp [World.init])
      ⟨by simp [World.init], by simp [World.init]⟩ rfl).2.2.2⟩

/-! ## Hero parallax stays within 20 px -/

theorem mouse_lenisRaf (w : World) (id : Nat) (time : ℚ) :
    (w.lenisRaf id time).mouse = w.mouse := by
  unfold World.lenisRaf
  split
  · rfl
  · dsimp only
    split
    · rfl
    · exact (foldl_keeps World.mouse _ (fun a b => by cases b <;> rfl) _ _).trans rfl

theorem mouse_gsapTick (now : ℚ) (w : World) : (gsapTick now w).mouse = w.mouse := by
  unfold gsapTick
  dsimp only
  split_ifs
  all_goals first
    | rfl
    | exact (foldl_keeps World.mouse _
        (fun a b => by cases b <;> first | exact mouse_lenisRaf a _ _ | rfl) _ _).trans rfl

theorem inBox_onMove (cx cy iw ih : ℚ) (w : World)
    (hv : (Step.mouseMove cx cy iw ih).InViewport) (h : w.mouse.InBox) :
    (onMove cx cy iw ih w).mouse.InBox ∧
    (-1 ≤ (onMove cx cy iw ih w).mouse.tx ∧ (onMove cx cy iw ih w).mouse.tx ≤ 1) ∧
    (-1 ≤ (onMove cx cy iw ih w).mouse.ty ∧ (onMove cx cy iw ih w).mouse.ty ≤ 1) := by
  obtain ⟨hx0, hx1, hy0, hy1, hw, hh⟩ := hv
  obtain ⟨bx, by1, _, _⟩ := h
  have a1 : 0 ≤ cx / iw := div_nonneg hx0 hw.le
  have a2 : cx / iw ≤ 1 := (div_le_one hw).mpr hx1
  have b1 : 0 ≤ cy / ih := div_nonneg hy0 hh.le
  have b2 : cy / ih ≤ 1 := (div_le_one hh).mpr hy1
  have tx : -1 ≤ (cx / iw - 1 / 2) * 2 ∧ (cx / iw - 1 / 2) * 2 ≤ 1 := by
    constructor <;> linarith
  have ty : -1 ≤ (cy / ih - 1 / 2) * 2 ∧ (cy / ih - 1 / 2) * 2 ≤ 1 := by
    constructor <;> linarith
  exact ⟨⟨bx, by1, tx, ty⟩, tx, ty⟩

theorem inBox_heroTick (w : World) (h : w.mouse.InBox) : (heroTick w).mouse.InBox := by
  obtain ⟨⟨x0, x1⟩, ⟨y0, y1⟩, ⟨tx0, tx1⟩, ⟨ty0, ty1⟩⟩ := h
  unfold heroTick
  dsimp only
  split
  · exact ⟨⟨x0, x1⟩, ⟨y0, y1⟩, ⟨tx0, tx1⟩, ⟨ty0, ty1⟩⟩
  · have e1 : (w.requestFrame FrameCb.heroTick).2.mouse = w.mouse := rfl
    refine ⟨⟨?_, ?_⟩, ⟨?_, ?_⟩, ⟨tx0, tx1⟩, ⟨ty0, ty1⟩⟩
    all_goals
      simp only [World.emit, e1]
      linarith

theorem inBox_runHandle (w : World) (h : Nat) (hb : w.mouse.InBox) :
    (runHandle w h).mouse.InBox := by
  unfold runHandle
  split
  · rename_i cb _
    cases cb with
    | syncScrollTrigger => exact hb
    | heroTick => exact inBox_heroTick _ hb
    | foreign t a => cases a <;> exact hb
  · exact hb

theorem inBox_step (w : World) (s : Step) (hs : s.InViewport) (hb : w.mouse.InBox) :
    (step w s).mouse.InBox := by
  cases s with
  | frame =>
    show (List.foldl runHandle w _).mouse.InBox
    generalize (w.raf.pending.map Prod.fst) = hsnap
    induction hsnap generalizing w with
    | nil => exact hb
    | cons h t ih => exact ih _ (inBox_runHandle w h hb)
  | gsapTick now =>
    show (gsapTick now w).mouse.InBox
    rw [mouse_gsapTick]; exact hb
  | wheel l => exact hb
  | mouseMove cx cy iw ih =>
    show (List.foldl _ w w.mousemove).mouse.InBox
    generalize w.mousemove = ls
    induction ls generalizing w with
    | nil => exact hb
    | cons l ls ihl =>
      apply ihl
      cases l with
      | heroOnMove => exact (inBox_onMove cx cy iw ih w hs hb).1
      | foreign t => exact hb
  | foreignRequest t again => exact hb
  | foreignCancel id =>
    unfold step
    dsimp only
    split
    · exact hb
    · exact hb

theorem inBox_run (ss : List Step) (hss : ∀ s ∈ ss, s.InViewport) :
    ∀ w : World, w.mouse.InBox → (run w ss).mouse.InBox := by
  induction ss with
  | nil => intro w h; exact h
  | cons s ss ih =>
    intro w h
    exact ih (fun x hx => hss x (List.mem_cons_of_mem _ hx)) _
      (inBox_step w s (hss s (List.mem_cons_self _ _)) h)

/-- C20: for a pointer inside a viewport of positive size `onMove` stores targets
`tx`, `ty` in `[-1, 1]`; and from `x = y = 0`, after the parallax has started
and any sequence of events (frames, which run the tick, `mousemove` events with
the pointer inside the viewport, and everything else that happens on the page)
the offsets `x * 20` and `y * 20`, which are what a tick with the orbs present
hands to `gsap.set`, lie in `[-20, 20]`. -/
theorem hero_parallax_within_20px (w : World) (ss : List Step)
    (hm : w.mouse = Mouse.init) (hss : ∀ s ∈ ss, s.InViewport) :
    (∀ (cx cy iw ih : ℚ) (u : World), 0 ≤ cx → cx ≤ iw → 0 ≤ cy → cy ≤ ih → 0 < iw → 0 < ih →
      (-1 ≤ (onMove cx cy iw ih u).mouse.tx ∧ (onMove cx cy iw ih u).mouse.tx ≤ 1) ∧
      (-1 ≤ (onMove cx cy iw ih u).mouse.ty ∧ (onMove cx cy iw ih u).mouse.ty ≤ 1)) ∧
    (-20 ≤ (run (startMouseParallax false w).2 ss).mouse.x * 20 ∧
      (run (startMouseParallax false w).2 ss).mouse.x * 20 ≤ 20) ∧
    (-20 ≤ (run (startMouseParallax false w).2 ss).mouse.y * 20 ∧
      (run (startMouseParallax false w).2 ss).mouse.y * 20 ≤ 20) ∧
    (∀ u : World, u.orbsPresent = true →
      (heroTick u).log = u.log ++
        [Call.requestFrame FrameCb.heroTick (u.raf.counter + 1),
         Call.gsapSetOrbs ((heroTick u).mouse.x * 20) ((heroTick u).mouse.y * 20)]) := by
  have h0 : (startMouseParallax false w).2.mouse.InBox := by
    have e : (startMouseParallax false w).2.mouse
        = { w.mouse with rafId := some ((w.addMouseMove WindowListener.heroOnMove).raf.counter + 1) } := by
      have : (w.addMouseMove WindowListener.heroOnMove).mouse = w.mouse := by
        unfold World.addMouseMove; split <;> rfl
      simp [startMouseParallax, World.requestFrame, requestAnimationFrame, this]
    rw [e, hm]
    simp [Mouse.InBox, Mouse.init]
  obtain ⟨⟨x0, x1⟩, ⟨y0, y1⟩, _, _⟩ := inBox_run ss hss _ h0
  refine ⟨?_, ⟨by linarith, by linarith⟩, ⟨by linarith, by linarith⟩, ?_⟩
  · intro cx cy iw ih u a b c d e f
    have a1 : 0 ≤ cx / iw := div_nonneg a e.le
    have a2 : cx / iw ≤ 1 := (div_le_one e).mpr b
    have b1 : 0 ≤ cy / ih := div_nonneg c f.le
    have b2 : cy / ih ≤ 1 := (div_le_one f).mpr d
    simp only [onMove]
    refine ⟨⟨?_, ?_⟩, ⟨?_, ?_⟩⟩ <;> linarith
  · intro u hu
    simp [heroTick, hu, World.requestFrame, requestAnimationFrame, World.emit]

/-- C20 after the pointer moved to the bottom-right corner of a 1920 x 1080
viewport and three frames. -/
theorem hero_parallax_within_20px_witness :
    (-20 ≤ (run (startMouseParallax false (World.init 0)).2
        [Step.mouseMove 1920 1080 1920 1080, Step.frame, Step.frame, Step.frame]).mouse.x * 20 ∧
      (run (startMouseParallax false (World.init 0)).2
        [Step.mouseMove 1920 1080 1920 1080, Step.frame, Step.frame, Step.frame]).mouse.x * 20
        ≤ 20) :=
  (hero_parallax_within_20px (World.init 0)
    [Step.mouseMove 1920 1080 1920 1080, Step.frame, Step.frame, Step.frame] rfl
    (by
      intro s hs
      simp only [List.mem_cons, List.mem_singleton, List.not_mem_nil, or_false] at hs
      rcases hs with rfl | rfl | rfl | rfl
      · norm_num [Step.InViewport]
      · trivial
      · trivial
      · trivial)).2.1

/-! ## Hero parallax: the lerp -/

theorem heroTick_present (w : World) (h : w.orbsPresent = true) :
    (heroTick w).orbsPresent = true ∧
    (heroTick w).mouse.x = w.mouse.x + (w.mouse.tx - w.mouse.x) * (7 / 100) ∧
    (heroTick w).mouse.y = w.mouse.y + (w.mouse.ty - w.mouse.y) * (7 / 100) ∧
    (heroTick w).mouse.tx = w.mouse.tx ∧ (heroTick w).mouse.ty = w.mouse.ty := by
  simp [heroTick, h, World.requestFrame, requestAnimationFrame, World.emit]

theorem heroTick_absent (w : World) (h : w.orbsPresent = false) :
    (heroTick w).mouse.x = w.mouse.x ∧ (heroTick w).mouse.y = w.mouse.y := by
  simp [heroTick, h, World.requestFrame, requestAnimationFrame]

theorem heroTick_iterate (n : Nat) :
    ∀ w : World, w.orbsPresent = true →
      (Nat.iterate heroTick n w).mouse.x
        = w.mouse.tx - (w.mouse.tx - w.mouse.x) * (93 / 100) ^ n ∧
      (Nat.iterate heroTick n w).mouse.y
        = w.mouse.ty - (w.mouse.ty - w.mouse.y) * (93 / 100) ^ n := by
  induction n with
  | zero => intro w _; simp
  | succ n ih =>
    intro w h
    obtain ⟨ho, hx, hy, htx, hty⟩ := heroTick_present w h
    obtain ⟨ix, iy⟩ := ih (heroTick w) ho
    rw [Function.iterate_succ_apply, ix, iy, hx, hy, htx, hty]
    constructor <;> ring

/-- C21: a Hero parallax tick with the orbs element present moves the position
by exactly 7% of the remaining distance: the distance to the target becomes 0.93
times what it was, the new position lies between the old one and the target, and
after `n` ticks with the target fixed `x_n = tx - (tx - x_0) * 0.93^n`, likewise
for `y`.  A tick with the orbs element absent leaves `x` and `y` as they are. -/
theorem hero_tick_lerps_seven_percent (w : World) (n : Nat) (h : w.orbsPresent = true) :
    (heroTick w).mouse.x - w.mouse.x = (7 / 100) * (w.mouse.tx - w.mouse.x) ∧
    (heroTick w).mouse.y - w.mouse.y = (7 / 100) * (w.mouse.ty - w.mouse.y) ∧
    w.mouse.tx - (heroTick w).mouse.x = (93 / 100) * (w.mouse.tx - w.mouse.x) ∧
    w.mouse.ty - (heroTick w).mouse.y = (93 / 100) * (w.mouse.ty - w.mouse.y) ∧
    (min w.mouse.x w.mouse.tx ≤ (heroTick w).mouse.x ∧
      (heroTick w).mouse.x ≤ max w.mouse.x w.mouse.tx) ∧
    (min w.mouse.y w.mouse.ty ≤ (heroTick w).mouse.y ∧
      (heroTick w).mouse.y ≤ max w.mouse.y w.mouse.ty) ∧
    (Nat.iterate heroTick n w).mouse.x
      = w.mouse.tx - (w.mouse.tx - w.mouse.x) * (93 / 100) ^ n ∧
    (Nat.iterate heroTick n w).mouse.y
      = w.mouse.ty - (w.mouse.ty - w.mouse.y) * (93 / 100) ^ n ∧
    (∀ u : World, u.orbsPresent = false →
      (heroTick u).mouse.x = u.mouse.x ∧ (heroTick u).mouse.y = u.mouse.y) := by
  obtain ⟨_, hx, hy, _, _⟩ := heroTick_present w h
  obtain ⟨ix, iy⟩ := heroTick_iterate n w h
  refine ⟨by rw [hx]; ring, by rw [hy]; ring, by rw [hx]; ring, by rw [hy]; ring,
    ?_, ?_, ix, iy, heroTick_absent⟩
  · rw [hx]
    rcases le_total w.mouse.x w.mouse.tx with hle | hle
    · rw [min_eq_left hle, max_eq_right hle]
      constructor <;> linarith
    · rw [min_eq_right hle, max_eq_left hle]
      constructor <;> linarith
  · rw [hy]
    rcases le_total w.mouse.y w.mouse.ty with hle | hle
    · rw [min_eq_left hle, max_eq_right hle]
      constructor <;> linarith
    · rw [min_eq_right hle, max_eq_left hle]
      constructor <;> linarith

/-- C21 with the pointer at the right edge (`tx = 1`), from rest: after two
ticks `x = 1 - 0.93^2`. -/
theorem hero_tick_lerps_seven_percent_witness :
    (Nat.iterate heroTick 2
        (onMove 1920 540 1920 1080 (startMouseParallax false (World.init 0)).2)).mouse.x
      = (onMove 1920 540 1920 1080 (startMouseParallax false (World.init 0)).2).mouse.tx
        - ((onMove 1920 540 1920 1080 (startMouseParallax false (World.init 0)).2).mouse.tx
            - (onMove 1920 540 1920 1080 (startMouseParallax false (World.init 0)).2).mouse.x)
          * (93 / 100) ^ 2 :=
  (hero_tick_lerps_seven_percent
    (onMove 1920 540 1920 1080 (startMouseParallax false (World.init 0)).2) 2 rfl).2.2.2.2.2.2.1

/-! ## startMouseParallax: what it installs -/

theorem mousemove_lenisRaf (w : World) (id : Nat) (time : ℚ) :
    (w.lenisRaf id time).mousemove = w.mousemove := by
  unfold World.lenisRaf
  split
  · rfl
  · dsimp only
    split
    · rfl
    · exact (foldl_keeps World.mousemove _ (fun a b => by cases b <;> rfl) _ _).trans rfl

theorem mousemove_gsapTick (now : ℚ) (w : World) :
    (gsapTick now w).mousemove = w.mousemove := by
  unfold gsapTick
  dsimp only
  split_ifs
  all_goals first
    | rfl
    | exact (foldl_keeps World.mousemove _
        (fun a b => by cases b <;> first | exact mousemove_lenisRaf a _ _ | rfl) _ _).trans rfl

theorem mousemove_runHandle (w : World) (h : Nat) :
    (runHandle w h).mousemove = w.mousemove := by
  unfold runHandle
  split
  · rename_i cb _
    cases cb with
    | syncScrollTrigger => rfl
    | heroTick =>
      simp only [runFrameCb, heroTick]
      split <;> rfl
    | foreign t a => cases a <;> rfl
  · rfl

theorem mousemove_step (w : World) (s : Step) : (step w s).mousemove = w.mousemove := by
  cases s with
  | frame => exact foldl_keeps World.mousemove _ mousemove_runHandle _ w
  | gsapTick now => exact mousemove_gsapTick now w
  | wheel l => rfl
  | mouseMove a b c d =>
    exact foldl_keeps World.mousemove _ (fun w l => by cases l <;> rfl) _ w
  | foreignRequest t again => rfl
  | foreignCancel id =>
    unfold step
    dsimp only
    split <;> rfl

theorem mousemove_run (w : World) (ss : List Step) : (run w ss).mousemove = w.mousemove :=
  foldl_keeps World.mousemove step mousemove_step ss w

/-- C22: on a pointer-coarse device `startMouseParallax` returns no cleanup and
leaves the page as it is (no `mousemove` listener, no frame request, the mouse
state untouched).  On a pointer-fine device it returns a cleanup, adds its one
`mousemove` listener and one frame request; the cleanup run at once restores
both lists, and run after any events it leaves the listener list as before the
start and no request of the loop pending. -/
theorem startMouseParallax_installs_and_removes (w : World) (events : List Step)
    (hfresh : WindowListener.heroOnMove ∉ w.mousemove)
    (hwf : w.raf.WF) (hidle : loopPending FrameCb.heroTick w = []) :
    startMouseParallax true w = (none, w) ∧
    (startMouseParallax false w).1 = some () ∧
    (startMouseParallax false w).2.mousemove = w.mousemove ++ [WindowListener.heroOnMove] ∧
    (startMouseParallax false w).2.raf.pending
      = w.raf.pending ++ [(w.raf.counter + 1, FrameCb.heroTick)] ∧
    (heroCleanup (startMouseParallax false w).2).mousemove = w.mousemove ∧
    (heroCleanup (startMouseParallax false w).2).raf.pending = w.raf.pending ∧
    (heroCleanup (run (startMouseParallax false w).2 events)).mousemove = w.mousemove ∧
    loopPending FrameCb.heroTick (heroCleanup (run (startMouseParallax false w).2 events))
      = [] := by
  have hadd : w.addMouseMove WindowListener.heroOnMove
      = { w with mousemove := w.mousemove ++ [WindowListener.heroOnMove] } := by
    simp [World.addMouseMove, hfresh]
  have hmm : (startMouseParallax false w).2.mousemove
      = w.mousemove ++ [WindowListener.heroOnMove] := by
    simp [startMouseParallax, hadd, World.requestFrame]
  have herase : (w.mousemove ++ [WindowListener.heroOnMove]).erase WindowListener.heroOnMove
      = w.mousemove := by
    rw [List.erase_append_right _ hfresh]; simp
  have hpend : (startMouseParallax false w).2.raf.pending
      = w.raf.pending ++ [(w.raf.counter + 1, FrameCb.heroTick)] := by
    simp [startMouseParallax, hadd, World.requestFrame, requestAnimationFrame]
  have hid : (startMouseParallax false w).2.mouse.rafId = some (w.raf.counter + 1) := by
    simp [startMouseParallax, hadd, World.requestFrame, requestAnimationFrame]
  refine ⟨rfl, rfl, hmm, hpend, ?_, ?_, ?_, ?_⟩
  · show ((startMouseParallax false w).2.mousemove).erase WindowListener.heroOnMove = _
    rw [hmm, herase]
  · show ((startMouseParallax false w).2.raf.pending).filter _ = _
    rw [hid, hpend, Option.getD_some, List.filter_append]
    have : w.raf.pending.filter (fun e => decide (e.1 ≠ w.raf.counter + 1)) = w.raf.pending := by
      rw [List.filter_eq_self]
      intro e he
      have := (hwf.2 e he).2
      simp only [ne_eq, decide_not, Bool.not_eq_true', decide_eq_false_iff_not]
      omega
    rw [this]
    simp
  · show ((run (startMouseParallax false w).2 events).mousemove).erase
      WindowListener.heroOnMove = _
    rw [mousemove_run, hmm, herase]
  · have r := running_run FrameCb.heroTick (fun _ _ h => by cases h) _ events
      (hero_start w hwf hidle)
    exact hero_cleanup _ r.2

/-- C22 on a fresh page with two frames and a pointer move before the cleanup. -/
theorem startMouseParallax_installs_and_removes_witness :
    startMouseParallax true (World.init 0) = (none, World.init 0) ∧
    (heroCleanup (run (startMouseParallax false (World.init 0)).2
      [Step.frame, Step.mouseMove 10 10 100 100, Step.frame])).mousemove
      = (World.init 0).mousemove ∧
    loopPending FrameCb.heroTick
      (heroCleanup (run (startMouseParallax false (World.init 0)).2
        [Step.frame, Step.mouseMove 10 10 100 100, Step.frame])) = [] :=
  ⟨(startMouseParallax_installs_and_removes (World.init 0)
      [Step.frame, Step.mouseMove 10 10 100 100, Step.frame]
      (by simp [World.init]) ⟨by simp [World.init], by simp [World.init]⟩ rfl).1,
   (startMouseParallax_installs_and_removes (World.init 0)
      [Step.frame, Step.mouseMove 10 10 100 100, Step.frame]
      (by simp [World.init]) ⟨by simp [World.init], by simp [World.init]⟩ rfl).2.2.2.2.2.2.1,
   (startMouseParallax_installs_and_removes (World.init 0)
      [Step.frame, Step.mouseMove 10 10 100 100, Step.frame]
      (by simp [World.init]) ⟨by simp [World.init], by simp [World.init]⟩ rfl).2.2.2.2.2.2.2⟩

/-! ## Technology: the marquee list -/

/-- C23: `allTechs` is `TECHNOLOGIES` twice: its length is `2 * 12`, the entries
at `i` and `i + 12` are both `TECHNOLOGIES[i]` for every `i < 12`, and a marquee
item carries `aria-hidden` exactly when its index is at least 12 (the second
copy). -/
theorem allTechs_is_list_twice :
    TECHNOLOGIES.length = 12 ∧ allTechs.length = 2 * TECHNOLOGIES.length ∧
    (∀ i, i < TECHNOLOGIES.length →
      allTechs[i]? = TECHNOLOGIES[i]? ∧ allTechs[i + TECHNOLOGIES.length]? = TECHNOLOGIES[i]?) ∧
    marqueeItems.length = allTechs.length ∧
    (∀ i, i < allTechs.length →
      marqueeItems[i]? = (allTechs[i]?).map (fun t => (t, decide (TECHNOLOGIES.length ≤ i)))) ∧
    (∀ i, i < allTechs.length →
      ((marqueeItems[i]?).map Prod.snd = some true ↔ TECHNOLOGIES.length ≤ i)) := by
  have hlen : TECHNOLOGIES.length = 12 := rfl
  have hall : allTechs.length = 24 := rfl
  refine ⟨hlen, by rw [hall, hlen], ?_, by simp [marqueeItems], ?_, ?_⟩
  · intro i hi
    constructor
    · exact List.getElem?_append_left hi
    · unfold allTechs
      rw [List.getElem?_append_right (Nat.le_add_left _ _)]
      simp
  · intro i _
    simp only [marqueeItems, List.getElem?_map, List.getElem?_enum, Option.map_map]
    rfl
  · intro i hi
    have hsome : ∃ t, allTechs[i]? = some t := ⟨allTechs[i], List.getElem?_eq_getElem hi⟩
    obtain ⟨t, ht⟩ := hsome
    simp [marqueeItems, List.getElem?_map, List.getElem?_enum, ht]

/-! ## Team: hover dimming -/

/-- C24: the target of card `i` under `hoveredIndex` is (opacity 1, scale 1)
when nothing is hovered, (1, 1.05) for the hovered card and (0.3, 0.95) for
every other card; with a card `h` of the `cards` cards hovered, `h` is the only
enlarged card and all others are dimmed, and with none hovered every card is
restored. -/
theorem team_hover_targets (cards h : Nat) (hh : h < cards) :
    (∀ i, hoverTarget none i = { opacity := 1, scale := 1 }) ∧
    hoverTarget (some h) h = { opacity := 1, scale := 105 / 100 } ∧
    (∀ i, i ≠ h → hoverTarget (some h) i = { opacity := 3 / 10, scale := 95 / 100 }) ∧
    (List.range cards).filter (fun i => (hoverTarget (some h) i).scale = 105 / 100) = [h] ∧
    (∀ i, i < cards → i ≠ h →
      (teamHoverTargets (some h) cards)[i]? = some { opacity := 3 / 10, scale := 95 / 100 }) ∧
    (teamHoverTargets (some h) cards)[h]? = some { opacity := 1, scale := 105 / 100 } ∧
    teamHoverTargets none cards = List.replicate cards { opacity := 1, scale := 1 } := by
  have hne : ∀ i, i ≠ h → hoverTarget (some h) i = { opacity := 3 / 10, scale := 95 / 100 } := by
    intro i hi
    simp [hoverTarget, hi]
  have hself : hoverTarget (some h) h = { opacity := 1, scale := 105 / 100 } := by
    simp [hoverTarget]
  refine ⟨fun _ => rfl, hself, hne, ?_, ?_, ?_, ?_⟩
  · have hiff : ∀ i, decide ((hoverTarget (some h) i).scale = 105 / 100) = decide (i = h) := by
      intro i
      by_cases hi : i = h
      · rw [hi, hself]; simp
      · rw [hne i hi]; simp [hi]; norm_num
    have : (fun i => decide ((hoverTarget (some h) i).scale = 105 / 100))
        = (fun i => decide (i = h)) := funext hiff
    rw [this]
    have hnd : (List.range cards).Nodup := List.nodup_range cards
    have hmem : h ∈ List.range cards := List.mem_range.mpr hh
    have hperm : ∀ l : List Nat, l.Nodup → h ∈ l → l.filter (fun i => decide (i = h)) = [h] := by
      intro l
      induction l with
      | nil => intro _ hm; simp at hm
      | cons a l ih =>
        intro hn hm
        rw [List.nodup_cons] at hn
        by_cases ha : a = h
        · subst ha
          have : l.filter (fun i => decide (i = a)) = [] := by
            rw [List.filter_eq_nil_iff]
            intro x hx
            simp only [decide_eq_true_eq]
            intro hxa
            exact hn.1 (hxa ▸ hx)
          simp [List.filter_cons, this]
        · have hm2 : h ∈ l := by
            rcases List.mem_cons.mp hm with e | e
            · exact absurd e.symm ha
            · exact e
          simp [List.filter_cons, ha, ih hn.2 hm2]
    exact hperm _ hnd hmem
  · intro i hi hih
    simp [teamHoverTargets, List.getElem?_map, List.getElem?_range hi, hne i hih]
  · simp [teamHoverTargets, List.getElem?_map, List.getElem?_range hh, hself]
  · unfold teamHoverTargets
    apply List.ext_getElem
    · simp
    · intro i h1 h2
      simp [hoverTarget]

/-- C24 for the four team cards with the third one hovered. -/
theorem team_hover_targets_witness :
    (List.range 4).filter (fun i => (hoverTarget (some 2) i).scale = 105 / 100) = [2] ∧
    teamHoverTargets none 4 = List.replicate 4 { opacity := 1, scale := 1 } :=
  ⟨(team_hover_targets 4 2 (by decide)).2.2.2.1, (team_hover_targets 4 2 (by decide)).2.2.2.2.2.2⟩

/-! ## Technology: stat gradients -/

/-- C25 at its failing inputs: the gradients computed for the three `STATS`
entries.  The first entry gets the colours its grad string names; the second
and the third get `#8b5cf6` twice, although their grad strings name
`#4f46e5`, `#8b5cf6` and `#8b5cf6`, `#ec4899`. -/
theorem stat_gradients_computed :
    STATS.map (fun s => statGradient s.grad)
      = ["linear-gradient(135deg, #00d9ff, #4f46e5)",
         "linear-gradient(135deg, #8b5cf6, #8b5cf6)",
         "linear-gradient(135deg, #8b5cf6, #8b5cf6)"] ∧
    STATS.map (fun s => namedGradient s.grad)
      = ["linear-gradient(135deg, #00d9ff, #4f46e5)",
         "linear-gradient(135deg, #4f46e5, #8b5cf6)",
         "linear-gradient(135deg, #8b5cf6, #ec4899)"] ∧
    gradientFirst "from-[#4f46e5] to-[#8b5cf6]" ≠ gradNamedFrom "from-[#4f46e5] to-[#8b5cf6]" ∧
    gradientSecond "from-[#8b5cf6] to-[#ec4899]" ≠ gradNamedTo "from-[#8b5cf6] to-[#ec4899]" := by
  refine ⟨by decide, by decide, by decide, by decide⟩

end Partfolio
